import Mathlib

/-!
# T: an acme front end for a 9P twitter file system

A shallow embedding of `print.go`, `acme.go` and `main.go`, and the properties
of the timeline renderer, the window registry and the window event handlers.

Conventions of the embedding.

* Go strings and byte slices are `String`s.
* A Go `error` is a value of `error`; the nil error is `none : Option error`.
* A pointer that may be nil is an `Option`; dereferencing nil panics.
* Functions that may panic or terminate the process return an `Outcome`.
* The remote file tree, reached through `fsys`, is an oracle `Clnt`: what each
  9P request answers.  Every request is recorded in a log of `FsOp`s.
* The host editor is the list of its windows (`Win`), each with the text of its
  tag and body and the control messages it has received.
* Library code (`sort`, `path`, `strings`, `fmt`, go9p's `clnt`, the `acme`
  package) is not part of the repository; it is modelled from its documented
  behaviour, next to the function of the repository that calls it.
-/

namespace T

/-! ## Values shared by all three files -/

/-- A non-nil Go `error`: its message, and whether `errors.WithStack` has
attached a stack trace to it. -/
structure error where
  msg : String
  stack : Bool := false
deriving DecidableEq, Repr

/-- The `Error()` method. -/
def error.Error (e : error) : String := e.msg

/-- The sentinel `io.EOF`. -/
def io.EOF : error := { msg := "EOF" }

/-- `errors.WithStack(err)`: nil stays nil, otherwise the same message with a
stack trace attached. -/
def errors.WithStack : Option error → Option error
  | none => none
  | some e => some { e with stack := true }

/-- Outcome of running a piece of the program from a state of type `σ`: it
returns a value, or the goroutine panics (which crashes the process), or the
process terminates through `os.Exit` / `log.Fatal`. -/
inductive Outcome (σ α : Type) where
  | ret (val : α) (s : σ)
  | panic (msg : String) (s : σ)
  | exit (code : Nat) (s : σ)
deriving DecidableEq

/-- Sequencing: the continuation runs only if the first part returned. -/
def Outcome.bind {σ α β : Type} (o : Outcome σ α) (k : α → σ → Outcome σ β) : Outcome σ β :=
  match o with
  | .ret a s => k a s
  | .panic m s => .panic m s
  | .exit c s => .exit c s

/-- The state in which the run ended. -/
def Outcome.state {σ α : Type} : Outcome σ α → σ
  | .ret _ s => s
  | .panic _ s => s
  | .exit _ s => s

/-- The value returned, if the run returned. -/
def Outcome.val? {σ α : Type} : Outcome σ α → Option α
  | .ret a _ => some a
  | .panic _ _ => none
  | .exit _ _ => none

/-- The run ended in a panic. -/
def Outcome.panicked {σ α : Type} : Outcome σ α → Bool
  | .panic _ _ => true
  | _ => false

/-- The run ended the process with an exit status. -/
def Outcome.exited {σ α : Type} : Outcome σ α → Option Nat
  | .exit c _ => some c
  | _ => none

/-! ## fmt -/

/-- The state `pp` of one call of `fmt.Sprintf`: the output so far, the index
of the next operand, whether an explicit operand index was seen, and whether
the operand index of the verb at hand is good. -/
structure fmt.pp where
  buf : List Char := []
  argNum : Nat := 0
  reordered : Bool := false
  goodArgNum : Bool := true
deriving DecidableEq, Repr

/-- `tooLarge(x)`: a width, precision or index beyond a million. -/
def fmt.tooLarge (x : Nat) : Bool := x > 1000000

/-- The loop of `parsenum`. -/
def fmt.parsenum.loop : List Char → Nat → Bool → Nat × Bool × List Char
  | [], num, isnum => (num, isnum, [])
  | c :: cs, num, isnum =>
    if '0' ≤ c ∧ c ≤ '9' then
      if fmt.tooLarge num then (0, false, [])
      else loop cs (num * 10 + (c.toNat - '0'.toNat)) true
    else (num, isnum, c :: cs)

/-- `parsenum(s, start, end)`, on the text `s[start:end]`: the number, whether
there is one, and the text after it, which is empty when the number is too
large. -/
def fmt.parsenum (s : List Char) : Nat × Bool × List Char := fmt.parsenum.loop s 0 false

/-- `parseArgNumber(format)`, `format` starting with `[`: the index, the number
of characters to skip, and whether the index is well formed. -/
def fmt.parseArgNumber (format : List Char) : Int × Nat × Bool :=
  if format.length < 3 then (0, 1, false)
  else
    let inner := (format.drop 1).takeWhile fun c => c != ']'
    if ']' ∈ format.drop 1 then
      let i := inner.length + 1
      let (width, ok, rest) := fmt.parsenum inner
      if !ok ∨ rest ≠ [] then (0, i + 1, false) else ((width : Int) - 1, i + 1, true)
    else (0, 1, false)

/-- `p.argNumber(argNum, format, i, numArgs)`, on the text `format[i:]`: the
state, the text after the index, and whether an index was found. -/
def fmt.argNumber (p : fmt.pp) (format : List Char) (numArgs : Nat) :
    fmt.pp × List Char × Bool :=
  match format with
  | '[' :: _ =>
    let p := { p with reordered := true }
    let (index, wid, ok) := fmt.parseArgNumber format
    if ok ∧ 0 ≤ index ∧ index < numArgs then
      ({ p with argNum := index.toNat }, format.drop wid, true)
    else ({ p with goodArgNum := false }, format.drop wid, ok)
  | _ => (p, format, false)

/-- `intFromArg(a, argNum)`, the new `argNum`: an operand, if one is left, is
used up.  The operands of this program are strings and byte slices, so none is
an integer. -/
def fmt.intFromArg (a : List String) (argNum : Nat) : Nat :=
  if argNum < a.length then argNum + 1 else argNum

/-- The flags of a verb. -/
def fmt.isFlag (c : Char) : Bool := c = '#' ∨ c = '0' ∨ c = '+' ∨ c = '-' ∨ c = ' '

/-- `p.printArg(a[argNum], verb)`: the operands of this program are strings and
byte slices under the plain verb `s`, which writes their text; the other verbs
and the flags, width and precision are not modelled with an operand, which is
then written in the same way. -/
def fmt.printArg (p : fmt.pp) (a : List String) : fmt.pp :=
  { p with buf := p.buf ++ (a.getD p.argNum "").data, argNum := p.argNum + 1 }

/-- `p.doPrintf(format, a)`, the loop over the format: text is copied up to the
next `%`; then come the flags, an operand index, the width, the precision, an
operand index, and the verb.  A verb without operand writes `%!verb(MISSING)`,
a bad index `%!verb(BADINDEX)`, a `*` without integer operand `%!(BADWIDTH)` or
`%!(BADPREC)`, a `%` at the end `%!(NOVERB)`, and `%%` writes `%`.  `fuel`
bounds the iterations. -/
def fmt.doPrintf (a : List String) : Nat → List Char → fmt.pp → fmt.pp
  | 0, _, p => p
  | fuel + 1, format, p =>
    let p := { p with goodArgNum := true }
    let p := { p with buf := p.buf ++ format.takeWhile fun c => c != '%' }
    match format.dropWhile fun c => c != '%' with
    | [] => p
    | _ :: format =>
      let format := format.dropWhile fmt.isFlag
      let simple : Bool :=
        match format with
        | c :: _ => 'a' ≤ c ∧ c ≤ 'z' ∧ p.argNum < a.length
        | [] => false
      if simple then doPrintf a fuel (format.drop 1) (fmt.printArg p a)
      else
        let (p, format, afterIndex) := fmt.argNumber p format a.length
        let (p, format, afterIndex) :=
          match format with
          | '*' :: rest =>
            ({ p with argNum := fmt.intFromArg a p.argNum, buf := p.buf ++ "%!(BADWIDTH)".data },
              rest, false)
          | _ =>
            let (_, widPresent, rest) := fmt.parsenum format
            ((if afterIndex ∧ widPresent then { p with goodArgNum := false } else p), rest,
              afterIndex)
        let (p, format, afterIndex) :=
          match format with
          | '.' :: c :: rest =>
            let p := if afterIndex then { p with goodArgNum := false } else p
            let (p, format, afterIndex) := fmt.argNumber p (c :: rest) a.length
            match format with
            | '*' :: rest =>
              ({ p with argNum := fmt.intFromArg a p.argNum, buf := p.buf ++ "%!(BADPREC)".data },
                rest, false)
            | _ => (p, (fmt.parsenum format).2.2, afterIndex)
          | _ => (p, format, afterIndex)
        let (p, format) :=
          if afterIndex then (p, format)
          else ((fmt.argNumber p format a.length).1, (fmt.argNumber p format a.length).2.1)
        match format with
        | [] => { p with buf := p.buf ++ "%!(NOVERB)".data }
        | verb :: rest =>
          let p :=
            if verb = '%' then { p with buf := p.buf ++ ['%'] }
            else if !p.goodArgNum then
              { p with buf := p.buf ++ "%!".data ++ [verb] ++ "(BADINDEX)".data }
            else if p.argNum ≥ a.length then
              { p with buf := p.buf ++ "%!".data ++ [verb] ++ "(MISSING)".data }
            else fmt.printArg p a
          doPrintf a fuel rest p

/-- `fmt.Sprintf(format, a...)` with strings and byte slices as operands.
Operands left over are listed after `%!(EXTRA `, as strings are, unless an
explicit operand index was seen. -/
def fmt.Sprintf (format : String) (a : List String) : String :=
  let p := fmt.doPrintf a (format.data.length + 1) format.data {}
  let extra :=
    if !p.reordered ∧ p.argNum < a.length then
      "%!(EXTRA ".data ++
        (", ".intercalate ((a.drop p.argNum).map fun s => "string=" ++ s)).data ++ [')']
    else []
  ⟨p.buf ++ extra⟩

/-! ## path -/

/-- Splits a path at every slash; `"a//b"` gives `a`, the empty element, `b`. -/
def path.elements : List Char → List (List Char)
  | [] => [[]]
  | c :: cs =>
    match path.elements cs with
    | [] => [[]]
    | e :: es => if c = '/' then [] :: e :: es else (c :: e) :: es

/-- The element-wise rules of `path.Clean`: empty and `.` elements are dropped,
a `..` removes the element before it when that is a real element, is dropped at
the root of a rooted path, and is kept otherwise.  `acc` holds the elements kept
so far, last first. -/
def path.cleanElements (rooted : Bool) : List (List Char) → List (List Char) → List (List Char)
  | [], acc => acc.reverse
  | e :: es, acc =>
    if e = [] ∨ e = ['.'] then cleanElements rooted es acc
    else if e = ['.', '.'] then
      match acc with
      | top :: acc' =>
        if top = ['.', '.'] then cleanElements rooted es (e :: acc)
        else cleanElements rooted es acc'
      | [] => if rooted then cleanElements rooted es [] else cleanElements rooted es [e]
    else cleanElements rooted es (e :: acc)

/-- `path.Clean`: the shortest path equivalent to `p` by lexical processing. -/
def path.Clean (p : String) : String :=
  if p.data = [] then "."
  else
    let rooted := p.data.head? = some '/'
    let kept := path.cleanElements rooted (path.elements p.data) []
    if rooted then ⟨'/' :: List.intercalate ['/'] kept⟩
    else if kept = [] then "."
    else ⟨List.intercalate ['/'] kept⟩

/-- `path.Join`: the non-empty leading part is skipped, the elements are joined
with slashes and the result is cleaned; all-empty arguments give `""`. -/
def path.Join (elem : List String) : String :=
  match elem.dropWhile (fun e => e.data = []) with
  | [] => ""
  | es => path.Clean ⟨List.intercalate ['/'] (es.map String.data)⟩

/-! ## strings -/

/-- `unicode.ToLower`: ASCII capitals are shifted to lower case; every other
rune is mapped by the Unicode case tables, which are the parameter
`caseRanges`. -/
def unicode.ToLower (caseRanges : Char → Char) (r : Char) : Char :=
  if r.toNat ≤ 127 then
    (if 'A'.toNat ≤ r.toNat ∧ r.toNat ≤ 'Z'.toNat then Char.ofNat (r.toNat + 32) else r)
  else caseRanges r

/-- `strings.ToLower`: every rune mapped to lower case. -/
def strings.ToLower (caseRanges : Char → Char) (s : String) : String :=
  ⟨s.data.map (unicode.ToLower caseRanges)⟩

/-! ## regexp: `decimalDigits` -/

/-- `decimalDigits.MatchString` for `regexp.MustCompile("^[0-9]+$")`: the whole
text is one or more ASCII digits (without the `m` flag `$` matches only at the
end of the text). -/
def decimalDigits.MatchString (text : String) : Bool :=
  !text.data.isEmpty && text.data.all (fun c => decide ('0'.toNat ≤ c.toNat ∧ c.toNat ≤ '9'.toNat))

/-! ## go9p: directory entries and the client -/

/-- `p.Dir`, the fields the program reads. `Mtime` and `Mode` are `uint32`. -/
structure Dir where
  Name : String
  Mtime : Nat
  Mode : Nat := 0
deriving DecidableEq, Repr, Inhabited

/-- `p.DMDIR`, the directory bit of `Mode`. -/
def p.DMDIR : Nat := 0x80000000

/-- `p.OREAD`. -/
def p.OREAD : Nat := 0

/-- `p.OWRITE`. -/
def p.OWRITE : Nat := 1

/-- The remote file tree as it answers at one moment.  `none` as an error
means the request succeeded. -/
structure Clnt where
  /-- Walking to and opening `path` with `mode`. -/
  openErr : String → Nat → Option error
  /-- `Readdir(0)` on the open directory: its entries and the error. -/
  readdir : String → List Dir × Option error
  /-- `Read(buf)` on the open file: the bytes read (at most `len(buf)`) and the
  error. -/
  read : String → Nat → String × Option error
  /-- `Write(data)` on the open file. -/
  writeErr : String → String → Option error
  /-- `FStat(path)`. -/
  stat : String → Except error Dir

/-- `*clnt.File`: an open fid, identified by the path it was opened on. -/
structure File where
  path : String
deriving DecidableEq, Repr

/-- The requests the program sends to the remote tree. -/
inductive FsOp where
  | fopen (path : String) (mode : Nat)
  | readdir (path : String)
  | read (path : String) (count : Nat)
  | write (path : String) (data : String)
  | close (path : String)
  | fstat (path : String)
  | unmount
deriving DecidableEq, Repr

/-- `clnt.FOpen`: go9p returns a nil file together with the error, and a
non-nil file together with a nil error. -/
def Clnt.FOpen (fsys : Clnt) (path : String) (mode : Nat) : Option File × Option error :=
  match fsys.openErr path mode with
  | some e => (none, some e)
  | none => (some ⟨path⟩, none)

/-! ## print.go -/

/-- `type byModified []*p.Dir`. -/
abbrev byModified := List Dir

/-- `byModified.Len`. -/
def byModified.Len (dirs : byModified) : Nat := dirs.length

/-- `byModified.Less`: `dirs[a].Mtime > dirs[b].Mtime`. -/
def byModified.Less (dirs : byModified) (a b : Nat) : Bool :=
  decide ((dirs.getD a default).Mtime > (dirs.getD b default).Mtime)

/-- `byModified.Swap`: `dirs[a], dirs[b] = dirs[b], dirs[a]`. -/
def byModified.Swap (dirs : byModified) (a b : Nat) : byModified :=
  (dirs.set a (dirs.getD b default)).set b (dirs.getD a default)

/-- What a render has done so far: the writes made to the destination `w`, and
the requests sent to the remote tree. -/
structure Rendering where
  out : List String
  ops : List FsOp
deriving DecidableEq, Repr

/-- `tweet.Close()` / `f.Close()`: go9p's `Close` reads the fid through its
receiver, so a nil receiver is a nil pointer dereference. -/
def File.Close (f : Option File) (r : Rendering) : Outcome Rendering Unit :=
  match f with
  | none => .panic "invalid memory address or nil pointer dereference" r
  | some f => .ret () { r with ops := r.ops ++ [.close f.path] }

/-- The body of the `for _, id := range children` loop of `printTimeline`,
with its early returns; the result is the returned error. -/
def printTimeline.loop (fsys : Clnt) (timeline : String) :
    List Dir → Rendering → Outcome Rendering (Option error)
  | [], r => .ret none r
  | id :: rest, r =>
    let name := path.Join [timeline, id.Name]
    let (tweet, err) := fsys.FOpen name p.OREAD
    let r := { r with ops := r.ops ++ [.fopen name p.OREAD] }
    if err ≠ none then
      (File.Close tweet r).bind fun _ r => .ret (errors.WithStack err) r
    else
      let (data, err) := fsys.read name 4096
      let r := { r with ops := r.ops ++ [.read name 4096] }
      if err ≠ none ∧ err ≠ some io.EOF then
        (File.Close tweet r).bind fun _ r => .ret (errors.WithStack err) r
      else
        let r := { r with out := r.out ++ [fmt.Sprintf "--- %s\n" [id.Name]] }
        let r := { r with out := r.out ++ [data] }
        (File.Close tweet r).bind fun _ r => printTimeline.loop fsys timeline rest r

/-- `printTimeline(w, timeline)`.  `sortSort` is `sort.Sort` on `byModified`; `w`
is the destination, given by the writes already made to it.  The deferred
`f.Close()` runs when the function returns and when it panics. -/
def printTimeline (sortSort : byModified → byModified) (fsys : Clnt) (w : List String)
    (timeline : String) : Outcome Rendering (Option error) :=
  let (f, err) := fsys.FOpen timeline p.OREAD
  let r : Rendering := { out := w, ops := [.fopen timeline p.OREAD] }
  if err ≠ none then
    .ret (errors.WithStack err) r
  else
    let deferred (r : Rendering) : Rendering := (File.Close f r).state
    let (children, err) := fsys.readdir timeline
    let r := { r with ops := r.ops ++ [.readdir timeline] }
    if err ≠ none ∧ err ≠ some io.EOF then
      .ret (errors.WithStack err) (deferred r)
    else
      let children := sortSort children
      match printTimeline.loop fsys timeline children r with
      | .ret e r => .ret e (deferred r)
      | .panic m r => .panic m (deferred r)
      | .exit c r => .exit c (deferred r)

/-! ## sort

`sort.Sort` is the Go library's; `printTimeline` takes it as a parameter.  Two
implementations have shipped: the quicksort of Go 1.18 and earlier (namespace
`go118`) and the pattern-defeating quicksort of Go 1.19 and later (namespace
`go119`).  Both are embedded over `byModified`, loops being recursions on an
explicit count of remaining iterations. -/

/-- `insertionSort`, inner loop: `for j := i; j > a && data.Less(j, j-1); j--`. -/
def sort.insertionSort.inner (a : Nat) : Nat → byModified → byModified
  | 0, data => data
  | j + 1, data =>
    if j + 1 > a ∧ data.Less (j + 1) j then inner a j (data.Swap (j + 1) j) else data

/-- `insertionSort`, outer loop: `for i := a + 1; i < b; i++`. -/
def sort.insertionSort.outer (a b : Nat) : Nat → Nat → byModified → byModified
  | 0, _, data => data
  | fuel + 1, i, data =>
    if i < b then outer a b fuel (i + 1) (inner a i data) else data

/-- `insertionSort(data, a, b)` sorts `data[a:b]` (the same in both versions). -/
def sort.insertionSort (data : byModified) (a b : Nat) : byModified :=
  sort.insertionSort.outer a b (b - a) (a + 1) data

/-- The loop of `siftDown`, on `root`. -/
def sort.siftDown.loop (hi first : Nat) : Nat → Nat → byModified → byModified
  | 0, _, data => data
  | fuel + 1, root, data =>
    let child := 2 * root + 1
    if child ≥ hi then data
    else
      let child := if child + 1 < hi ∧ data.Less (first + child) (first + child + 1)
        then child + 1 else child
      if !data.Less (first + root) (first + child) then data
      else loop hi first fuel child (data.Swap (first + root) (first + child))

/-- `siftDown(data, lo, hi, first)` (the same in both versions). -/
def sort.siftDown (data : byModified) (lo hi first : Nat) : byModified :=
  sort.siftDown.loop hi first hi lo data

/-- `heapSort`, first loop: `for i := (hi - 1) / 2; i >= 0; i--`; `k` is `i + 1`. -/
def sort.heapSort.build (hi first : Nat) : Nat → byModified → byModified
  | 0, data => data
  | i + 1, data => build hi first i (sort.siftDown data i hi first)

/-- `heapSort`, second loop: `for i := hi - 1; i >= 0; i--`; `k` is `i + 1`. -/
def sort.heapSort.pop (lo first : Nat) : Nat → byModified → byModified
  | 0, data => data
  | i + 1, data => pop lo first i (sort.siftDown (data.Swap first (first + i)) lo i first)

/-- `heapSort(data, a, b)` (the same in both versions). -/
def sort.heapSort (data : byModified) (a b : Nat) : byModified :=
  let first := a
  let lo := 0
  let hi := b - a
  let data := sort.heapSort.build hi first ((hi - 1) / 2 + 1) data
  sort.heapSort.pop lo first hi data

namespace go118

/-- `medianOfThree(data, m1, m0, m2)` moves the median of the three values into
`data[m1]`. -/
def sort.medianOfThree (data : byModified) (m1 m0 m2 : Nat) : byModified :=
  let data := if data.Less m1 m0 then data.Swap m1 m0 else data
  if data.Less m2 m1 then
    let data := data.Swap m2 m1
    if data.Less m1 m0 then data.Swap m1 m0 else data
  else data

/-- `for ; a < c && data.Less(a, pivot); a++ {}`. -/
def sort.doPivot.skipLess (data : byModified) (pivot c : Nat) : Nat → Nat → Nat
  | 0, a => a
  | fuel + 1, a => if a < c ∧ data.Less a pivot then skipLess data pivot c fuel (a + 1) else a

/-- `for ; b < c && !data.Less(pivot, b); b++ {}`. -/
def sort.doPivot.skipLeq (data : byModified) (pivot c : Nat) : Nat → Nat → Nat
  | 0, b => b
  | fuel + 1, b => if b < c ∧ !data.Less pivot b then skipLeq data pivot c fuel (b + 1) else b

/-- `for ; b < c && data.Less(pivot, c-1); c-- {}`. -/
def sort.doPivot.skipGreater (data : byModified) (pivot b : Nat) : Nat → Nat → Nat
  | 0, c => c
  | fuel + 1, c => if b < c ∧ data.Less pivot (c - 1) then skipGreater data pivot b fuel (c - 1) else c

/-- The partitioning loop of `doPivot`; returns `data`, `b`, `c`. -/
def sort.doPivot.partition (pivot : Nat) : Nat → byModified → Nat → Nat → byModified × Nat × Nat
  | 0, data, b, c => (data, b, c)
  | fuel + 1, data, b, c =>
    let b := skipLeq data pivot c (c - b) b
    let c := skipGreater data pivot b (c - b) c
    if b ≥ c then (data, b, c)
    else partition pivot fuel (data.Swap b (c - 1)) (b + 1) (c - 1)

/-- `for ; a < b && !data.Less(b-1, pivot); b-- {}`. -/
def sort.doPivot.skipEqual (data : byModified) (pivot a : Nat) : Nat → Nat → Nat
  | 0, b => b
  | fuel + 1, b => if a < b ∧ !data.Less (b - 1) pivot then skipEqual data pivot a fuel (b - 1) else b

/-- The loop of `doPivot` that protects against many duplicates; returns
`data`, `a`, `b`. -/
def sort.doPivot.protect (pivot : Nat) : Nat → byModified → Nat → Nat → byModified × Nat × Nat
  | 0, data, a, b => (data, a, b)
  | fuel + 1, data, a, b =>
    let b := skipEqual data pivot a (b - a) b
    let a := skipLess data pivot b (b - a) a
    if a ≥ b then (data, a, b)
    else protect pivot fuel (data.Swap a (b - 1)) (a + 1) (b - 1)

/-- `doPivot(data, lo, hi)`; returns `data`, `midlo`, `midhi`. -/
def sort.doPivot (data : byModified) (lo hi : Nat) : byModified × Nat × Nat :=
  let m := (lo + hi) / 2
  let data :=
    if hi - lo > 40 then
      let s := (hi - lo) / 8
      let data := sort.medianOfThree data lo (lo + s) (lo + 2 * s)
      let data := sort.medianOfThree data m (m - s) (m + s)
      sort.medianOfThree data (hi - 1) (hi - 1 - s) (hi - 1 - 2 * s)
    else data
  let data := sort.medianOfThree data lo m (hi - 1)
  let pivot := lo
  let a := lo + 1
  let c := hi - 1
  let a := sort.doPivot.skipLess data pivot c (c - a) a
  let b := a
  let (data, b, c) := sort.doPivot.partition pivot (hi - lo) data b c
  let protect := decide (hi - c < 5)
  let (data, b, c, protect) :=
    if !protect ∧ hi - c < (hi - lo) / 4 then
      let dups := 0
      let (data, c, dups) :=
        if !data.Less pivot (hi - 1) then (data.Swap c (hi - 1), c + 1, dups + 1)
        else (data, c, dups)
      let (b, dups) := if !data.Less (b - 1) pivot then (b - 1, dups + 1) else (b, dups)
      let (data, b, dups) :=
        if !data.Less m pivot then (data.Swap m (b - 1), b - 1, dups + 1) else (data, b, dups)
      (data, b, c, decide (dups > 1))
    else (data, b, c, protect)
  let (data, b) :=
    if protect then
      let (data, _, b) := sort.doPivot.protect pivot (hi - lo) data a b
      (data, b)
    else (data, b)
  let data := data.Swap pivot (b - 1)
  (data, b - 1, c)

/-- The ShellSort pass with gap 6 of `quickSort`:
`for i := a + 6; i < b; i++ { if data.Less(i, i-6) { data.Swap(i, i-6) } }`. -/
def sort.quickSort.shellPass (b : Nat) : Nat → Nat → byModified → byModified
  | 0, _, data => data
  | fuel + 1, i, data =>
    if i < b then
      shellPass b fuel (i + 1) (if data.Less i (i - 6) then data.Swap i (i - 6) else data)
    else data

/-- `quickSort(data, a, b, maxDepth)`; `fuel` bounds the iterations of its loop
and the depth of its recursion. -/
def sort.quickSort : Nat → byModified → Nat → Nat → Nat → byModified
  | 0, data, _, _, _ => data
  | fuel + 1, data, a, b, maxDepth =>
    if b - a > 12 then
      if maxDepth = 0 then sort.heapSort data a b
      else
        let maxDepth := maxDepth - 1
        let (data, mlo, mhi) := sort.doPivot data a b
        if mlo - a < b - mhi then
          let data := quickSort fuel data a mlo maxDepth
          quickSort fuel data mhi b maxDepth
        else
          let data := quickSort fuel data mhi b maxDepth
          quickSort fuel data a mlo maxDepth
    else if b - a > 1 then
      sort.insertionSort (sort.quickSort.shellPass b (b - (a + 6)) (a + 6) data) a b
    else data

/-- The loop of `maxDepth`: `for i := n; i > 0; i >>= 1 { depth++ }`. -/
def sort.maxDepth.loop : Nat → Nat → Nat → Nat
  | 0, _, depth => depth
  | fuel + 1, i, depth => if i > 0 then loop fuel (i / 2) (depth + 1) else depth

/-- `maxDepth(n)`: twice the number of bits of `n`. -/
def sort.maxDepth (n : Nat) : Nat := sort.maxDepth.loop n n 0 * 2

/-- `sort.Sort(data)` of Go 1.18 and earlier. -/
def sort.Sort (data : byModified) : byModified :=
  let n := data.Len
  sort.quickSort (n + 1) data 0 n (sort.maxDepth n)

end go118

namespace go119

/-- `order2(data, a, b, swaps)`: returns `x, y` with `data[x] <= data[y]`, and
the updated count of swaps. -/
def sort.order2 (data : byModified) (a b swaps : Nat) : Nat × Nat × Nat :=
  if data.Less b a then (b, a, swaps + 1) else (a, b, swaps)

/-- `median(data, a, b, c, swaps)`: the index of the median of the three, and
the updated count of swaps. -/
def sort.median (data : byModified) (a b c swaps : Nat) : Nat × Nat :=
  let (a, b, swaps) := sort.order2 data a b swaps
  let (b, _, swaps) := sort.order2 data b c swaps
  let (_, b, swaps) := sort.order2 data a b swaps
  (b, swaps)

/-- `medianAdjacent(data, a, swaps)`. -/
def sort.medianAdjacent (data : byModified) (a swaps : Nat) : Nat × Nat :=
  sort.median data (a - 1) a (a + 1) swaps

/-- The hint returned by `choosePivot`. -/
inductive sort.sortedHint where
  | unknownHint
  | increasingHint
  | decreasingHint
deriving DecidableEq, Repr

/-- `choosePivot(data, a, b)`: the pivot and the hint. -/
def sort.choosePivot (data : byModified) (a b : Nat) : Nat × sort.sortedHint :=
  let shortestNinther := 50
  let maxSwaps := 4 * 3
  let l := b - a
  let swaps := 0
  let i := a + l / 4 * 1
  let j := a + l / 4 * 2
  let k := a + l / 4 * 3
  let (j, swaps) :=
    if l ≥ 8 then
      let (i, j, k, swaps) :=
        if l ≥ shortestNinther then
          let (i, swaps) := sort.medianAdjacent data i swaps
          let (j, swaps) := sort.medianAdjacent data j swaps
          let (k, swaps) := sort.medianAdjacent data k swaps
          (i, j, k, swaps)
        else (i, j, k, swaps)
      sort.median data i j k swaps
    else (j, swaps)
  if swaps = 0 then (j, .increasingHint)
  else if swaps = maxSwaps then (j, .decreasingHint)
  else (j, .unknownHint)

/-- `reverseRange(data, a, b)`, its loop on `i`, `j`. -/
def sort.reverseRange.loop : Nat → byModified → Nat → Nat → byModified
  | 0, data, _, _ => data
  | fuel + 1, data, i, j =>
    if i < j then loop fuel (data.Swap i j) (i + 1) (j - 1) else data

/-- `reverseRange(data, a, b)`. -/
def sort.reverseRange (data : byModified) (a b : Nat) : byModified :=
  sort.reverseRange.loop (b - a) data a (b - 1)

/-- `for i < b && !data.Less(i, i-1) { i++ }`. -/
def sort.partialInsertionSort.scan (data : byModified) (b : Nat) : Nat → Nat → Nat
  | 0, i => i
  | fuel + 1, i => if i < b ∧ !data.Less i (i - 1) then scan data b fuel (i + 1) else i

/-- `for j := i - 1; j >= 1; j-- { if !data.Less(j, j-1) { break }; data.Swap(j, j-1) }`. -/
def sort.partialInsertionSort.shiftLeft : Nat → byModified → byModified
  | 0, data => data
  | j + 1, data =>
    if !data.Less (j + 1) j then data else shiftLeft j (data.Swap (j + 1) j)

/-- `for j := i + 1; j < b; j++ { if !data.Less(j, j-1) { break }; data.Swap(j, j-1) }`. -/
def sort.partialInsertionSort.shiftRight (b : Nat) : Nat → Nat → byModified → byModified
  | 0, _, data => data
  | fuel + 1, j, data =>
    if j < b then
      (if !data.Less j (j - 1) then data else shiftRight b fuel (j + 1) (data.Swap j (j - 1)))
    else data

/-- The loop `for j := 0; j < maxSteps; j++` of `partialInsertionSort`; `steps`
is the number of iterations left. -/
def sort.partialInsertionSort.loop (a b : Nat) : Nat → Nat → byModified → byModified × Bool
  | 0, _, data => (data, false)
  | steps + 1, i, data =>
    let shortestShifting := 50
    let i := scan data b (b - i) i
    if i = b then (data, true)
    else if b - a < shortestShifting then (data, false)
    else
      let data := data.Swap i (i - 1)
      let data := if i - a ≥ 2 then shiftLeft (i - 1) data else data
      let data := if b - i ≥ 2 then shiftRight b (b - i) (i + 1) data else data
      loop a b steps i data

/-- `partialInsertionSort(data, a, b)`: partially sorts the slice and tells
whether it is sorted at the end. -/
def sort.partialInsertionSort (data : byModified) (a b : Nat) : byModified × Bool :=
  let maxSteps := 5
  sort.partialInsertionSort.loop a b maxSteps (a + 1) data

/-- `for i <= j && !data.Less(a, i) { i++ }`. -/
def sort.partitionEqual.up (data : byModified) (a j : Nat) : Nat → Nat → Nat
  | 0, i => i
  | fuel + 1, i => if i ≤ j ∧ !data.Less a i then up data a j fuel (i + 1) else i

/-- `for i <= j && data.Less(a, j) { j-- }`; `j` is an `int` that may reach
`a`, never below zero here since `i > a`. -/
def sort.partitionEqual.down (data : byModified) (a i : Nat) : Nat → Nat → Nat
  | 0, j => j
  | fuel + 1, j => if i ≤ j ∧ data.Less a j then down data a i fuel (j - 1) else j

/-- The loop of `partitionEqual`; returns `data` and `i`. -/
def sort.partitionEqual.loop (a : Nat) : Nat → byModified → Nat → Nat → byModified × Nat
  | 0, data, i, _ => (data, i)
  | fuel + 1, data, i, j =>
    let i := up data a j (j + 1 - i) i
    let j := down data a i (j + 1 - i) j
    if i > j then (data, i)
    else loop a fuel (data.Swap i j) (i + 1) (j - 1)

/-- `partitionEqual(data, a, b, pivot)`. -/
def sort.partitionEqual (data : byModified) (a b pivot : Nat) : byModified × Nat :=
  let data := data.Swap a pivot
  sort.partitionEqual.loop a (b - a) data (a + 1) (b - 1)

/-- `for i <= j && data.Less(i, a) { i++ }`. -/
def sort.partition.up (data : byModified) (a j : Nat) : Nat → Nat → Nat
  | 0, i => i
  | fuel + 1, i => if i ≤ j ∧ data.Less i a then up data a j fuel (i + 1) else i

/-- `for i <= j && !data.Less(j, a) { j-- }`. -/
def sort.partition.down (data : byModified) (a i : Nat) : Nat → Nat → Nat
  | 0, j => j
  | fuel + 1, j => if i ≤ j ∧ !data.Less j a then down data a i fuel (j - 1) else j

/-- The second loop of `partition`; returns `data` and `j`. -/
def sort.partition.loop (a : Nat) : Nat → byModified → Nat → Nat → byModified × Nat
  | 0, data, _, j => (data, j)
  | fuel + 1, data, i, j =>
    let i := up data a j (j + 1 - i) i
    let j := down data a i (j + 1 - i) j
    if i > j then (data, j)
    else loop a fuel (data.Swap i j) (i + 1) (j - 1)

/-- `partition(data, a, b, pivot)`: returns `data`, `newpivot` and
`alreadyPartitioned`. -/
def sort.partition (data : byModified) (a b pivot : Nat) : byModified × Nat × Bool :=
  let data := data.Swap a pivot
  let i := a + 1
  let j := b - 1
  let i := sort.partition.up data a j (j + 1 - i) i
  let j := sort.partition.down data a i (j + 1 - i) j
  if i > j then (data.Swap j a, j, true)
  else
    let data := data.Swap i j
    let (data, j) := sort.partition.loop a (b - a) data (i + 1) (j - 1)
    (data.Swap j a, j, false)

/-- `xorshift.Next` on `uint64`. -/
def sort.xorshift.Next (r : Nat) : Nat :=
  let r := r ^^^ ((r <<< 13) % 2 ^ 64)
  let r := r ^^^ (r >>> 7)
  let r := r ^^^ ((r <<< 17) % 2 ^ 64)
  r

/-- `nextPowerOfTwo(length)`: `1 << bits.Len(length)`. -/
def sort.nextPowerOfTwo (length : Nat) : Nat :=
  1 <<< (go118.sort.maxDepth.loop length length 0)

/-- The loop `for i := 0; i < 3; i++` of `breakPatterns`. -/
def sort.breakPatterns.loop (a length modulus idx : Nat) : Nat → Nat → Nat → byModified → byModified
  | 0, _, _, data => data
  | fuel + 1, i, random, data =>
    let random := sort.xorshift.Next random
    let other := random &&& (modulus - 1)
    let other := if other ≥ length then other - length else other
    loop a length modulus idx fuel (i + 1) random (data.Swap (idx - 1 + i) (a + other))

/-- `breakPatterns(data, a, b)`. -/
def sort.breakPatterns (data : byModified) (a b : Nat) : byModified :=
  let length := b - a
  if length ≥ 8 then
    let random := length
    let modulus := sort.nextPowerOfTwo length
    let idx := a + (length / 4) * 2 - 1
    sort.breakPatterns.loop a length modulus idx 3 0 random data
  else data

/-- `pdqsort(data, a, b, limit)`; `fuel` bounds the iterations of its loop and
the depth of its recursion. -/
def sort.pdqsort : Nat → byModified → Nat → Nat → Nat → Bool → Bool → byModified
  | 0, data, _, _, _, _, _ => data
  | fuel + 1, data, a, b, limit, wasBalanced, wasPartitioned =>
    let maxInsertion := 12
    let length := b - a
    if length ≤ maxInsertion then sort.insertionSort data a b
    else if limit = 0 then sort.heapSort data a b
    else
      let (data, limit) :=
        if !wasBalanced then (sort.breakPatterns data a b, limit - 1) else (data, limit)
      let (pivot, hint) := sort.choosePivot data a b
      let (data, pivot, hint) :=
        if hint = .decreasingHint then
          (sort.reverseRange data a b, (b - 1) - (pivot - a), sort.sortedHint.increasingHint)
        else (data, pivot, hint)
      let (data, sorted) :=
        if wasBalanced ∧ wasPartitioned ∧ hint = .increasingHint then
          sort.partialInsertionSort data a b
        else (data, false)
      if sorted then data
      else if a > 0 ∧ !data.Less (a - 1) pivot then
        let (data, mid) := sort.partitionEqual data a b pivot
        pdqsort fuel data mid b limit wasBalanced wasPartitioned
      else
        let (data, mid, alreadyPartitioned) := sort.partition data a b pivot
        let wasPartitioned := alreadyPartitioned
        let leftLen := mid - a
        let rightLen := b - mid
        let balanceThreshold := length / 8
        if leftLen < rightLen then
          let wasBalanced := decide (leftLen ≥ balanceThreshold)
          let data := pdqsort fuel data a mid limit true true
          pdqsort fuel data (mid + 1) b limit wasBalanced wasPartitioned
        else
          let wasBalanced := decide (rightLen ≥ balanceThreshold)
          let data := pdqsort fuel data (mid + 1) b limit true true
          pdqsort fuel data a mid limit wasBalanced wasPartitioned

/-- `sort.Sort(data)` of Go 1.19 and later. -/
def sort.Sort (data : byModified) : byModified :=
  let n := data.Len
  if n ≤ 1 then data
  else
    let limit := go118.sort.maxDepth.loop n n 0
    sort.pdqsort (n + 1) data 0 n limit true true

end go119

/-! ## acme: the windows of the host editor -/

/-- The state of one `acme.Win`, as far as this program drives it: its name,
the text of its tag after the bar, its body, the address register and the
selection (rune offsets into the body), and the messages it has received. -/
structure Win where
  id : Nat
  name : String := ""
  errorPfx : String := ""
  tag : String := ""
  body : String := ""
  addr : Nat × Nat := (0, 0)
  dot : Nat × Nat := (0, 0)
  deleted : Bool := false
  /-- When set, reading the window's files fails with this error. -/
  readErr : Option error := none
  /-- The control messages written to the window's `ctl` file, oldest first. -/
  ctl : List String := []
  /-- The calls of `Errf`: format and error, oldest first. -/
  errs : List (String × error) := []
deriving DecidableEq, Repr

/-- `w.Ctl(msg)`: the message is recorded; `cleartag` removes the tag text
after the bar, `dot=addr` and `addr=dot` copy one range to the other, `delete`
deletes the window.  `clean` and `show` act on the display only.  The program
discards the error of every `Ctl`. -/
def Win.Ctl (aw : Win) (msg : String) : Win :=
  let aw := { aw with ctl := aw.ctl ++ [msg] }
  if msg = "cleartag" then { aw with tag := "" }
  else if msg = "dot=addr" then { aw with dot := aw.addr }
  else if msg = "addr=dot" then { aw with addr := aw.dot }
  else if msg = "delete" then { aw with deleted := true }
  else aw

/-- `w.Write(file, data)`: text written to `body` or to `tag` is appended. -/
def Win.Write (aw : Win) (file : String) (data : String) : Win :=
  if file = "body" then { aw with body := aw.body ++ data }
  else if file = "tag" then { aw with tag := aw.tag ++ data }
  else aw

/-- `w.Fprintf(file, format, args...)`. -/
def Win.Fprintf (aw : Win) (file : String) (format : String) (args : List String) : Win :=
  aw.Write file (fmt.Sprintf format args)

/-- `w.Clear()`: sets the address to the whole body and replaces it by nothing. -/
def Win.Clear (aw : Win) : Win :=
  { aw with addr := (0, 0), dot := (0, 0), body := "" }

/-- `w.ReadAll("body")`. -/
def Win.ReadAll (aw : Win) : String × Option error :=
  match aw.readErr with
  | some e => ("", some e)
  | none => (aw.body, none)

/-- `w.Selection()`: sends `addr=dot` and reads the addressed text. -/
def Win.Selection (aw : Win) : String × Win :=
  let aw := aw.Ctl "addr=dot"
  (⟨(aw.body.data.drop aw.addr.1).take (aw.addr.2 - aw.addr.1)⟩, aw)

/-- `w.Del(true)`. -/
def Win.Del (aw : Win) : Win := aw.Ctl "delete"

/-- `w.Errf(format, err)`: the message goes to the window's error channel. -/
def Win.Errf (aw : Win) (format : String) (err : error) : Win :=
  { aw with errs := aw.errs ++ [(format, err)] }

/-- `w.SetErrorPrefix(p)`. -/
def Win.SetErrorPrefix (aw : Win) (p : String) : Win := { aw with errorPfx := p }

/-- `w.Name(format, args...)`: the name is `fmt.Sprintf(format, args...)`; the
control message `name <name>` is written, and only when the editor accepts it
is the name recorded in the window, where `acme.Show` looks for it.  The editor
accepts a name without blank or control character.  It refuses a name of one
line that is empty or holds such a character.  A name that holds a newline is
to the editor several control messages: `lines` gives the window as the editor
leaves it and whether it accepted them all. -/
def Win.Name (aw : Win) (lines : Win → String → Win × Bool) (format : String)
    (args : List String) : Win × Option error :=
  let name := fmt.Sprintf format args
  let aw := { aw with ctl := aw.ctl ++ ["name " ++ name] }
  if '\n' ∈ name.data then
    let r := lines aw name
    let aw := { aw with tag := r.1.tag, body := r.1.body, addr := r.1.addr, dot := r.1.dot,
                        deleted := r.1.deleted }
    if r.2 then ({ aw with name := name }, none)
    else (aw, some { msg := "ill-formed control message" })
  else if name.data = [] then (aw, some { msg := "ill-formed control message" })
  else if name.data.any (fun c => c ≤ ' ') then
    (aw, some { msg := "bad character in file name" })
  else ({ aw with name := name }, none)

/-! ## acme.go -/

/-- `type windowMode int` with its four constants. -/
inductive windowMode where
  | modeHome
  | modeMentions
  | modeUpdate
  | modeUserTimeline
deriving DecidableEq, Repr

/-- `type window struct`.  `addr` is the address of the struct: two `*window`
are equal when their `addr` are.  The embedded `*acme.Win` is given by the state
of the window it points to; its `id` is the pointer. -/
structure window where
  addr : Nat
  Win : Win
  mode : windowMode := .modeHome
  screenName : String := ""
  inReply : String := ""
deriving DecidableEq, Repr

/-- A Go map from `*acme.Win` to `*window`; `none` is the nil map. -/
abbrev GoMap := Option (AList fun _ : Nat => Nat)

/-- `m[k]`, `none` when the key is absent (Go yields the nil pointer). -/
def GoMap.get (m : GoMap) (k : Nat) : Option Nat :=
  match m with
  | none => none
  | some m => m.lookup k

/-- `m[k] = v`; the program assigns only after `make`. -/
def GoMap.set (m : GoMap) (k v : Nat) : GoMap :=
  match m with
  | none => none
  | some m => some (m.insert k v)

/-- `delete(m, k)`. -/
def GoMap.delete (m : GoMap) (k : Nat) : GoMap :=
  match m with
  | none => none
  | some m => some (m.erase k)

/-- `len(m)`. -/
def GoMap.len (m : GoMap) : Nat :=
  match m with
  | none => 0
  | some m => m.keys.length

/-- A goroutine started with `go`: `w.load()` or `w.loop()` for the window at
the address. -/
inductive Task where
  | load (w : Nat)
  | loop (w : Nat)
deriving DecidableEq, Repr

/-- The state of the process and of what surrounds it. -/
structure World where
  /-- The remote tree, as a function of the data written to it so far. -/
  remote : List String → Clnt
  /-- The data of every `Write` sent to the remote tree, oldest first. -/
  written : List String := []
  /-- The requests sent to the remote tree, oldest first. -/
  ops : List FsOp := []
  /-- Whether the coming calls of `acme.New` fail, first call first; the calls
  after these succeed. -/
  newFails : List Bool := []
  /-- Every window created so far, oldest first. -/
  windows : List window := []
  /-- The registry `all.m`. -/
  all_m : GoMap := none
  /-- The goroutines started so far. -/
  goroutines : List Task := []
  /-- The next unused address. -/
  next : Nat := 0
  /-- Milliseconds spent in `time.Sleep`. -/
  slept : Nat := 0
  /-- The Unicode case tables of `strings.ToLower`. -/
  caseRanges : Char → Char := id
  /-- What the editor makes of a write to `ctl` that holds several lines, which
  it reads as several control messages: the window as it leaves it, and whether
  it accepted them all. -/
  lines : Win → String → Win × Bool := fun aw _ => (aw, false)

/-- The remote tree `fsys` as it answers now. -/
def World.fsys (s : World) : Clnt := s.remote s.written

/-- Records requests sent to the remote tree. -/
def World.log (s : World) (ops : List FsOp) : World := { s with ops := s.ops ++ ops }

/-- Stores the fields of `w` at its address. -/
def World.put (s : World) (w : window) : World :=
  { s with windows := s.windows.map fun v => if v.addr = w.addr then w else v }

/-- The window at an address. -/
def World.deref (s : World) (addr : Nat) : Option window :=
  s.windows.find? fun v => v.addr = addr

/-- The `go` statement. -/
def World.go (s : World) (t : Task) : World := { s with goroutines := s.goroutines ++ [t] }

/-- The windows created between two states. -/
def World.opened (before after : World) : List window :=
  after.windows.drop before.windows.length

/-- `acme.New()`: a new window of the editor, or nil and an error. -/
def acme.New (s : World) : Option Win × World :=
  match s.newFails with
  | true :: rest => (none, { s with newFails := rest })
  | false :: rest => (some { id := s.next }, { s with newFails := rest, next := s.next + 1 })
  | [] => (some { id := s.next }, { s with next := s.next + 1 })

/-- The first live window of this process named `title`, if there is one. -/
def World.named (s : World) (title : String) : Option window :=
  s.windows.find? fun v => v.Win.name = title ∧ v.Win.deleted = false

/-- `acme.Show(name)`: the first window of this process with that name which
accepts the control message `show`, or nil; a deleted window refuses it. -/
def acme.Show (name : String) (s : World) : Option window × World :=
  match s.named name with
  | none => (none, s)
  | some v =>
    let v := { v with Win := v.Win.Ctl "show" }
    (some v, s.put v)

/-- `newWindow(pathname)`: creates a window in acme and registers it.  The
lock is held throughout. -/
def newWindow (pathname : String) (s : World) : Outcome World window :=
  let s := if s.all_m = none then { s with all_m := some ∅ } else s
  let created : Outcome World Win :=
    match acme.New s with
    | (some aw, s) => .ret aw s
    | (none, s) =>
      let s := { s with slept := s.slept + 10 }
      match acme.New s with
      | (some aw, s) => .ret aw s
      | (none, s) => .exit 1 s
  created.bind fun aw s =>
    let aw := aw.SetErrorPrefix pathname
    let aw := (aw.Name s.lines pathname []).1
    let w : window := { addr := s.next, Win := aw }
    let s := { s with next := s.next + 1, windows := s.windows ++ [w] }
    let s := { s with all_m := s.all_m.set w.Win.id w.addr }
    .ret w s

/-- `(*window).resetTag`. -/
def window.resetTag (w : window) : window :=
  let tag :=
    match w.mode with
    | .modeUserTimeline | .modeHome | .modeMentions => " New Reply Newer Older Trim Get "
    | .modeUpdate => " Post "
  let aw := w.Win.Ctl "cleartag"
  let aw := aw.Fprintf "tag" tag []
  { w with Win := aw }

/-- `(*window).load`: returns the window as it is afterwards, which is also
stored at its address. -/
def window.load (sortSort : byModified → byModified) (w : window) (s : World) :
    Outcome World window :=
  let buf : List String := []
  let rendered : Outcome Rendering (Option error) :=
    match w.mode with
    | .modeHome => printTimeline sortSort s.fsys buf "home"
    | .modeMentions => printTimeline sortSort s.fsys buf "mentions"
    | .modeUserTimeline => printTimeline sortSort s.fsys buf (path.Join ["users", w.screenName])
    | .modeUpdate => .ret none { out := buf, ops := [] }
  match rendered with
  | .panic m r => .panic m (s.log r.ops)
  | .exit c r => .exit c (s.log r.ops)
  | .ret err r =>
    let s := s.log r.ops
    let aw := w.Win.Clear
    let aw :=
      match err with
      | some e => aw.Write "body" e.Error
      | none => (aw.Write "body" (String.join r.out)).Ctl "clean"
    let aw := aw.Ctl "dot=addr"
    let aw := aw.Ctl "show"
    let w := { w with Win := aw }
    .ret w (s.put w)

/-- `(*window).exit`: called when the window's event loop is over.  The lock
is held throughout; `fsys.Unmount()` and `os.Exit(0)` end the process. -/
def window.exit (w : window) (s : World) : Outcome World Unit :=
  let s :=
    if s.all_m.get w.Win.id = some w.addr then { s with all_m := s.all_m.delete w.Win.id }
    else s
  if s.all_m.len = 0 then .exit 0 (s.log [.unmount])
  else .ret () s

/-- `File.Write(data)` on the remote file; a nil receiver is dereferenced. -/
def File.Write (f : Option File) (data : String) (s : World) : Outcome World (Option error) :=
  match f with
  | none => .panic "invalid memory address or nil pointer dereference" s
  | some f =>
    let err := s.fsys.writeErr f.path data
    .ret err { s with ops := s.ops ++ [.write f.path data], written := s.written ++ [data] }

/-- `fsysCommand(format, a...)` of main.go: opens `ctl`, writes the formatted
command, closes. -/
def fsysCommand (format : String) (a : List String) (s : World) : Outcome World (Option error) :=
  let (f, err) := s.fsys.FOpen "ctl" p.OWRITE
  let s := s.log [.fopen "ctl" p.OWRITE]
  if err ≠ none then .ret (errors.WithStack err) s
  else
    let deferred (s : World) : World :=
      match f with
      | some f => s.log [.close f.path]
      | none => s
    match File.Write f (fmt.Sprintf format a) s with
    | .ret err s => .ret (errors.WithStack err) (deferred s)
    | .panic m s => .panic m (deferred s)
    | .exit c s => .exit c (deferred s)

/-- `newUserTimelineWindow(screenName)`. -/
def newUserTimelineWindow (screenName : String) (s : World) : Outcome World Unit :=
  let title := "/twitter/users/" ++ screenName
  match acme.Show title s with
  | (some _, s) => .ret () s
  | (none, s) =>
    (newWindow title s).bind fun w s =>
      let w := { w with mode := .modeUserTimeline }
      let w := { w with screenName := screenName }
      let w := w.resetTag
      let s := s.put w
      let s := s.go (.load w.addr)
      let s := s.go (.loop w.addr)
      .ret () s

/-- `newHomeWindow()`. -/
def newHomeWindow (s : World) : Outcome World Unit :=
  let title := "/twitter/home"
  match acme.Show title s with
  | (some _, s) => .ret () s
  | (none, s) =>
    (newWindow title s).bind fun w s =>
      let w := { w with mode := .modeHome }
      let w := w.resetTag
      let s := s.put w
      let s := s.go (.load w.addr)
      let s := s.go (.loop w.addr)
      .ret () s

/-- `newMentionsWindow()`. -/
def newMentionsWindow (s : World) : Outcome World Unit :=
  let title := "/twitter/mentions"
  match acme.Show title s with
  | (some _, s) => .ret () s
  | (none, s) =>
    (newWindow title s).bind fun w s =>
      let w := { w with mode := .modeMentions }
      let w := w.resetTag
      let s := s.put w
      let s := s.go (.load w.addr)
      let s := s.go (.loop w.addr)
      .ret () s

/-- `newUpdateWindow(inReply)`. -/
def newUpdateWindow (inReply : String) (s : World) : Outcome World Unit :=
  let title := if inReply = "" then "/twitter/new" else "/twitter/reply/" ++ inReply
  match acme.Show title s with
  | (some _, s) => .ret () s
  | (none, s) =>
    (newWindow title s).bind fun w s =>
      let w := { w with mode := .modeUpdate }
      let w := { w with inReply := inReply }
      let w := w.resetTag
      let s := s.put w
      let s := s.go (.loop w.addr)
      .ret () s

/-- `(*window).Look`. -/
def window.Look (_w : window) (text : String) (s : World) : Outcome World Bool :=
  if decimalDigits.MatchString text then .ret false s
  else
    let screenName := strings.ToLower s.caseRanges text
    let name := path.Join ["users", screenName]
    let res := s.fsys.stat name
    let s := s.log [.fstat name]
    match res with
    | .error _ => .ret false s
    | .ok stat =>
      if stat.Mode &&& p.DMDIR = 0 then .ret false s
      else (newUserTimelineWindow screenName s).bind fun _ s => .ret true s

/-- `(*window).Execute`.  The result of `fsysCommand` is discarded in the cases
`Newer`, `Older` and `Trim`. -/
def window.Execute (sortSort : byModified → byModified) (w : window) (command : String)
    (s : World) : Outcome World Bool :=
  match w.mode with
  | .modeHome | .modeMentions | .modeUserTimeline =>
    if command = "Reply" then
      let (idStr, aw) := w.Win.Selection
      let s := s.put { w with Win := aw }
      if decimalDigits.MatchString idStr then
        (newUpdateWindow idStr s).bind fun _ s => .ret true s
      else .ret true s
    else if command = "New" then
      (newUpdateWindow "" s).bind fun _ s => .ret true s
    else if command = "Newer" then
      let sent : Outcome World (Option error) :=
        if w.mode = .modeUserTimeline then fsysCommand "newer @%s" [w.screenName] s
        else if w.mode = .modeHome then fsysCommand "newer home" [] s
        else if w.mode = .modeMentions then fsysCommand "newer mentions" [] s
        else .ret none s
      sent.bind fun _ s => (w.load sortSort s).bind fun _ s => .ret true s
    else if command = "Older" then
      let sent : Outcome World (Option error) :=
        if w.mode = .modeUserTimeline then fsysCommand "older @%s" [w.screenName] s
        else if w.mode = .modeHome then fsysCommand "older home" [] s
        else if w.mode = .modeMentions then fsysCommand "older mentions" [] s
        else .ret none s
      sent.bind fun _ s => (w.load sortSort s).bind fun _ s => .ret true s
    else if command = "Get" then (w.load sortSort s).bind fun _ s => .ret true s
    else if command = "Trim" then
      let sent : Outcome World (Option error) :=
        if w.mode = .modeUserTimeline then fsysCommand "trim @%s 10" [w.screenName] s
        else if w.mode = .modeHome then fsysCommand "trim home 10" [] s
        else if w.mode = .modeMentions then fsysCommand "trim mentions 10" [] s
        else .ret none s
      sent.bind fun _ s => (w.load sortSort s).bind fun _ s => .ret true s
    else .ret false s
  | .modeUpdate =>
    if command = "Post" then
      let (text, err) := w.Win.ReadAll
      match err with
      | some e => .ret false (s.put { w with Win := w.Win.Errf "Failed reading body: %+v" e })
      | none =>
        let sent :=
          if w.inReply = "" then fsysCommand "post %s" [text] s
          else fsysCommand "reply %s %s" [w.inReply, text] s
        sent.bind fun err s =>
          match err with
          | some e => .ret false (s.put { w with Win := w.Win.Errf "Failed posting via fs: %+v" e })
          | none => .ret true (s.put { w with Win := w.Win.Del })
    else .ret false s

/-! ## main.go -/

/-- The part of `main` after the mount: the two windows opened at start. -/
def main (s : World) : Outcome World Unit :=
  (newHomeWindow s).bind fun _ s => newMentionsWindow s

/-! ## Runs used to state the properties -/

/-- The registry entry of a window: its `*acme.Win` and its own address. -/
def window.entry (w : window) : Sigma fun _ : Nat => Nat := ⟨w.Win.id, w.addr⟩

/-- The windows of `ws` are closed one after the other: `exit` runs for each in
turn, and nothing runs after the process has exited. -/
def closeAll : List window → World → Outcome World Unit
  | [], s => .ret () s
  | w :: ws, s => (w.exit s).bind fun _ s => closeAll ws s


/-- The state after one `fsysCommand`, when `ctl` could be opened: the open,
the write of the data and the close are logged, and the data counts as
written. -/
def World.afterCommand (s : World) (data : String) : World :=
  { s with ops := s.ops ++ [.fopen "ctl" p.OWRITE] ++ [.write "ctl" data] ++ [.close "ctl"],
           written := s.written ++ [data] }


/-! ## Sample trees, windows and states -/

/-- A sample remote tree.  `home` lists three entries with distinct
modification times, `mentions` lists thirteen entries of which the first twelve
share one modification time; `users/alice` is a directory and `users/bob` is a
plain file; every file can be opened and reads as the text `tweet`; `ctl`
accepts every command except `older home`. -/
def sampleTree : Clnt where
  openErr := fun _ _ => none
  readdir := fun name =>
    if name = "home" then
      ([{ Name := "1", Mtime := 100 }, { Name := "2", Mtime := 300 }, { Name := "3", Mtime := 200 }],
        some io.EOF)
    else if name = "mentions" then
      ((List.range 13).map fun i =>
        { Name := toString i, Mtime := if i = 12 then 9 else 5 }, none)
    else ([], none)
  read := fun _ _ => ("tweet", none)
  writeErr := fun _ data => if data = "older home" then some { msg := "i/o error" } else none
  stat := fun name =>
    if name = "users/alice" ∨ name = "." ∨ name = "users" then
      .ok { Name := name, Mtime := 0, Mode := p.DMDIR }
    else if name = "users/bob" then .ok { Name := name, Mtime := 0, Mode := 0 }
    else .error { msg := "file not found" }

/-- The sample tree, except that entry `3` of `home` cannot be opened. -/
def brokenTree : Clnt :=
  { sampleTree with
    openErr := fun name _ => if name = "home/3" then some { msg := "permission denied" } else none }

/-- A state of the process in which nothing has happened yet, on the sample
tree. -/
def sampleWorld : World := { remote := fun _ => sampleTree }

/-- A state of the process in which nothing has happened yet, on the broken
tree. -/
def brokenWorld : World := { remote := fun _ => brokenTree }

/-- The sample tree, except that no write is accepted. -/
def refusingTree : Clnt :=
  { sampleTree with writeErr := fun _ _ => some { msg := "permission denied" } }

/-- The sample tree, except that `users/100%d` and `users/new york` are
directories too. -/
def oddTree : Clnt :=
  { sampleTree with
    stat := fun name =>
      if name = "users/100%d" ∨ name = "users/new york" then
        .ok { Name := name, Mtime := 0, Mode := p.DMDIR }
      else sampleTree.stat name }

/-- A window on the home timeline. -/
def homeWindow : window :=
  { addr := 1, Win := { id := 0, name := "/twitter/home", body := "7 abc", dot := (0, 1) },
    mode := .modeHome }

/-- A window on the timeline of the user named `alice/`, as `Look("Alice/")`
creates it. -/
def slashWindow : window :=
  { addr := 3, Win := { id := 2, name := "/twitter/users/alice/" }, mode := .modeUserTimeline,
    screenName := "alice/" }

/-- A window on the timeline of the user named `..`, as `Look("..")` creates
it. -/
def dotdotWindow : window :=
  { addr := 3, Win := { id := 2, name := "/twitter/users/.." }, mode := .modeUserTimeline,
    screenName := ".." }

/-- A Compose window replying to entry `7`. -/
def replyWindow : window :=
  { addr := 5, Win := { id := 4, name := "/twitter/reply/7", body := "hello" },
    mode := .modeUpdate, inReply := "7" }

/-- A Compose window replying to entry `9`, with the body `hello`. -/
def postWindow : window :=
  { addr := 3, Win := { id := 2, name := "/twitter/reply/9", body := "hello" },
    mode := .modeUpdate, inReply := "9" }

/-! ## Statements about `printTimeline` -/

/-- The `Mtime` at a position of the slice. -/
def byModified.key (dirs : byModified) (i : Nat) : Nat := (dirs.getD i default).Mtime

/-- A run of calls of `Swap`, first call first. -/
def byModified.Swaps (dirs : byModified) (swaps : List (Nat × Nat)) : byModified :=
  swaps.foldl (fun d p => d.Swap p.1 p.2) dirs

/-- `d'` is reached from `d` by calls of `Swap` on positions of `[a, b)`. -/
def Rearranged (d d' : byModified) (a b : Nat) : Prop :=
  ∃ swaps : List (Nat × Nat),
    (∀ p ∈ swaps, (a ≤ p.1 ∧ p.1 < b) ∧ (a ≤ p.2 ∧ p.2 < b)) ∧ d' = d.Swaps swaps

/-- The positions of `[a, b)` are in ascending order as determined by `Less`:
no position holds an entry `Less` than one before it. -/
def SortedOn (d : byModified) (a b : Nat) : Prop :=
  ∀ i j : Nat, a ≤ i → i < j → j < b → d.Less j i = false

/-- What holds while the inner loop of `insertionSort` moves the entry at `j`
down: the other positions of `[a, i]` are in order, and the entry at `j` is
`Less` than every entry after it. -/
def InsertionInv (d : byModified) (a i j : Nat) : Prop :=
  (∀ p q, a ≤ p → p < q → q ≤ i → p ≠ j → q ≠ j → d.key q ≤ d.key p) ∧
  (∀ q, j < q → q ≤ i → d.key q < d.key j)

/-- The node `r` of the heap on `[first, first + hi)` is not `Less` than its
children: its entry has an `Mtime` no greater than theirs. -/
def HeapAt (d : byModified) (first hi r : Nat) : Prop :=
  (2 * r + 1 < hi → d.key (first + r) ≤ d.key (first + (2 * r + 1))) ∧
  (2 * r + 2 < hi → d.key (first + r) ≤ d.key (first + (2 * r + 2)))

/-- What holds while `siftDown` moves the entry at `root` down. -/
def SiftInv (d : byModified) (first lo hi root : Nat) : Prop :=
  (∀ r c, lo ≤ r → r ≠ root → (c = 2 * r + 1 ∨ c = 2 * r + 2) → c < hi → c ≠ root →
    d.key (first + r) ≤ d.key (first + c)) ∧
  (∀ p g, lo ≤ p → (root = 2 * p + 1 ∨ root = 2 * p + 2) →
    (g = 2 * root + 1 ∨ g = 2 * root + 2) → g < hi → d.key (first + p) ≤ d.key (first + g)) ∧
  (∀ p, lo ≤ p → (root = 2 * p + 1 ∨ root = 2 * p + 2) →
    d.key (first + p) ≤ d.key (first + root))

/-- What holds before each step of the second loop of `heapSort`: the first `k`
positions form a heap, the positions after them are in order, and no entry
after the heap is `Less` than an entry of the heap. -/
def PopInv (d : byModified) (first hi k : Nat) : Prop :=
  (∀ r, r < k → HeapAt d first k r) ∧
  SortedOn d (first + k) (first + hi) ∧
  (∀ r t, r < k → k ≤ t → t < hi → d.key (first + t) ≤ d.key (first + r))

/-- What holds between the steps of `partition`: the positions after `a` and
before `i` hold entries `Less` than the pivot at `a`, the positions after `j`
hold entries that are not. -/
def PartitionInv (d : byModified) (a b i j : Nat) : Prop :=
  a + 1 ≤ i ∧ i ≤ j + 1 ∧ j < b ∧
  (∀ k, a < k → k < i → d.key a < d.key k) ∧
  (∀ k, j < k → k < b → d.key k ≤ d.key a)

/-- What holds between the steps of `partitionEqual`: the positions after `a`
and before `i` hold entries that the pivot at `a` is not `Less` than, the
positions after `j` hold entries that it is `Less` than. -/
def PartitionEqualInv (d : byModified) (a b i j : Nat) : Prop :=
  a + 1 ≤ i ∧ i ≤ j + 1 ∧ j < b ∧
  (∀ k, a < k → k < i → d.key a ≤ d.key k) ∧
  (∀ k, j < k → k < b → d.key k < d.key a)

/-- The entry before the range, if there is one, is not `Less` than any entry
of the range: it has an `Mtime` at least as great. -/
def LowerBound (d : byModified) (a b : Nat) : Prop :=
  0 < a → ∀ k, a ≤ k → k < b → d.key k ≤ d.key (a - 1)

/-- What holds between the steps of the partitioning loop of `doPivot`, the
pivot being at `lo`: the pivot is not `Less` than an entry after `lo` and
before `b`, and no entry from `c` on is `Less` than the pivot. -/
def DoPivotInv (d : byModified) (lo hi b c : Nat) : Prop :=
  lo < b ∧ b ≤ c ∧ c < hi ∧
  (∀ k, lo < k → k < b → d.key lo ≤ d.key k) ∧
  (∀ k, c ≤ k → k < hi → d.key k ≤ d.key lo)

/-- What holds after the partitioning loop of `doPivot`, the pivot being at
`lo`: the pivot is not `Less` than an entry after `lo` and before `b`, the
entries from `b` to `c` have the `Mtime` of the pivot, and no entry from `c` on
is `Less` than the pivot. -/
def PivotInv (d : byModified) (lo hi b c : Nat) : Prop :=
  lo < b ∧ b ≤ c ∧ c ≤ hi ∧
  (∀ k, lo < k → k < b → d.key lo ≤ d.key k) ∧
  (∀ k, b ≤ k → k < c → d.key k = d.key lo) ∧
  (∀ k, c ≤ k → k < hi → d.key k ≤ d.key lo)

/-- The documented contract of `sort.Sort`, for `byModified`: the data is
rearranged by calls of `Swap` into ascending order as determined by `Less`,
that is, no position holds an entry `Less` than one before it.  Nothing is
promised about entries neither of which is `Less` than the other. -/
def SortContract (sortSort : byModified → byModified) : Prop :=
  ∀ dirs : byModified,
    Rearranged dirs (sortSort dirs) 0 dirs.Len ∧ SortedOn (sortSort dirs) 0 dirs.Len

/-- The entries sorted by modification time, newest first, ties in the order
of the enumeration: the order the specification asks for, written without
reference to `sort.Sort`. -/
def newestFirst (children : List Dir) : List Dir :=
  children.insertionSort fun a b => a.Mtime ≥ b.Mtime

/-- The entry can be opened and read: the open gives no error and the read
gives none or `io.EOF`. -/
def Clnt.entryOk (fsys : Clnt) (timeline : String) (d : Dir) : Prop :=
  fsys.openErr (path.Join [timeline, d.Name]) p.OREAD = none ∧
  ((fsys.read (path.Join [timeline, d.Name]) 4096).2 = none ∨
    (fsys.read (path.Join [timeline, d.Name]) 4096).2 = some io.EOF)

/-- What `printTimeline` writes for one entry: the separator line with the
entry's name, then the bytes read from the entry's file. -/
def emittedFor (fsys : Clnt) (timeline : String) (d : Dir) : List String :=
  ["--- " ++ d.Name ++ "\n", (fsys.read (path.Join [timeline, d.Name]) 4096).1]

/-- The requests `printTimeline` sends for one entry that can be opened. -/
def requestsFor (timeline : String) (d : Dir) : List FsOp :=
  [.fopen (path.Join [timeline, d.Name]) p.OREAD, .read (path.Join [timeline, d.Name]) 4096,
    .close (path.Join [timeline, d.Name])]

/-- The separator line of entry `a` is written before that of entry `b`, and
not the other way round. -/
def emittedBefore (out : List String) (a b : Dir) : Prop :=
  List.Sublist ["--- " ++ a.Name ++ "\n", "--- " ++ b.Name ++ "\n"] out ∧
  ¬ List.Sublist ["--- " ++ b.Name ++ "\n", "--- " ++ a.Name ++ "\n"] out

instance (fsys : Clnt) (timeline : String) (d : Dir) : Decidable (fsys.entryOk timeline d) := by
  unfold Clnt.entryOk
  infer_instance

instance (out : List String) (a b : Dir) : Decidable (emittedBefore out a b) := by
  unfold emittedBefore
  infer_instance

/-- A name that is one plain path element: not empty, without a slash, and
neither `.` nor `..`. -/
def plainElement (name : String) : Prop :=
  name.data ≠ [] ∧ '/' ∉ name.data ∧ name.data ≠ ['.'] ∧ name.data ≠ ['.', '.']

instance (name : String) : Decidable (plainElement name) := by
  unfold plainElement
  infer_instance

/-! ## Statements about the creation of windows -/

/-- A name that reaches the editor as it is written and that the editor
accepts: without `%`, which `Win.Name` reads as the start of a verb, and
without blank or control character. -/
def plainName (name : String) : Prop := ∀ c ∈ name.data, c ≠ '%' ∧ ' ' < c

instance (name : String) : Decidable (plainName name) := by
  unfold plainName
  infer_instance

/-- The next two attempts of `acme.New` both fail, which makes `newWindow`
end the process. -/
def World.createFails (s : World) : Bool :=
  match s.newFails with
  | true :: true :: _ => true
  | _ => false

/-- The window that `newWindow(title)` creates in state `s`, before any of its
fields is set, whatever the title. -/
def World.made (s : World) (title : String) : window :=
  { addr := s.next + 1,
    Win := ((({ id := s.next } : Win).SetErrorPrefix title).Name s.lines title []).1 }

/-- The window that `newUserTimelineWindow(screenName)` creates in state `s`,
whatever the screen name. -/
def World.madeUser (s : World) (screenName : String) : window :=
  window.resetTag
    { s.made ("/twitter/users/" ++ screenName) with
      mode := .modeUserTimeline, screenName := screenName }

/-- The window that `newWindow(title)` creates in state `s` when the title is a
plain name, before any of its fields is set. -/
def World.fresh (s : World) (title : String) : window :=
  { addr := s.next + 1,
    Win := { id := s.next, name := title, errorPfx := title, ctl := ["name " ++ title] } }

/-- The Compose window that `newUpdateWindow(inReply)` creates in state `s`
for a reply: named `/twitter/reply/<inReply>`, tagged, in mode Compose. -/
def World.freshReply (s : World) (inReply : String) : window :=
  { addr := s.next + 1,
    Win := { id := s.next, name := "/twitter/reply/" ++ inReply,
             errorPfx := "/twitter/reply/" ++ inReply, tag := " Post ",
             ctl := ["name " ++ ("/twitter/reply/" ++ inReply), "cleartag"] },
    mode := .modeUpdate, inReply := inReply }

/-- The window that `newUserTimelineWindow(screenName)` creates in state `s`
when the screen name is a plain name: named `/twitter/users/<screenName>`,
tagged, in mode UserTimeline. -/
def World.freshUser (s : World) (screenName : String) : window :=
  { addr := s.next + 1,
    Win := { id := s.next, name := "/twitter/users/" ++ screenName,
             errorPfx := "/twitter/users/" ++ screenName,
             tag := " New Reply Newer Older Trim Get ",
             ctl := ["name " ++ ("/twitter/users/" ++ screenName), "cleartag"] },
    mode := .modeUserTimeline, screenName := screenName }

/-- No window has an address that is still unused. -/
def World.wellFormed (s : World) : Prop := ∀ v ∈ s.windows, v.addr < s.next

/-- The sample tree with the home window open, registered, and the text `7`
selected in it. -/
def homeWorld : World :=
  { sampleWorld with
    windows := [homeWindow], next := 2, all_m := some ((∅ : AList fun _ : Nat => Nat).insert 0 1) }

/-- The sample tree with the home window and the Compose window `postWindow`
open and registered. -/
def postingWorld : World :=
  { sampleWorld with
    windows := [homeWindow, postWindow], next := 4,
    all_m := some (((∅ : AList fun _ : Nat => Nat).insert 0 1).insert 2 3) }

/-- The same windows on the tree that accepts no write. -/
def refusedWorld : World := { postingWorld with remote := fun _ => refusingTree }

/-- The home window open on the tree in which `users/100%d` and
`users/new york` are directories, with an editor that refuses a name of
several lines. -/
def oddWorld : World :=
  { remote := fun _ => oddTree, windows := [homeWindow], next := 2,
    all_m := some ((∅ : AList fun _ : Nat => Nat).insert 0 1) }

/-- The sample tree with the home window and a Compose window replying to
entry `7` open, the text `7` being selected in the home window. -/
def replyingWorld : World :=
  { sampleWorld with
    windows := [homeWindow, replyWindow], next := 6,
    all_m := some (((∅ : AList fun _ : Nat => Nat).insert 0 1).insert 4 5) }
/-! ## Properties -/

/-! ### resetTag -/

/-- A format without `%` is copied. -/
theorem fmt_doPrintf_plain (a : List String) (fuel : Nat) (format : List Char) (p : fmt.pp)
    (h : '%' ∉ format) :
    fmt.doPrintf a (fuel + 1) format p =
      { p with goodArgNum := true, buf := p.buf ++ format } := by
  have hall : ∀ x ∈ format, (x != '%') = true := by
    intro x hx
    simp only [bne_iff_ne, ne_eq]
    intro hx'
    exact h (hx' ▸ hx)
  rw [fmt.doPrintf]
  simp only [List.takeWhile_eq_self_iff.mpr hall, List.dropWhile_eq_nil_iff.mpr hall]

/-- `fmt.Sprintf` of a format without `%` and without operand is the format. -/
theorem fmt_Sprintf_plain (format : String) (h : '%' ∉ format.data) :
    fmt.Sprintf format [] = format := by
  apply String.ext
  simp [fmt.Sprintf, fmt_doPrintf_plain [] _ _ _ h]

theorem fmt_Sprintf_tag_main :
    fmt.Sprintf " New Reply Newer Older Trim Get " [] = " New Reply Newer Older Trim Get " :=
  fmt_Sprintf_plain _ (by decide)

theorem fmt_Sprintf_tag_post : fmt.Sprintf " Post " [] = " Post " :=
  fmt_Sprintf_plain _ (by decide)

theorem resetTag_mode (w : window) : (w.resetTag).mode = w.mode := rfl

theorem resetTag_tag (w : window) :
    (w.resetTag).Win.tag =
      (match w.mode with
       | .modeUpdate => " Post "
       | _ => " New Reply Newer Older Trim Get ") := by
  cases w with
  | mk addr aw mode sn ir =>
    cases mode <;>
      simp [window.resetTag, Win.Fprintf, Win.Write, Win.Ctl, fmt_Sprintf_tag_main,
        fmt_Sprintf_tag_post]

theorem resetTag_iterate_mode (w : window) (n : Nat) :
    ((window.resetTag)^[n] w).mode = w.mode := by
  induction n generalizing w with
  | zero => rfl
  | succ k ih => rw [Function.iterate_succ_apply, ih, resetTag_mode]

/-- C10: whatever the tag held before, the tag after `N ≥ 1` calls of
`resetTag` is the tag after one call, and it is determined by the mode:
`" New Reply Newer Older Trim Get "` for Home, Mentions and UserTimeline,
`" Post "` for Compose. -/
theorem resetTag_idempotent (w : window) (N : Nat) (hN : 1 ≤ N) :
    ((window.resetTag)^[N] w).Win.tag = (w.resetTag).Win.tag ∧
    ((w.mode = .modeHome ∨ w.mode = .modeMentions ∨ w.mode = .modeUserTimeline) →
      (w.resetTag).Win.tag = " New Reply Newer Older Trim Get ") ∧
    (w.mode = .modeUpdate → (w.resetTag).Win.tag = " Post ") := by
  obtain ⟨k, rfl⟩ : ∃ k, N = k + 1 := ⟨N - 1, by omega⟩
  refine ⟨?_, ?_, ?_⟩
  · rw [Function.iterate_succ_apply', resetTag_tag, resetTag_tag, resetTag_iterate_mode]
  · intro h
    rw [resetTag_tag]
    rcases h with h | h | h <;> simp [h]
  · intro h
    rw [resetTag_tag]
    simp [h]

/-- C10 at a window in Compose mode whose tag holds other text, with three
calls. -/
theorem resetTag_idempotent_witness :
    1 ≤ 3 ∧
    ((window.resetTag)^[3]
        { addr := 1, Win := { id := 0, tag := " Look Put " }, mode := .modeUpdate }).Win.tag
      = " Post " :=
  ⟨by decide, by
    have h := resetTag_idempotent
      { addr := 1, Win := { id := 0, tag := " Look Put " }, mode := .modeUpdate } 3 (by decide)
    rw [h.1]
    exact h.2.2 rfl⟩

/-! ### The registry and `exit` -/

theorem GoMap.len_some (m : AList fun _ : Nat => Nat) : GoMap.len (some m) = m.entries.length := by
  simp [GoMap.len, AList.keys, List.keys]

theorem entries_erase_of_perm (w : window) (ws : List window) (m : AList fun _ : Nat => Nat)
    (h : ((w :: ws).map window.entry).Perm m.entries) :
    (ws.map window.entry).Perm (m.erase w.Win.id).entries := by
  have hnd : ((w :: ws).map window.entry).NodupKeys := (List.perm_nodupKeys h).mpr m.nodupKeys
  have h2 := List.Perm.kerase (a := w.Win.id) hnd h
  simpa [window.entry, AList.erase] using h2

theorem lookup_of_perm (w : window) (ws : List window) (m : AList fun _ : Nat => Nat)
    (h : (ws.map window.entry).Perm m.entries) (hw : w ∈ ws) :
    m.lookup w.Win.id = some w.addr := by
  have hmem : (⟨w.Win.id, w.addr⟩ : Sigma fun _ : Nat => Nat) ∈ m.entries :=
    h.subset (List.mem_map.mpr ⟨w, hw, rfl⟩)
  exact AList.mem_lookup_iff.mpr hmem

/-- What one `exit` does to a registry in which the window is registered. -/
theorem exit_registered (w : window) (s : World) (m : AList fun _ : Nat => Nat)
    (hm : s.all_m = some m) (hreg : m.lookup w.Win.id = some w.addr) :
    w.exit s =
      if m.entries.length = 1 then
        .exit 0 { s with all_m := some (m.erase w.Win.id), ops := s.ops ++ [.unmount] }
      else .ret () { s with all_m := some (m.erase w.Win.id) } := by
  have hmem : w.Win.id ∈ m.keys := AList.mem_keys.mp (AList.lookup_isSome.mp (by simp [hreg]))
  have hlen : (m.erase w.Win.id).keys.length + 1 = m.keys.length := by
    rw [AList.keys_erase, List.length_erase_of_mem hmem]
    have : 0 < m.keys.length := List.length_pos_of_mem hmem
    omega
  have hk : m.keys.length = m.entries.length := by simp [AList.keys, List.keys]
  unfold window.exit
  simp only [hm, GoMap.get, hreg, if_true, GoMap.delete, GoMap.len, World.log]
  by_cases h1 : m.entries.length = 1
  · have : (m.erase w.Win.id).keys.length = 0 := by omega
    rw [if_pos this, if_pos h1]
  · have : (m.erase w.Win.id).keys.length ≠ 0 := by omega
    rw [if_neg this, if_neg h1]

theorem closeAll_before_last (pre post : List window) :
    ∀ (s : World) (m : AList fun _ : Nat => Nat), s.all_m = some m →
      ((pre ++ post).map window.entry).Perm m.entries → post ≠ [] →
      ∃ s', closeAll pre s = .ret () s' ∧ s'.ops = s.ops := by
  induction pre with
  | nil => intro s m _ _ _; exact ⟨s, rfl, rfl⟩
  | cons w pre ih =>
    intro s m hm hperm hpost
    have hreg : m.lookup w.Win.id = some w.addr :=
      lookup_of_perm w (w :: pre ++ post) m hperm (List.mem_cons_self _ _)
    have hlen : m.entries.length ≠ 1 := by
      have h1 := hperm.length_eq
      have h2 : 0 < post.length := List.length_pos.mpr hpost
      simp only [List.cons_append, List.map_cons, List.length_cons, List.length_map,
        List.length_append] at h1
      omega
    have hstep := exit_registered w s m hm hreg
    rw [if_neg hlen] at hstep
    obtain ⟨s', h1, h2⟩ := ih { s with all_m := some (m.erase w.Win.id) } (m.erase w.Win.id) rfl
      (entries_erase_of_perm w (pre ++ post) m hperm) hpost
    exact ⟨s', by simp only [closeAll, hstep, Outcome.bind, h1], h2⟩

theorem closeAll_last (ws : List window) :
    ∀ (s : World) (m : AList fun _ : Nat => Nat), s.all_m = some m →
      (ws.map window.entry).Perm m.entries → ws ≠ [] →
      ∃ s', closeAll ws s = .exit 0 s' ∧ s'.ops = s.ops ++ [.unmount] ∧ s'.all_m.len = 0 := by
  induction ws with
  | nil => intro s m _ _ h; exact absurd rfl h
  | cons w ws ih =>
    intro s m hm hperm _
    have hreg : m.lookup w.Win.id = some w.addr :=
      lookup_of_perm w (w :: ws) m hperm (List.mem_cons_self _ _)
    have hstep := exit_registered w s m hm hreg
    have hrest := entries_erase_of_perm w ws m hperm
    by_cases hws : ws = []
    · subst hws
      have hlen : m.entries.length = 1 := by simpa using hperm.length_eq.symm
      rw [if_pos hlen] at hstep
      refine ⟨{ s with all_m := some (m.erase w.Win.id), ops := s.ops ++ [.unmount] },
        by simp only [closeAll, hstep, Outcome.bind], rfl, ?_⟩
      have := hrest.length_eq
      simp only [List.map_nil, List.length_nil] at this
      simp [GoMap.len_some, ← this]
    · have hlen : m.entries.length ≠ 1 := by
        have h1 := hperm.length_eq
        have h2 : 0 < ws.length := List.length_pos.mpr hws
        simp only [List.map_cons, List.length_cons, List.length_map] at h1
        omega
      rw [if_neg hlen] at hstep
      obtain ⟨s', h1, h2, h3⟩ := ih { s with all_m := some (m.erase w.Win.id) }
        (m.erase w.Win.id) rfl hrest hws
      exact ⟨s', by simp only [closeAll, hstep, Outcome.bind, h1], h2, h3⟩

/-- C2: in a registry whose entries are exactly the `N ≥ 1` windows `ws`,
`exit` for one of them removes that window's entry and no other, and it
unmounts and exits if and only if `N = 1`; so when all of `ws` are closed one
after the other, in any order, nothing is unmounted and the process has not
exited before the last close, and the last close unmounts once and exits with
status 0, leaving the registry empty. -/
theorem exit_last_window (s : World) (m : AList fun _ : Nat => Nat) (ws : List window)
    (N : Nat) (hm : s.all_m = some m) (hws : (ws.map window.entry).Perm m.entries)
    (hN : ws.length = N) (hpos : 1 ≤ N) :
    (∀ w ∈ ws,
      (w.exit s).state.all_m = some (m.erase w.Win.id) ∧
      (w.exit s).state.all_m.get w.Win.id = none ∧
      (∀ k, k ≠ w.Win.id → (w.exit s).state.all_m.get k = s.all_m.get k) ∧
      (w.exit s).state.all_m.len = N - 1 ∧
      (((w.exit s).exited = some 0 ∧ (w.exit s).state.ops = s.ops ++ [.unmount]) ↔ N = 1) ∧
      (N ≠ 1 → (w.exit s).val? = some () ∧ (w.exit s).state.ops = s.ops)) ∧
    (∀ pre post, ws = pre ++ post → post ≠ [] →
      (closeAll pre s).val? = some () ∧ (closeAll pre s).state.ops = s.ops) ∧
    ((closeAll ws s).exited = some 0 ∧ (closeAll ws s).state.ops = s.ops ++ [.unmount] ∧
      (closeAll ws s).state.all_m.len = 0) := by
  have hne : ws ≠ [] := by
    intro h
    simp [h] at hN
    omega
  have hlenN : m.entries.length = N := by
    have := hws.length_eq
    simp only [List.length_map] at this
    omega
  refine ⟨?_, ?_, ?_⟩
  · intro w hw
    have hreg := lookup_of_perm w ws m hws hw
    have hstep := exit_registered w s m hm hreg
    have hmem : w.Win.id ∈ m.keys := AList.mem_keys.mp (AList.lookup_isSome.mp (by simp [hreg]))
    have hlen : (m.erase w.Win.id).keys.length + 1 = m.keys.length := by
      rw [AList.keys_erase, List.length_erase_of_mem hmem]
      have : 0 < m.keys.length := List.length_pos_of_mem hmem
      omega
    have hk : m.keys.length = m.entries.length := by simp [AList.keys, List.keys]
    have hstate : (w.exit s).state.all_m = some (m.erase w.Win.id) := by
      rw [hstep]; split <;> rfl
    refine ⟨hstate, ?_, ?_, ?_, ?_, ?_⟩
    · rw [hstate]; exact AList.lookup_erase _ _
    · intro k hk'
      rw [hstate, hm]
      exact AList.lookup_erase_ne hk'
    · rw [hstate]
      simp only [GoMap.len]
      omega
    · rw [hstep, hlenN]
      by_cases h1 : N = 1
      · simp [h1, Outcome.exited, Outcome.state]
      · simp [h1, Outcome.exited, Outcome.state]
    · intro h1
      rw [hstep, hlenN, if_neg h1]
      exact ⟨rfl, rfl⟩
  · intro pre post hsplit hpost
    subst hsplit
    obtain ⟨s', h1, h2⟩ := closeAll_before_last pre post s m hm hws hpost
    rw [h1]
    exact ⟨rfl, h2⟩
  · obtain ⟨s', h1, h2, h3⟩ := closeAll_last ws s m hm hws hne
    rw [h1]
    exact ⟨rfl, h2, h3⟩


/-! ### `fsysCommand` and `Post` -/

theorem fmt_Sprintf_post (text : String) : fmt.Sprintf "post %s" [text] = "post " ++ text := by
  apply String.ext
  simp [fmt.Sprintf, fmt.doPrintf, fmt.isFlag, fmt.printArg, String.data_append]

theorem fmt_Sprintf_reply (inReply text : String) :
    fmt.Sprintf "reply %s %s" [inReply, text] = "reply " ++ inReply ++ " " ++ text := by
  apply String.ext
  simp [fmt.Sprintf, fmt.doPrintf, fmt.isFlag, fmt.printArg, String.data_append]

/-- `fsysCommand` always returns; it sends one open of `ctl`, and, if that
succeeds, one write of the formatted command and one close. -/
theorem fsysCommand_eq (format : String) (a : List String) (s : World) :
    fsysCommand format a s =
      match s.fsys.openErr "ctl" p.OWRITE with
      | some e => .ret (some { e with stack := true }) (s.log [.fopen "ctl" p.OWRITE])
      | none =>
        .ret (errors.WithStack (s.fsys.writeErr "ctl" (fmt.Sprintf format a)))
          (s.afterCommand (fmt.Sprintf format a)) := by
  unfold fsysCommand Clnt.FOpen
  cases h : s.fsys.openErr "ctl" p.OWRITE with
  | some e => simp [errors.WithStack]
  | none =>
    simp [File.Write, World.log, World.afterCommand, World.fsys]

theorem find_map_put (w' : window) (l : List window)
    (h : (l.find? fun v => v.addr = w'.addr).isSome = true) :
    (l.map fun v => if v.addr = w'.addr then w' else v).find? (fun v => v.addr = w'.addr) =
      some w' := by
  induction l with
  | nil => simp at h
  | cons v l ih =>
    by_cases hv : v.addr = w'.addr
    · simp [List.find?, hv]
    · have hv' : decide (v.addr = w'.addr) = false := by simp [hv]
      simp only [List.find?_cons, hv'] at h
      simp only [List.map_cons, if_neg hv, List.find?_cons, hv']
      exact ih h

theorem find_map_put_other (w' : window) (a : Nat) (ha : a ≠ w'.addr) (l : List window) :
    (l.map fun v => if v.addr = w'.addr then w' else v).find? (fun v => v.addr = a) =
      l.find? (fun v => v.addr = a) := by
  induction l with
  | nil => rfl
  | cons v l ih =>
    by_cases hv : v.addr = w'.addr
    · have h1 : decide (w'.addr = a) = false := by simp [Ne.symm ha]
      have h2 : decide (v.addr = a) = false := by simp [hv, Ne.symm ha]
      simp only [List.map_cons, if_pos hv, List.find?_cons, h1, h2]
      exact ih
    · simp only [List.map_cons, if_neg hv, List.find?_cons]
      cases decide (v.addr = a) with
      | true => rfl
      | false => exact ih

/-- The window stored at an address by `put` is the window found there. -/
theorem deref_put_self (s : World) (w' : window) (h : (s.deref w'.addr).isSome = true) :
    (s.put w').deref w'.addr = some w' :=
  find_map_put w' s.windows h

/-- The windows at other addresses are not touched by `put`. -/
theorem deref_put_other (s : World) (w' : window) (a : Nat) (ha : a ≠ w'.addr) :
    (s.put w').deref a = s.deref a :=
  find_map_put_other w' a ha s.windows

/-- C3: in a Compose window whose body `b` can be read, `Execute("Post")` calls
`fsysCommand` once, with the command `post b` when the reply target is empty
and `reply <target> b` otherwise.  When the command is written, the window is
deleted and the result is `true`; when `ctl` cannot be opened or the write
fails, the window is not deleted, the error is shown with `Errf`, and the result
is `false`.  For a window of the process, the window found at its address
afterwards is the deleted window in the first case and the window with the
error shown in the second, and the windows at the other addresses are as they
were. -/
theorem Execute_Post (sortSort : byModified → byModified) (w : window) (s : World)
    (hmode : w.mode = .modeUpdate) (hread : w.Win.readErr = none) :
    let cmd := if w.inReply = "" then "post " ++ w.Win.body
      else "reply " ++ w.inReply ++ " " ++ w.Win.body
    (∃ format a, fmt.Sprintf format a = cmd ∧
      w.Execute sortSort "Post" s =
        (fsysCommand format a s).bind fun err s' =>
          match err with
          | some e =>
            .ret false (s'.put { w with Win := w.Win.Errf "Failed posting via fs: %+v" e })
          | none => .ret true (s'.put { w with Win := w.Win.Del })) ∧
    (s.fsys.openErr "ctl" p.OWRITE = none → s.fsys.writeErr "ctl" cmd = none →
      w.Execute sortSort "Post" s =
        .ret true ((s.afterCommand cmd).put { w with Win := w.Win.Del }) ∧
      (w.Win.Del).deleted = true) ∧
    (∀ e, s.fsys.openErr "ctl" p.OWRITE = some e →
      w.Execute sortSort "Post" s =
        .ret false ((s.log [.fopen "ctl" p.OWRITE]).put
          { w with Win := w.Win.Errf "Failed posting via fs: %+v" { e with stack := true } })) ∧
    (∀ e, s.fsys.openErr "ctl" p.OWRITE = none → s.fsys.writeErr "ctl" cmd = some e →
      w.Execute sortSort "Post" s =
        .ret false ((s.afterCommand cmd).put
          { w with Win := w.Win.Errf "Failed posting via fs: %+v" { e with stack := true } })) ∧
    (∀ e, (w.Win.Errf "Failed posting via fs: %+v" e).deleted = w.Win.deleted ∧
      (w.Win.Errf "Failed posting via fs: %+v" e).errs =
        w.Win.errs ++ [("Failed posting via fs: %+v", e)]) ∧
    (s.deref w.addr = some w →
      (∀ a, a ≠ w.addr → (w.Execute sortSort "Post" s).state.deref a = s.deref a) ∧
      (s.fsys.openErr "ctl" p.OWRITE = none → s.fsys.writeErr "ctl" cmd = none →
        (w.Execute sortSort "Post" s).val? = some true ∧
        (w.Execute sortSort "Post" s).state.deref w.addr = some { w with Win := w.Win.Del } ∧
        ((w.Execute sortSort "Post" s).state.deref w.addr).map (fun v => v.Win.deleted) =
          some true) ∧
      (s.fsys.openErr "ctl" p.OWRITE ≠ none ∨ s.fsys.writeErr "ctl" cmd ≠ none →
        ∃ e, (w.Execute sortSort "Post" s).val? = some false ∧
          (w.Execute sortSort "Post" s).state.deref w.addr =
            some { w with Win := w.Win.Errf "Failed posting via fs: %+v" e } ∧
          ((w.Execute sortSort "Post" s).state.deref w.addr).map
              (fun v => (v.Win.deleted, v.Win.errs)) =
            some (w.Win.deleted, w.Win.errs ++ [("Failed posting via fs: %+v", e)]))) := by
  intro cmd
  have hexec : w.Execute sortSort "Post" s =
      (if w.inReply = "" then fsysCommand "post %s" [w.Win.body] s
        else fsysCommand "reply %s %s" [w.inReply, w.Win.body] s).bind fun err s' =>
        match err with
        | some e =>
          .ret false (s'.put { w with Win := w.Win.Errf "Failed posting via fs: %+v" e })
        | none => .ret true (s'.put { w with Win := w.Win.Del }) := by
    simp [window.Execute, hmode, Win.ReadAll, hread]
  have hcmd : ∃ format a, fmt.Sprintf format a = cmd ∧
      (if w.inReply = "" then fsysCommand "post %s" [w.Win.body] s
        else fsysCommand "reply %s %s" [w.inReply, w.Win.body] s) = fsysCommand format a s := by
    by_cases h : w.inReply = ""
    · exact ⟨"post %s", [w.Win.body], by simp [cmd, h, fmt_Sprintf_post], by simp [h]⟩
    · exact ⟨"reply %s %s", [w.inReply, w.Win.body], by simp [cmd, h, fmt_Sprintf_reply],
        by simp [h]⟩
  obtain ⟨format, a, hfmt, hsame⟩ := hcmd
  rw [hsame] at hexec
  have hok : s.fsys.openErr "ctl" p.OWRITE = none → s.fsys.writeErr "ctl" cmd = none →
      w.Execute sortSort "Post" s =
        .ret true ((s.afterCommand cmd).put { w with Win := w.Win.Del }) := by
    intro hopen hwrite
    rw [hexec, fsysCommand_eq, hfmt, hopen]
    simp [hwrite, Outcome.bind, errors.WithStack]
  have hfail1 : ∀ e, s.fsys.openErr "ctl" p.OWRITE = some e →
      w.Execute sortSort "Post" s =
        .ret false ((s.log [.fopen "ctl" p.OWRITE]).put
          { w with Win := w.Win.Errf "Failed posting via fs: %+v" { e with stack := true } }) := by
    intro e hopen
    rw [hexec, fsysCommand_eq, hopen]
    simp [Outcome.bind]
  have hfail2 : ∀ e, s.fsys.openErr "ctl" p.OWRITE = none → s.fsys.writeErr "ctl" cmd = some e →
      w.Execute sortSort "Post" s =
        .ret false ((s.afterCommand cmd).put
          { w with Win := w.Win.Errf "Failed posting via fs: %+v" { e with stack := true } }) := by
    intro e hopen hwrite
    rw [hexec, fsysCommand_eq, hfmt, hopen]
    simp [hwrite, Outcome.bind, errors.WithStack]
  refine ⟨⟨format, a, hfmt, hexec⟩, ?_, hfail1, hfail2, ?_, ?_⟩
  · intro hopen hwrite
    exact ⟨hok hopen hwrite, by simp [Win.Del, Win.Ctl]⟩
  · intro e
    exact ⟨rfl, rfl⟩
  · intro hw
    have hsome : ∀ s0 : World, s0.windows = s.windows → ∀ w' : window, w'.addr = w.addr →
        (s0.put w').deref w.addr = some w' := by
      intro s0 hs0 w' hw'
      rw [← hw']
      apply deref_put_self
      have : s0.deref w'.addr = s.deref w.addr := by
        unfold World.deref
        rw [hs0, hw']
      rw [this, hw]
      rfl
    have hother : ∀ s0 : World, s0.windows = s.windows → ∀ w' : window, w'.addr = w.addr →
        ∀ a, a ≠ w.addr → (s0.put w').deref a = s.deref a := by
      intro s0 hs0 w' hw' a ha
      rw [deref_put_other s0 w' a (by rw [hw']; exact ha)]
      unfold World.deref
      rw [hs0]
    refine ⟨?_, ?_, ?_⟩
    · intro a ha
      cases hopen : s.fsys.openErr "ctl" p.OWRITE with
      | some e =>
        rw [hfail1 e hopen]
        exact hother (s.log [.fopen "ctl" p.OWRITE]) rfl
          { w with Win := w.Win.Errf "Failed posting via fs: %+v" { e with stack := true } } rfl
          a ha
      | none =>
        cases hwrite : s.fsys.writeErr "ctl" cmd with
        | some e =>
          rw [hfail2 e hopen hwrite]
          exact hother (s.afterCommand cmd) rfl
            { w with Win := w.Win.Errf "Failed posting via fs: %+v" { e with stack := true } } rfl
            a ha
        | none =>
          rw [hok hopen hwrite]
          exact hother (s.afterCommand cmd) rfl { w with Win := w.Win.Del } rfl a ha
    · intro hopen hwrite
      rw [hok hopen hwrite]
      have hd := hsome (s.afterCommand cmd) rfl { w with Win := w.Win.Del } rfl
      refine ⟨rfl, hd, ?_⟩
      simp only [Outcome.state]
      rw [hd]
      simp [Win.Del, Win.Ctl]
    · intro hbad
      cases hopen : s.fsys.openErr "ctl" p.OWRITE with
      | some e =>
        refine ⟨{ e with stack := true }, ?_⟩
        rw [hfail1 e hopen]
        have hd := hsome (s.log [.fopen "ctl" p.OWRITE]) rfl
          { w with Win := w.Win.Errf "Failed posting via fs: %+v" { e with stack := true } } rfl
        refine ⟨rfl, hd, ?_⟩
        simp only [Outcome.state]
        rw [hd]
        rfl
      | none =>
        cases hwrite : s.fsys.writeErr "ctl" cmd with
        | none =>
          rcases hbad with h | h
          · exact absurd hopen h
          · exact absurd hwrite h
        | some e =>
          refine ⟨{ e with stack := true }, ?_⟩
          rw [hfail2 e hopen hwrite]
          have hd := hsome (s.afterCommand cmd) rfl
            { w with Win := w.Win.Errf "Failed posting via fs: %+v" { e with stack := true } } rfl
          refine ⟨rfl, hd, ?_⟩
          simp only [Outcome.state]
          rw [hd]
          rfl

/-- C3 at the Compose window replying to entry `9` with body `hello`, open
next to the home window.  On the sample tree the command `reply 9 hello` is
written, the result is `true` and the Compose window is deleted.  On the tree
that accepts no write the result is `false`, the Compose window is not deleted
and the error is shown in it.  The home window is left as it was. -/
theorem Execute_Post_witness :
    postWindow.mode = .modeUpdate ∧
    postWindow.Win.readErr = none ∧
    postingWorld.deref postWindow.addr = some postWindow ∧
    (postWindow.Execute go119.sort.Sort "Post" postingWorld).val? = some true ∧
    (postWindow.Execute go119.sort.Sort "Post" postingWorld).state.written = ["reply 9 hello"] ∧
    (postWindow.Execute go119.sort.Sort "Post" postingWorld).state.ops =
      [.fopen "ctl" p.OWRITE, .write "ctl" "reply 9 hello", .close "ctl"] ∧
    ((postWindow.Execute go119.sort.Sort "Post" postingWorld).state.deref postWindow.addr).map
        (fun v => v.Win.deleted) = some true ∧
    (postWindow.Execute go119.sort.Sort "Post" postingWorld).state.windows.map
        (fun v => (v.Win.name, v.Win.deleted, v.Win.ctl)) =
      [("/twitter/home", false, []), ("/twitter/reply/9", true, ["delete"])] ∧
    refusedWorld.deref postWindow.addr = some postWindow ∧
    (postWindow.Execute go119.sort.Sort "Post" refusedWorld).val? = some false ∧
    (postWindow.Execute go119.sort.Sort "Post" refusedWorld).state.windows.map
        (fun v => (v.Win.name, v.Win.deleted, v.Win.errs)) =
      [("/twitter/home", false, []),
        ("/twitter/reply/9", false,
          [("Failed posting via fs: %+v", { msg := "permission denied", stack := true })])] := by
  have hw : postingWorld.deref postWindow.addr = some postWindow := by decide
  have h := (Execute_Post go119.sort.Sort postWindow postingWorld rfl rfl).2.2.2.2.2 hw
  obtain ⟨hval, _, hdel⟩ := h.2.1 (by decide) (by decide)
  refine ⟨rfl, rfl, hw, hval, by decide, by decide, hdel, by decide, by decide, by decide,
    by decide⟩

/-! ### Swaps and rearrangements -/

theorem Swap_length (dirs : byModified) (a b : Nat) : (dirs.Swap a b).length = dirs.length := by
  simp [byModified.Swap]

/-- The entry at `k` after a swap of two positions inside the slice. -/
theorem Swap_getD (dirs : byModified) (a b k : Nat) (ha : a < dirs.length)
    (hb : b < dirs.length) :
    (dirs.Swap a b).getD k default =
      if k = b then dirs.getD a default else if k = a then dirs.getD b default
      else dirs.getD k default := by
  unfold byModified.Swap
  simp only [List.getD_eq_getElem?_getD, List.getElem?_set, List.length_set]
  by_cases h1 : k = b
  · subst h1; simp [hb]
  · by_cases h2 : k = a
    · subst h2
      have : ¬ b = k := fun h => h1 h.symm
      simp [this, ha, h1]
    · have h3 : ¬ b = k := fun h => h1 h.symm
      have h4 : ¬ a = k := fun h => h2 h.symm
      simp [h1, h2, h3, h4]

theorem set_perm_of_getElem (l : List Dir) :
    ∀ (n : Nat) (x : Dir), n < l.length → (l.set n x).Perm (x :: l.eraseIdx n) := by
  induction l with
  | nil => intro n x h; simp at h
  | cons y ys ih =>
    intro n x h
    cases n with
    | zero => simp
    | succ m =>
      simp only [List.set_cons_succ, List.eraseIdx_cons_succ]
      exact ((ih m x (by simpa using h)).cons y).trans (List.Perm.swap x y _)

theorem perm_getD_eraseIdx (l : List Dir) :
    ∀ n : Nat, n < l.length → l.Perm (l.getD n default :: l.eraseIdx n) := by
  induction l with
  | nil => intro n h; simp at h
  | cons y ys ih =>
    intro n h
    cases n with
    | zero => simp
    | succ m =>
      simp only [List.getD_cons_succ, List.eraseIdx_cons_succ]
      exact ((ih m (by simpa using h)).cons y).trans (List.Perm.swap _ y _)

/-- A swap of two positions inside the slice rearranges it. -/
theorem Swap_perm (dirs : byModified) :
    ∀ (a b : Nat), a < dirs.length → b < dirs.length → (dirs.Swap a b).Perm dirs := by
  induction dirs with
  | nil => intro a b ha; simp at ha
  | cons y ys ih =>
    intro a b ha hb
    cases a with
    | zero =>
      cases b with
      | zero => simp [byModified.Swap]
      | succ n =>
        have hn : n < ys.length := by simpa using hb
        simp only [byModified.Swap, List.set_cons_zero, List.getD_cons_succ, List.set_cons_succ,
          List.getD_cons_zero]
        exact (((set_perm_of_getElem ys n y hn).cons _).trans (List.Perm.swap _ _ _)).trans
          ((perm_getD_eraseIdx ys n hn).symm.cons y)
    | succ m =>
      have hm : m < ys.length := by simpa using ha
      cases b with
      | zero =>
        simp only [byModified.Swap, List.set_cons_zero, List.getD_cons_succ, List.set_cons_succ,
          List.getD_cons_zero]
        exact (((set_perm_of_getElem ys m y hm).cons _).trans (List.Perm.swap _ _ _)).trans
          ((perm_getD_eraseIdx ys m hm).symm.cons y)
      | succ n =>
        have hn : n < ys.length := by simpa using hb
        simpa [byModified.Swap] using (ih m n hm hn).cons y

theorem Less_iff (d : byModified) (i j : Nat) : d.Less i j = true ↔ d.key i > d.key j := by
  simp [byModified.Less, byModified.key]

theorem Less_false_iff (d : byModified) (i j : Nat) : d.Less i j = false ↔ d.key i ≤ d.key j := by
  simp [byModified.Less, byModified.key]

theorem Swap_key (d : byModified) (a b k : Nat) (ha : a < d.length) (hb : b < d.length) :
    (d.Swap a b).key k = if k = b then d.key a else if k = a then d.key b else d.key k := by
  unfold byModified.key
  rw [Swap_getD d a b k ha hb]
  split
  · rfl
  · split <;> rfl

theorem Swaps_nil (d : byModified) : d.Swaps [] = d := rfl

theorem Swaps_append (d : byModified) (xs ys : List (Nat × Nat)) :
    d.Swaps (xs ++ ys) = (d.Swaps xs).Swaps ys := by
  simp [byModified.Swaps, List.foldl_append]

theorem Swaps_length (d : byModified) (swaps : List (Nat × Nat)) :
    (d.Swaps swaps).length = d.length := by
  induction swaps generalizing d with
  | nil => rfl
  | cons p ps ih =>
    simp only [byModified.Swaps, List.foldl_cons] at ih ⊢
    rw [ih, Swap_length]

theorem Swaps_perm (d : byModified) (swaps : List (Nat × Nat))
    (h : ∀ p ∈ swaps, p.1 < d.length ∧ p.2 < d.length) : (d.Swaps swaps).Perm d := by
  induction swaps generalizing d with
  | nil => exact List.Perm.refl _
  | cons p ps ih =>
    have hp := h p (List.mem_cons_self _ _)
    have hps : ∀ q ∈ ps, q.1 < (d.Swap p.1 p.2).length ∧ q.2 < (d.Swap p.1 p.2).length := by
      intro q hq
      rw [Swap_length]
      exact h q (List.mem_cons_of_mem _ hq)
    simp only [byModified.Swaps, List.foldl_cons]
    exact (ih (d.Swap p.1 p.2) hps).trans (Swap_perm d p.1 p.2 hp.1 hp.2)

theorem Rearranged.refl (d : byModified) (a b : Nat) : Rearranged d d a b :=
  ⟨[], by simp, rfl⟩

theorem Rearranged.trans {d d' d'' : byModified} {a b : Nat} (h : Rearranged d d' a b)
    (h' : Rearranged d' d'' a b) : Rearranged d d'' a b := by
  obtain ⟨xs, hxs, rfl⟩ := h
  obtain ⟨ys, hys, rfl⟩ := h'
  refine ⟨xs ++ ys, ?_, (Swaps_append d xs ys).symm⟩
  intro p hp
  rcases List.mem_append.mp hp with h1 | h1
  · exact hxs p h1
  · exact hys p h1

theorem Rearranged.swap (d : byModified) {a b : Nat} (i j : Nat) (hi : a ≤ i ∧ i < b)
    (hj : a ≤ j ∧ j < b) : Rearranged d (d.Swap i j) a b :=
  ⟨[(i, j)], by simp [hi, hj], rfl⟩

theorem Rearranged.mono {d d' : byModified} {a b a' b' : Nat} (h : Rearranged d d' a b)
    (ha : a' ≤ a) (hb : b ≤ b') : Rearranged d d' a' b' := by
  obtain ⟨xs, hxs, rfl⟩ := h
  refine ⟨xs, ?_, rfl⟩
  intro p hp
  have := hxs p hp
  omega

theorem Rearranged.length {d d' : byModified} {a b : Nat} (h : Rearranged d d' a b) :
    d'.length = d.length := by
  obtain ⟨xs, _, rfl⟩ := h
  exact Swaps_length d xs

theorem Rearranged.perm {d d' : byModified} {a b : Nat} (h : Rearranged d d' a b)
    (hb : b ≤ d.length) : d'.Perm d := by
  obtain ⟨xs, hxs, rfl⟩ := h
  apply Swaps_perm
  intro p hp
  have := hxs p hp
  omega

/-- Positions outside `[a, b)` keep their entry. -/
theorem Rearranged.key_outside {d d' : byModified} {a b : Nat} (h : Rearranged d d' a b)
    (hb : b ≤ d.length) (k : Nat) (hk : k < a ∨ b ≤ k) : d'.key k = d.key k := by
  obtain ⟨xs, hxs, rfl⟩ := h
  induction xs generalizing d with
  | nil => rfl
  | cons p ps ih =>
    have hp := hxs p (List.mem_cons_self _ _)
    simp only [byModified.Swaps, List.foldl_cons]
    have := ih (d := d.Swap p.1 p.2) (by rw [Swap_length]; exact hb)
      (fun q hq => hxs q (List.mem_cons_of_mem _ hq))
    simp only [byModified.Swaps] at this
    rw [this, Swap_key d p.1 p.2 k (by omega) (by omega)]
    have h1 : k ≠ p.2 := by omega
    have h2 : k ≠ p.1 := by omega
    simp [h1, h2]

/-- A bound that holds for every entry of `[a, b)` still holds after the
entries are rearranged. -/
theorem Rearranged.forall_key {d d' : byModified} {a b : Nat} (h : Rearranged d d' a b)
    (hb : b ≤ d.length) (P : Nat → Prop) (hP : ∀ k, a ≤ k → k < b → P (d.key k)) :
    ∀ k, a ≤ k → k < b → P (d'.key k) := by
  obtain ⟨xs, hxs, rfl⟩ := h
  induction xs generalizing d with
  | nil => exact hP
  | cons p ps ih =>
    have hp := hxs p (List.mem_cons_self _ _)
    simp only [byModified.Swaps, List.foldl_cons]
    refine ih (d := d.Swap p.1 p.2) (by rw [Swap_length]; exact hb) ?_
      (fun q hq => hxs q (List.mem_cons_of_mem _ hq))
    intro k hk1 hk2
    rw [Swap_key d p.1 p.2 k (by omega) (by omega)]
    split
    · exact hP _ hp.1.1 hp.1.2
    · split
      · exact hP _ hp.2.1 hp.2.2
      · exact hP _ hk1 hk2


/-! ### `insertionSort` -/

theorem insertionSort_inner_spec (a i : Nat) :
    ∀ (j : Nat) (d : byModified), a ≤ j → j ≤ i → i < d.length → InsertionInv d a i j →
      Rearranged d (sort.insertionSort.inner a j d) a (i + 1) ∧
      SortedOn (sort.insertionSort.inner a j d) a (i + 1) := by
  intro j
  induction j with
  | zero =>
    intro d ha _ _ hinv
    refine ⟨Rearranged.refl _ _ _, ?_⟩
    intro p q hp hpq hq
    rw [sort.insertionSort.inner, Less_false_iff]
    by_cases h0 : p = 0
    · subst h0
      have := hinv.2 q (by omega) (by omega)
      omega
    · exact hinv.1 p q hp hpq (by omega) h0 (by omega)
  | succ j ih =>
    intro d ha hji hi hinv
    rw [sort.insertionSort.inner]
    by_cases hc : j + 1 > a ∧ d.Less (j + 1) j = true
    · rw [if_pos hc]
      have hless := (Less_iff d (j + 1) j).mp hc.2
      have hkey : ∀ k, (d.Swap (j + 1) j).key k =
          if k = j then d.key (j + 1) else if k = j + 1 then d.key j else d.key k :=
        fun k => Swap_key d (j + 1) j k (by omega) (by omega)
      have hinv' : InsertionInv (d.Swap (j + 1) j) a i j := by
        constructor
        · intro p q hp hpq hq hpj hqj
          rw [hkey p, hkey q, if_neg hpj, if_neg hqj]
          by_cases hp1 : p = j + 1
          · subst hp1
            rw [if_pos rfl, if_neg (by omega)]
            exact hinv.1 j q (by omega) (by omega) hq (by omega) (by omega)
          · rw [if_neg hp1]
            by_cases hq1 : q = j + 1
            · subst hq1
              rw [if_pos rfl]
              exact hinv.1 p j hp (by omega) (by omega) hp1 (by omega)
            · rw [if_neg hq1]
              exact hinv.1 p q hp hpq hq hp1 hq1
        · intro q hjq hq
          rw [hkey q, hkey j, if_pos rfl, if_neg (by omega)]
          by_cases hq1 : q = j + 1
          · subst hq1
            rw [if_pos rfl]
            exact hless
          · rw [if_neg hq1]
            exact hinv.2 q (by omega) hq
      obtain ⟨h1, h2⟩ := ih (d.Swap (j + 1) j) (by omega) (by omega)
        (by rw [Swap_length]; exact hi) hinv'
      exact ⟨(Rearranged.swap d (j + 1) j (by omega) (by omega)).trans h1, h2⟩
    · rw [if_neg hc]
      refine ⟨Rearranged.refl _ _ _, ?_⟩
      intro p q hp hpq hq
      rw [Less_false_iff]
      have hstop : j + 1 ≤ a ∨ d.key (j + 1) ≤ d.key j := by
        by_cases h1 : j + 1 > a
        · right
          have : ¬ d.Less (j + 1) j = true := fun h => hc ⟨h1, h⟩
          rw [Less_iff] at this
          omega
        · left; omega
      by_cases hq1 : q = j + 1
      · subst hq1
        rcases hstop with h | h
        · omega
        · by_cases hpj : p = j
          · subst hpj; exact h
          · have := hinv.1 p j hp (by omega) (by omega) (by omega) (by omega)
            omega
      · by_cases hp1 : p = j + 1
        · subst hp1
          have := hinv.2 q (by omega) (by omega)
          omega
        · exact hinv.1 p q hp hpq (by omega) hp1 hq1

theorem insertionSort_outer_spec (a b : Nat) :
    ∀ (fuel i : Nat) (d : byModified), a < i → i ≤ b → b ≤ d.length → b - i ≤ fuel →
      SortedOn d a i →
      Rearranged d (sort.insertionSort.outer a b fuel i d) a b ∧
      SortedOn (sort.insertionSort.outer a b fuel i d) a b := by
  intro fuel
  induction fuel with
  | zero =>
    intro i d _ hib _ hfuel hs
    have : i = b := by omega
    subst this
    exact ⟨Rearranged.refl _ _ _, hs⟩
  | succ fuel ih =>
    intro i d hai hib hb hfuel hs
    rw [sort.insertionSort.outer]
    by_cases hlt : i < b
    · rw [if_pos hlt]
      have hinv : InsertionInv d a i i := by
        constructor
        · intro p q hp hpq hq _ hqi
          have := hs p q hp hpq (by omega)
          rwa [Less_false_iff] at this
        · intro q h1 h2
          omega
      obtain ⟨h1, h2⟩ := insertionSort_inner_spec a i i d (by omega) (Nat.le_refl _) (by omega)
        hinv
      obtain ⟨h3, h4⟩ := ih (i + 1) (sort.insertionSort.inner a i d) (by omega) (by omega)
        (by rw [h1.length]; exact hb) (by omega) h2
      exact ⟨(h1.mono (Nat.le_refl _) (by omega)).trans h3, h4⟩
    · rw [if_neg hlt]
      have : i = b := by omega
      subst this
      exact ⟨Rearranged.refl _ _ _, hs⟩

/-- `insertionSort(data, a, b)` rearranges `data[a:b]` into order. -/
theorem insertionSort_spec (d : byModified) (a b : Nat) (hb : b ≤ d.length) :
    Rearranged d (sort.insertionSort d a b) a b ∧ SortedOn (sort.insertionSort d a b) a b := by
  unfold sort.insertionSort
  by_cases hab : a + 1 ≤ b
  · apply insertionSort_outer_spec a b (b - a) (a + 1) d (by omega) hab hb (by omega)
    intro p q hp hpq hq
    omega
  · have h0 : b - a = 0 := by omega
    rw [h0, sort.insertionSort.outer]
    refine ⟨Rearranged.refl _ _ _, ?_⟩
    intro p q hp hpq hq
    omega

/-! ### `heapSort` -/

theorem siftDown_loop_spec (first lo hi : Nat) :
    ∀ (fuel root : Nat) (d : byModified), lo ≤ root → hi ≤ root + fuel →
      first + hi ≤ d.length → SiftInv d first lo hi root →
      Rearranged d (sort.siftDown.loop hi first fuel root d) (first + lo) (first + hi) ∧
      ∀ r, lo ≤ r → r < hi → HeapAt (sort.siftDown.loop hi first fuel root d) first hi r := by
  intro fuel
  induction fuel with
  | zero =>
    intro root d hlo hfuel _ hinv
    refine ⟨Rearranged.refl _ _ _, ?_⟩
    intro r hr hrhi
    rw [sort.siftDown.loop]
    constructor
    · intro hc
      exact hinv.1 r (2 * r + 1) hr (by omega) (Or.inl rfl) hc (by omega)
    · intro hc
      exact hinv.1 r (2 * r + 2) hr (by omega) (Or.inr rfl) hc (by omega)
  | succ fuel ih =>
    intro root d hlo hfuel hlen hinv
    rw [sort.siftDown.loop]
    simp only []
    by_cases hch : 2 * root + 1 ≥ hi
    · rw [if_pos hch]
      refine ⟨Rearranged.refl _ _ _, ?_⟩
      intro r hr hrhi
      have hall : ∀ g, (g = 2 * r + 1 ∨ g = 2 * r + 2) → g < hi →
          d.key (first + r) ≤ d.key (first + g) := by
        intro g hg hghi
        by_cases h1 : r = root
        · omega
        · by_cases h2 : g = root
          · subst h2
            exact hinv.2.2 r hr hg
          · exact hinv.1 r g hr h1 hg hghi h2
      exact ⟨fun h => hall _ (Or.inl rfl) h, fun h => hall _ (Or.inr rfl) h⟩
    · rw [if_neg hch]
      obtain ⟨c, hcdef, hcc, hchi, hcmin⟩ : ∃ c,
          c = (if 2 * root + 1 + 1 < hi ∧
            d.Less (first + (2 * root + 1)) (first + (2 * root + 1) + 1) = true
            then 2 * root + 1 + 1 else 2 * root + 1) ∧
          (c = 2 * root + 1 ∨ c = 2 * root + 2) ∧ c < hi ∧
          ∀ g, (g = 2 * root + 1 ∨ g = 2 * root + 2) → g < hi →
            d.key (first + c) ≤ d.key (first + g) := by
        by_cases h2 : 2 * root + 1 + 1 < hi ∧
            d.Less (first + (2 * root + 1)) (first + (2 * root + 1) + 1) = true
        · refine ⟨2 * root + 1 + 1, by rw [if_pos h2], Or.inr rfl, h2.1, ?_⟩
          have hl := (Less_iff _ _ _).mp h2.2
          intro g hg _
          rcases hg with hg | hg
          · subst hg
            have : first + (2 * root + 1) + 1 = first + (2 * root + 1 + 1) := by omega
            rw [this] at hl
            omega
          · subst hg
            exact Nat.le_refl _
        · refine ⟨2 * root + 1, by rw [if_neg h2], Or.inl rfl, by omega, ?_⟩
          intro g hg hghi
          rcases hg with hg | hg
          · subst hg
            exact Nat.le_refl _
          · subst hg
            have : ¬ d.Less (first + (2 * root + 1)) (first + (2 * root + 1) + 1) = true :=
              fun h => h2 ⟨by omega, h⟩
            rw [Less_iff] at this
            have h3 : first + (2 * root + 1) + 1 = first + (2 * root + 2) := by omega
            rw [h3] at this
            omega
      rw [← hcdef]
      by_cases hless : d.Less (first + root) (first + c) = true
      · have hnot : ¬ ((!d.Less (first + root) (first + c)) = true) := by simp [hless]
        rw [if_neg hnot]
        have hk := (Less_iff _ _ _).mp hless
        have hkey : ∀ k, (d.Swap (first + root) (first + c)).key k =
            if k = first + c then d.key (first + root)
            else if k = first + root then d.key (first + c) else d.key k :=
          fun k => Swap_key d (first + root) (first + c) k (by omega) (by omega)
        have hinv' : SiftInv (d.Swap (first + root) (first + c)) first lo hi c := by
          refine ⟨?_, ?_, ?_⟩
          · intro r g hr hrc hg hghi hgc
            have f1 : r = root → d.key (first + c) ≤ d.key (first + g) :=
              fun h => hcmin g (by omega) hghi
            have f2 : r ≠ root → g = root → d.key (first + r) ≤ d.key (first + c) :=
              fun h1 h2 => hinv.2.1 r c hr (by omega) hcc hchi
            have f3 : r ≠ root → g ≠ root → d.key (first + r) ≤ d.key (first + g) :=
              fun h1 h2 => hinv.1 r g hr h1 hg hghi h2
            rw [hkey, hkey]
            split_ifs <;> omega
          · intro p g hp hpc hg hghi
            have hpr : p = root := by omega
            subst hpr
            have f1 := hinv.1 c g (by omega) (by omega) hg hghi (by omega)
            rw [hkey, hkey]
            split_ifs <;> omega
          · intro p hp hpc
            have hpr : p = root := by omega
            subst hpr
            rw [hkey, hkey]
            split_ifs <;> omega
        obtain ⟨h1, h2⟩ := ih c (d.Swap (first + root) (first + c)) (by omega) (by omega)
          (by rw [Swap_length]; exact hlen) hinv'
        exact ⟨(Rearranged.swap d (first + root) (first + c) (by omega) (by omega)).trans h1, h2⟩
      · have hyes : (!d.Less (first + root) (first + c)) = true := by simp [hless]
        rw [if_pos hyes]
        rw [Less_iff] at hless
        refine ⟨Rearranged.refl _ _ _, ?_⟩
        intro r hr hrhi
        have hall : ∀ g, (g = 2 * r + 1 ∨ g = 2 * r + 2) → g < hi →
            d.key (first + r) ≤ d.key (first + g) := by
          intro g hg hghi
          by_cases h1 : r = root
          · subst h1
            have := hcmin g hg hghi
            omega
          · by_cases h2 : g = root
            · subst h2
              exact hinv.2.2 r hr hg
            · exact hinv.1 r g hr h1 hg hghi h2
        exact ⟨fun h => hall _ (Or.inl rfl) h, fun h => hall _ (Or.inr rfl) h⟩

/-- `siftDown(data, lo, hi, first)`: when every node after `lo` is in heap
order, every node from `lo` on is afterwards. -/
theorem siftDown_spec (d : byModified) (lo hi first : Nat) (hlen : first + hi ≤ d.length)
    (hpre : ∀ r, lo < r → r < hi → HeapAt d first hi r) :
    Rearranged d (sort.siftDown d lo hi first) (first + lo) (first + hi) ∧
    ∀ r, lo ≤ r → r < hi → HeapAt (sort.siftDown d lo hi first) first hi r := by
  unfold sort.siftDown
  apply siftDown_loop_spec first lo hi hi lo d (Nat.le_refl _) (by omega) hlen
  refine ⟨?_, ?_, ?_⟩
  · intro r c hr hrlo hc hchi _
    have h := hpre r (by omega) (by omega)
    rcases hc with hc | hc
    · subst hc; exact h.1 hchi
    · subst hc; exact h.2 hchi
  · intro p g hp hroot
    omega
  · intro p hp hroot
    omega

theorem heapSort_build_spec (hi first : Nat) :
    ∀ (k : Nat) (d : byModified), first + hi ≤ d.length →
      (∀ r, k ≤ r → r < hi → HeapAt d first hi r) →
      Rearranged d (sort.heapSort.build hi first k d) first (first + hi) ∧
      ∀ r, r < hi → HeapAt (sort.heapSort.build hi first k d) first hi r := by
  intro k
  induction k with
  | zero =>
    intro d _ hpre
    exact ⟨Rearranged.refl _ _ _, fun r hr => hpre r (Nat.zero_le _) hr⟩
  | succ i ih =>
    intro d hlen hpre
    rw [sort.heapSort.build]
    obtain ⟨h1, h2⟩ := siftDown_spec d i hi first hlen (fun r hr hrhi => hpre r (by omega) hrhi)
    obtain ⟨h3, h4⟩ := ih (sort.siftDown d i hi first) (by rw [h1.length]; exact hlen) h2
    exact ⟨(h1.mono (by omega) (Nat.le_refl _)).trans h3, h4⟩

/-- In a heap the root holds the entry of least `Mtime`. -/
theorem heap_root_le (d : byModified) (first hi : Nat)
    (h : ∀ r, r < hi → HeapAt d first hi r) :
    ∀ r, r < hi → d.key (first + 0) ≤ d.key (first + r) := by
  intro r
  induction r using Nat.strong_induction_on with
  | _ r ih =>
    intro hr
    by_cases h0 : r = 0
    · subst h0; exact Nat.le_refl _
    · have hp := ih ((r - 1) / 2) (by omega) (by omega)
      have hh := h ((r - 1) / 2) (by omega)
      rcases Nat.even_or_odd r with he | ho
      · obtain ⟨m, hm⟩ := he
        have h2 : 2 * ((r - 1) / 2) + 2 = r := by omega
        have := hh.2 (by omega)
        rw [h2] at this
        omega
      · obtain ⟨m, hm⟩ := ho
        have h2 : 2 * ((r - 1) / 2) + 1 = r := by omega
        have := hh.1 (by omega)
        rw [h2] at this
        omega

theorem heapSort_pop_spec (hi first : Nat) :
    ∀ (k : Nat) (d : byModified), k ≤ hi → first + hi ≤ d.length → PopInv d first hi k →
      Rearranged d (sort.heapSort.pop 0 first k d) first (first + hi) ∧
      SortedOn (sort.heapSort.pop 0 first k d) first (first + hi) := by
  intro k
  induction k with
  | zero =>
    intro d _ _ hinv
    refine ⟨Rearranged.refl _ _ _, ?_⟩
    have := hinv.2.1
    simpa [sort.heapSort.pop] using this
  | succ i ih =>
    intro d hk hlen hinv
    rw [sort.heapSort.pop]
    obtain ⟨hheap, hsorted, hcross⟩ := hinv
    have hmin := heap_root_le d first (i + 1) hheap
    have hkey : ∀ k, (d.Swap first (first + i)).key k =
        if k = first + i then d.key first else if k = first then d.key (first + i) else d.key k :=
      fun k => Swap_key d first (first + i) k (by omega) (by omega)
    have hsw : Rearranged d (d.Swap first (first + i)) first (first + hi) :=
      Rearranged.swap d first (first + i) (by omega) (by omega)
    have hpre : ∀ r, 0 < r → r < i → HeapAt (d.Swap first (first + i)) first i r := by
      intro r hr0 hri
      have hh := hheap r (by omega)
      constructor
      · intro hc
        have := hh.1 (by omega)
        rw [hkey, hkey]
        split_ifs <;> omega
      · intro hc
        have := hh.2 (by omega)
        rw [hkey, hkey]
        split_ifs <;> omega
    obtain ⟨h1, h2⟩ := siftDown_spec (d.Swap first (first + i)) 0 i first
      (by rw [Swap_length]; omega) hpre
    have h1' : Rearranged (d.Swap first (first + i))
        (sort.siftDown (d.Swap first (first + i)) 0 i first) first (first + i) := by
      simpa using h1
    have hlen' : first + i ≤ (d.Swap first (first + i)).length := by rw [Swap_length]; omega
    have hinv' : PopInv (sort.siftDown (d.Swap first (first + i)) 0 i first) first hi i := by
      refine ⟨fun r hr => h2 r (Nat.zero_le _) hr, ?_, ?_⟩
      · intro p q hp hpq hq
        rw [Less_false_iff, h1'.key_outside hlen' p (by omega), h1'.key_outside hlen' q (by omega)]
        have f1 : first + i < p → d.key q ≤ d.key p := by
          intro h
          have := hsorted p q (by omega) hpq hq
          rwa [Less_false_iff] at this
        have f2 : p = first + i → d.key q ≤ d.key first := by
          intro h
          have := hcross 0 (q - first) (by omega) (by omega) (by omega)
          have h3 : first + (q - first) = q := by omega
          rw [h3] at this
          simpa using this
        rw [hkey, hkey]
        split_ifs <;> omega
      · intro r t hr ht hthi
        rw [h1'.key_outside hlen' (first + t) (by omega)]
        have hb : ∀ k, first ≤ k → k < first + i →
            (d.Swap first (first + i)).key (first + t) ≤ (d.Swap first (first + i)).key k := by
          intro k hk1 hk2
          have f1 : t = i → d.key first ≤ d.key k := by
            intro _
            have := hmin (k - first) (by omega)
            have h3 : first + (k - first) = k := by omega
            rw [h3] at this
            simpa using this
          have f2 : t = i → d.key first ≤ d.key (first + i) := by
            intro _
            have := hmin i (by omega)
            simpa using this
          have f3 : t ≠ i → d.key (first + t) ≤ d.key k := by
            intro _
            have := hcross (k - first) t (by omega) (by omega) hthi
            have h3 : first + (k - first) = k := by omega
            rwa [h3] at this
          have f4 : t ≠ i → d.key (first + t) ≤ d.key (first + i) := by
            intro _
            exact hcross i t (by omega) (by omega) hthi
          rw [hkey, hkey]
          split_ifs <;> omega
        exact h1'.forall_key hlen'
          (fun x => (d.Swap first (first + i)).key (first + t) ≤ x) hb (first + r) (by omega)
          (by omega)
    obtain ⟨h3, h4⟩ := ih (sort.siftDown (d.Swap first (first + i)) 0 i first) (by omega)
      (by rw [h1'.length, Swap_length]; exact hlen) hinv'
    exact ⟨(hsw.trans (h1'.mono (Nat.le_refl _) (by omega))).trans h3, h4⟩

/-- `heapSort(data, a, b)` rearranges `data[a:b]` into order. -/
theorem heapSort_spec (d : byModified) (a b : Nat) (hab : a ≤ b) (hb : b ≤ d.length) :
    Rearranged d (sort.heapSort d a b) a b ∧ SortedOn (sort.heapSort d a b) a b := by
  unfold sort.heapSort
  simp only []
  have hlen : a + (b - a) ≤ d.length := by omega
  obtain ⟨h1, h2⟩ := heapSort_build_spec (b - a) a ((b - a - 1) / 2 + 1) d hlen (by
    intro r hr hrhi
    constructor <;> intro hc <;> omega)
  have hinv : PopInv (sort.heapSort.build (b - a) a ((b - a - 1) / 2 + 1) d) a (b - a) (b - a) := by
    refine ⟨h2, ?_, ?_⟩
    · intro p q hp hpq hq
      omega
    · intro r t hr ht hthi
      omega
  obtain ⟨h3, h4⟩ := heapSort_pop_spec (b - a) a (b - a) _ (Nat.le_refl _)
    (by rw [h1.length]; exact hlen) hinv
  have hab' : a + (b - a) = b := by omega
  rw [hab'] at h1 h3 h4
  exact ⟨h1.trans h3, h4⟩

/-! ### `partition` of Go 1.19 -/

theorem go119_partition_up_spec (d : byModified) (a j : Nat) :
    ∀ (fuel i : Nat), j + 1 - i ≤ fuel →
      i ≤ go119.sort.partition.up d a j fuel i ∧
      (i ≤ j + 1 → go119.sort.partition.up d a j fuel i ≤ j + 1) ∧
      (∀ k, i ≤ k → k < go119.sort.partition.up d a j fuel i → d.key a < d.key k) ∧
      (go119.sort.partition.up d a j fuel i ≤ j →
        d.key (go119.sort.partition.up d a j fuel i) ≤ d.key a) := by
  intro fuel
  induction fuel with
  | zero =>
    intro i hf
    rw [go119.sort.partition.up]
    exact ⟨Nat.le_refl _, fun h => h, fun k h1 h2 => by omega, fun h => by omega⟩
  | succ fuel ih =>
    intro i hf
    rw [go119.sort.partition.up]
    by_cases hc : i ≤ j ∧ d.Less i a = true
    · rw [if_pos hc]
      obtain ⟨h1, h2, h3, h4⟩ := ih (i + 1) (by omega)
      have hl := (Less_iff _ _ _).mp hc.2
      refine ⟨by omega, fun _ => h2 (by omega), ?_, h4⟩
      intro k hk1 hk2
      by_cases hki : k = i
      · subst hki; exact hl
      · exact h3 k (by omega) hk2
    · rw [if_neg hc]
      refine ⟨Nat.le_refl _, fun h => h, fun k h1 h2 => by omega, ?_⟩
      intro hij
      have : ¬ d.Less i a = true := fun h => hc ⟨hij, h⟩
      rw [Less_iff] at this
      omega

theorem go119_partition_down_spec (d : byModified) (a i : Nat) (hi : 1 ≤ i) :
    ∀ (fuel j : Nat), j + 1 - i ≤ fuel →
      go119.sort.partition.down d a i fuel j ≤ j ∧
      (i ≤ j + 1 → i ≤ go119.sort.partition.down d a i fuel j + 1) ∧
      (∀ k, go119.sort.partition.down d a i fuel j < k → k ≤ j → d.key k ≤ d.key a) ∧
      (i ≤ go119.sort.partition.down d a i fuel j →
        d.key a < d.key (go119.sort.partition.down d a i fuel j)) := by
  intro fuel
  induction fuel with
  | zero =>
    intro j hf
    rw [go119.sort.partition.down]
    exact ⟨Nat.le_refl _, fun h => h, fun k h1 h2 => by omega, fun h => by omega⟩
  | succ fuel ih =>
    intro j hf
    rw [go119.sort.partition.down]
    by_cases hc : i ≤ j ∧ (!d.Less j a) = true
    · rw [if_pos hc]
      obtain ⟨h1, h2, h3, h4⟩ := ih (j - 1) (by omega)
      have hl : d.key j ≤ d.key a := by
        have := hc.2
        simp only [Bool.not_eq_true'] at this
        exact (Less_false_iff _ _ _).mp this
      refine ⟨by omega, fun _ => h2 (by omega), ?_, h4⟩
      intro k hk1 hk2
      by_cases hkj : k = j
      · subst hkj; exact hl
      · exact h3 k hk1 (by omega)
    · rw [if_neg hc]
      refine ⟨Nat.le_refl _, fun h => h, fun k h1 h2 => by omega, ?_⟩
      intro hij
      have : ¬ (!d.Less j a) = true := fun h => hc ⟨hij, h⟩
      simp only [Bool.not_eq_true', Bool.not_eq_false] at this
      exact (Less_iff _ _ _).mp this

theorem go119_partition_loop_spec (a b : Nat) :
    ∀ (fuel : Nat) (d : byModified) (i j : Nat), j + 1 - i ≤ fuel → b ≤ d.length →
      PartitionInv d a b i j →
      Rearranged d (go119.sort.partition.loop a fuel d i j).1 (a + 1) b ∧
      a ≤ (go119.sort.partition.loop a fuel d i j).2 ∧
      (go119.sort.partition.loop a fuel d i j).2 < b ∧
      (∀ k, a < k → k ≤ (go119.sort.partition.loop a fuel d i j).2 →
        d.key a < (go119.sort.partition.loop a fuel d i j).1.key k) ∧
      (∀ k, (go119.sort.partition.loop a fuel d i j).2 < k → k < b →
        (go119.sort.partition.loop a fuel d i j).1.key k ≤ d.key a) := by
  intro fuel
  induction fuel with
  | zero =>
    intro d i j hf hlen hinv
    obtain ⟨h1, h2, h3, h4, h5⟩ := hinv
    rw [go119.sort.partition.loop]
    refine ⟨Rearranged.refl _ _ _, by omega, h3, ?_, h5⟩
    intro k hk1 hk2
    exact h4 k hk1 (by omega)
  | succ fuel ih =>
    intro d i j hf hlen hinv
    obtain ⟨h1, h2, h3, h4, h5⟩ := hinv
    rw [go119.sort.partition.loop]
    obtain ⟨u1, u2, u3, u4⟩ := go119_partition_up_spec d a j (j + 1 - i) i (Nat.le_refl _)
    generalize go119.sort.partition.up d a j (j + 1 - i) i = i' at u1 u2 u3 u4 ⊢
    have u2' := u2 h2
    obtain ⟨w1, w2, w3, w4⟩ := go119_partition_down_spec d a i' (by omega) (j + 1 - i') j
      (Nat.le_refl _)
    generalize go119.sort.partition.down d a i' (j + 1 - i') j = j' at w1 w2 w3 w4 ⊢
    have w2' := w2 u2'
    have hlow : ∀ k, a < k → k < i' → d.key a < d.key k := by
      intro k hk1 hk2
      by_cases hki : k < i
      · exact h4 k hk1 hki
      · exact u3 k (by omega) hk2
    have hhigh : ∀ k, j' < k → k < b → d.key k ≤ d.key a := by
      intro k hk1 hk2
      by_cases hkj : j < k
      · exact h5 k hkj hk2
      · exact w3 k hk1 (by omega)
    by_cases hgt : i' > j'
    · rw [if_pos hgt]
      refine ⟨Rearranged.refl _ _ _, by omega, by omega, ?_, hhigh⟩
      intro k hk1 hk2
      exact hlow k hk1 (by omega)
    · rw [if_neg hgt]
      have hi'j : i' ≤ j := by omega
      have hki := u4 hi'j
      have hkj := w4 (by omega)
      have hne : i' ≠ j' := by
        intro h
        rw [h] at hki
        omega
      have hkey : ∀ k, (d.Swap i' j').key k =
          if k = j' then d.key i' else if k = i' then d.key j' else d.key k :=
        fun k => Swap_key d i' j' k (by omega) (by omega)
      have hinv' : PartitionInv (d.Swap i' j') a b (i' + 1) (j' - 1) := by
        refine ⟨by omega, by omega, by omega, ?_, ?_⟩
        · intro k hk1 hk2
          have f1 : k < i' → d.key a < d.key k := fun h => hlow k hk1 h
          rw [hkey, hkey]
          split_ifs <;> omega
        · intro k hk1 hk2
          have f1 : j' < k → d.key k ≤ d.key a := fun h => hhigh k h hk2
          rw [hkey, hkey]
          split_ifs <;> omega
      obtain ⟨r1, r2, r3, r4, r5⟩ := ih (d.Swap i' j') (i' + 1) (j' - 1) (by omega)
        (by rw [Swap_length]; exact hlen) hinv'
      have hka : (d.Swap i' j').key a = d.key a := by
        rw [hkey]
        split_ifs <;> omega
      rw [hka] at r4 r5
      exact ⟨(Rearranged.swap d i' j' (by omega) (by omega)).trans r1, r2, r3, r4, r5⟩

theorem go119_partition_eq (d : byModified) (a b pivot : Nat) :
    (go119.sort.partition d a b pivot).1 =
      (go119.sort.partition.loop a (b - a + 1) (d.Swap a pivot) (a + 1) (b - 1)).1.Swap
        (go119.sort.partition.loop a (b - a + 1) (d.Swap a pivot) (a + 1) (b - 1)).2 a ∧
    (go119.sort.partition d a b pivot).2.1 =
      (go119.sort.partition.loop a (b - a + 1) (d.Swap a pivot) (a + 1) (b - 1)).2 := by
  unfold go119.sort.partition
  rw [go119.sort.partition.loop]
  simp only []
  split_ifs <;> exact ⟨rfl, rfl⟩

/-- `partition(data, a, b, pivot)`: the entries of `data[a:b]` are rearranged
around the pivot entry, which ends at `newpivot`; the entries before it are
`Less` than it, the entries after it are not. -/
theorem go119_partition_spec (d : byModified) (a b pivot : Nat) (hap : a ≤ pivot)
    (hpb : pivot < b) (hb : b ≤ d.length) :
    Rearranged d (go119.sort.partition d a b pivot).1 a b ∧
    a ≤ (go119.sort.partition d a b pivot).2.1 ∧
    (go119.sort.partition d a b pivot).2.1 < b ∧
    (∀ k, a ≤ k → k < (go119.sort.partition d a b pivot).2.1 →
      (go119.sort.partition d a b pivot).1.key (go119.sort.partition d a b pivot).2.1 <
        (go119.sort.partition d a b pivot).1.key k) ∧
    (∀ k, (go119.sort.partition d a b pivot).2.1 < k → k < b →
      (go119.sort.partition d a b pivot).1.key k ≤
        (go119.sort.partition d a b pivot).1.key (go119.sort.partition d a b pivot).2.1) := by
  obtain ⟨e1, e2⟩ := go119_partition_eq d a b pivot
  rw [e1, e2]
  have hinv : PartitionInv (d.Swap a pivot) a b (a + 1) (b - 1) :=
    ⟨Nat.le_refl _, by omega, by omega, fun k h1 h2 => by omega, fun k h1 h2 => by omega⟩
  obtain ⟨r1, r2, r3, r4, r5⟩ := go119_partition_loop_spec a b (b - a + 1) (d.Swap a pivot)
    (a + 1) (b - 1) (by omega) (by rw [Swap_length]; exact hb) hinv
  generalize go119.sort.partition.loop a (b - a + 1) (d.Swap a pivot) (a + 1) (b - 1) = res
    at r1 r2 r3 r4 r5 ⊢
  obtain ⟨d2, mid⟩ := res
  simp only [] at r1 r2 r3 r4 r5 ⊢
  have hlen : d2.length = d.length := by rw [r1.length, Swap_length]
  have hka : d2.key a = (d.Swap a pivot).key a :=
    r1.key_outside (by rw [Swap_length]; exact hb) a (by omega)
  have hkey : ∀ k, (d2.Swap mid a).key k =
      if k = a then d2.key mid else if k = mid then d2.key a else d2.key k :=
    fun k => Swap_key d2 mid a k (by omega) (by omega)
  refine ⟨?_, r2, r3, ?_, ?_⟩
  · exact ((Rearranged.swap d a pivot (by omega) (by omega)).trans
      (r1.mono (by omega) (Nat.le_refl _))).trans
      (Rearranged.swap d2 mid a (by omega) (by omega))
  · intro k hk1 hk2
    have f1 : a < k → (d.Swap a pivot).key a < d2.key k := fun h => r4 k h (by omega)
    have f2 : a < mid → (d.Swap a pivot).key a < d2.key mid :=
      fun h => r4 mid h (Nat.le_refl _)
    rw [hkey, hkey]
    split_ifs <;> omega
  · intro k hk1 hk2
    have f1 := r5 k hk1 hk2
    by_cases hmid : mid = a
    · subst hmid
      rw [hkey, hkey]
      split_ifs <;> omega
    · rw [hkey, hkey]
      split_ifs <;> omega

/-! ### `partitionEqual` of Go 1.19 -/

theorem go119_partitionEqual_up_spec (d : byModified) (a j : Nat) :
    ∀ (fuel i : Nat), j + 1 - i ≤ fuel →
      i ≤ go119.sort.partitionEqual.up d a j fuel i ∧
      (i ≤ j + 1 → go119.sort.partitionEqual.up d a j fuel i ≤ j + 1) ∧
      (∀ k, i ≤ k → k < go119.sort.partitionEqual.up d a j fuel i → d.key a ≤ d.key k) ∧
      (go119.sort.partitionEqual.up d a j fuel i ≤ j →
        d.key (go119.sort.partitionEqual.up d a j fuel i) < d.key a) := by
  intro fuel
  induction fuel with
  | zero =>
    intro i hf
    rw [go119.sort.partitionEqual.up]
    exact ⟨Nat.le_refl _, fun h => h, fun k h1 h2 => by omega, fun h => by omega⟩
  | succ fuel ih =>
    intro i hf
    rw [go119.sort.partitionEqual.up]
    by_cases hc : i ≤ j ∧ (!d.Less a i) = true
    · rw [if_pos hc]
      obtain ⟨h1, h2, h3, h4⟩ := ih (i + 1) (by omega)
      have hl : d.key a ≤ d.key i := by
        have := hc.2
        simp only [Bool.not_eq_true'] at this
        exact (Less_false_iff _ _ _).mp this
      refine ⟨by omega, fun _ => h2 (by omega), ?_, h4⟩
      intro k hk1 hk2
      by_cases hki : k = i
      · subst hki; exact hl
      · exact h3 k (by omega) hk2
    · rw [if_neg hc]
      refine ⟨Nat.le_refl _, fun h => h, fun k h1 h2 => by omega, ?_⟩
      intro hij
      have : ¬ (!d.Less a i) = true := fun h => hc ⟨hij, h⟩
      simp only [Bool.not_eq_true', Bool.not_eq_false] at this
      exact (Less_iff _ _ _).mp this

theorem go119_partitionEqual_down_spec (d : byModified) (a i : Nat) (hi : 1 ≤ i) :
    ∀ (fuel j : Nat), j + 1 - i ≤ fuel →
      go119.sort.partitionEqual.down d a i fuel j ≤ j ∧
      (i ≤ j + 1 → i ≤ go119.sort.partitionEqual.down d a i fuel j + 1) ∧
      (∀ k, go119.sort.partitionEqual.down d a i fuel j < k → k ≤ j → d.key k < d.key a) ∧
      (i ≤ go119.sort.partitionEqual.down d a i fuel j →
        d.key a ≤ d.key (go119.sort.partitionEqual.down d a i fuel j)) := by
  intro fuel
  induction fuel with
  | zero =>
    intro j hf
    rw [go119.sort.partitionEqual.down]
    exact ⟨Nat.le_refl _, fun h => h, fun k h1 h2 => by omega, fun h => by omega⟩
  | succ fuel ih =>
    intro j hf
    rw [go119.sort.partitionEqual.down]
    by_cases hc : i ≤ j ∧ d.Less a j = true
    · rw [if_pos hc]
      obtain ⟨h1, h2, h3, h4⟩ := ih (j - 1) (by omega)
      have hl := (Less_iff _ _ _).mp hc.2
      refine ⟨by omega, fun _ => h2 (by omega), ?_, h4⟩
      intro k hk1 hk2
      by_cases hkj : k = j
      · subst hkj; exact hl
      · exact h3 k hk1 (by omega)
    · rw [if_neg hc]
      refine ⟨Nat.le_refl _, fun h => h, fun k h1 h2 => by omega, ?_⟩
      intro hij
      have : ¬ d.Less a j = true := fun h => hc ⟨hij, h⟩
      rw [Less_iff] at this
      omega

theorem go119_partitionEqual_loop_spec (a b : Nat) :
    ∀ (fuel : Nat) (d : byModified) (i j : Nat), j + 1 - i ≤ fuel → b ≤ d.length →
      PartitionEqualInv d a b i j →
      Rearranged d (go119.sort.partitionEqual.loop a fuel d i j).1 (a + 1) b ∧
      a < (go119.sort.partitionEqual.loop a fuel d i j).2 ∧
      (go119.sort.partitionEqual.loop a fuel d i j).2 ≤ b ∧
      (∀ k, a < k → k < (go119.sort.partitionEqual.loop a fuel d i j).2 →
        d.key a ≤ (go119.sort.partitionEqual.loop a fuel d i j).1.key k) ∧
      (∀ k, (go119.sort.partitionEqual.loop a fuel d i j).2 ≤ k → k < b →
        (go119.sort.partitionEqual.loop a fuel d i j).1.key k < d.key a) := by
  intro fuel
  induction fuel with
  | zero =>
    intro d i j hf hlen hinv
    obtain ⟨h1, h2, h3, h4, h5⟩ := hinv
    rw [go119.sort.partitionEqual.loop]
    refine ⟨Rearranged.refl _ _ _, by omega, by omega, h4, ?_⟩
    intro k hk1 hk2
    exact h5 k (by omega) hk2
  | succ fuel ih =>
    intro d i j hf hlen hinv
    obtain ⟨h1, h2, h3, h4, h5⟩ := hinv
    rw [go119.sort.partitionEqual.loop]
    obtain ⟨u1, u2, u3, u4⟩ := go119_partitionEqual_up_spec d a j (j + 1 - i) i (Nat.le_refl _)
    generalize go119.sort.partitionEqual.up d a j (j + 1 - i) i = i' at u1 u2 u3 u4 ⊢
    have u2' := u2 h2
    obtain ⟨w1, w2, w3, w4⟩ := go119_partitionEqual_down_spec d a i' (by omega) (j + 1 - i') j
      (Nat.le_refl _)
    generalize go119.sort.partitionEqual.down d a i' (j + 1 - i') j = j' at w1 w2 w3 w4 ⊢
    have w2' := w2 u2'
    have hlow : ∀ k, a < k → k < i' → d.key a ≤ d.key k := by
      intro k hk1 hk2
      by_cases hki : k < i
      · exact h4 k hk1 hki
      · exact u3 k (by omega) hk2
    have hhigh : ∀ k, j' < k → k < b → d.key k < d.key a := by
      intro k hk1 hk2
      by_cases hkj : j < k
      · exact h5 k hkj hk2
      · exact w3 k hk1 (by omega)
    by_cases hgt : i' > j'
    · rw [if_pos hgt]
      refine ⟨Rearranged.refl _ _ _, by omega, by omega, hlow, ?_⟩
      intro k hk1 hk2
      exact hhigh k (by omega) hk2
    · rw [if_neg hgt]
      have hi'j : i' ≤ j := by omega
      have hki := u4 hi'j
      have hkj := w4 (by omega)
      have hne : i' ≠ j' := by
        intro h
        rw [h] at hki
        omega
      have hkey : ∀ k, (d.Swap i' j').key k =
          if k = j' then d.key i' else if k = i' then d.key j' else d.key k :=
        fun k => Swap_key d i' j' k (by omega) (by omega)
      have hinv' : PartitionEqualInv (d.Swap i' j') a b (i' + 1) (j' - 1) := by
        refine ⟨by omega, by omega, by omega, ?_, ?_⟩
        · intro k hk1 hk2
          have f1 : k < i' → d.key a ≤ d.key k := fun h => hlow k hk1 h
          rw [hkey, hkey]
          split_ifs <;> omega
        · intro k hk1 hk2
          have f1 : j' < k → d.key k < d.key a := fun h => hhigh k h hk2
          rw [hkey, hkey]
          split_ifs <;> omega
      obtain ⟨r1, r2, r3, r4, r5⟩ := ih (d.Swap i' j') (i' + 1) (j' - 1) (by omega)
        (by rw [Swap_length]; exact hlen) hinv'
      have hka : (d.Swap i' j').key a = d.key a := by
        rw [hkey]
        split_ifs <;> omega
      rw [hka] at r4 r5
      exact ⟨(Rearranged.swap d i' j' (by omega) (by omega)).trans r1, r2, r3, r4, r5⟩

/-- `partitionEqual(data, a, b, pivot)`, when no entry of `data[a:b]` is `Less`
than the pivot entry: the entries are rearranged so that those before
`newpivot` have the `Mtime` of the pivot entry and those from `newpivot` on have
a smaller one. -/
theorem go119_partitionEqual_spec (d : byModified) (a b pivot : Nat) (hap : a ≤ pivot)
    (hpb : pivot < b) (hb : b ≤ d.length)
    (hpre : ∀ k, a ≤ k → k < b → d.key k ≤ d.key pivot) :
    Rearranged d (go119.sort.partitionEqual d a b pivot).1 a b ∧
    a < (go119.sort.partitionEqual d a b pivot).2 ∧
    (go119.sort.partitionEqual d a b pivot).2 ≤ b ∧
    (∀ k, a ≤ k → k < (go119.sort.partitionEqual d a b pivot).2 →
      (go119.sort.partitionEqual d a b pivot).1.key k = d.key pivot) ∧
    (∀ k, (go119.sort.partitionEqual d a b pivot).2 ≤ k → k < b →
      (go119.sort.partitionEqual d a b pivot).1.key k < d.key pivot) := by
  unfold go119.sort.partitionEqual
  simp only []
  have hkey : ∀ k, (d.Swap a pivot).key k =
      if k = pivot then d.key a else if k = a then d.key pivot else d.key k :=
    fun k => Swap_key d a pivot k (by omega) (by omega)
  have hka : (d.Swap a pivot).key a = d.key pivot := by
    rw [hkey]
    by_cases h : a = pivot
    · subst h; simp
    · simp [h]
  have hsw : Rearranged d (d.Swap a pivot) a b :=
    Rearranged.swap d a pivot (by omega) (by omega)
  have hpre' : ∀ k, a ≤ k → k < b → (d.Swap a pivot).key k ≤ d.key pivot :=
    hsw.forall_key hb (fun x => x ≤ d.key pivot) hpre
  have hinv : PartitionEqualInv (d.Swap a pivot) a b (a + 1) (b - 1) :=
    ⟨Nat.le_refl _, by omega, by omega, fun k h1 h2 => by omega, fun k h1 h2 => by omega⟩
  obtain ⟨r1, r2, r3, r4, r5⟩ := go119_partitionEqual_loop_spec a b (b - a) (d.Swap a pivot)
    (a + 1) (b - 1) (by omega) (by rw [Swap_length]; exact hb) hinv
  generalize go119.sort.partitionEqual.loop a (b - a) (d.Swap a pivot) (a + 1) (b - 1) = res
    at r1 r2 r3 r4 r5 ⊢
  obtain ⟨d2, mid⟩ := res
  simp only [] at r1 r2 r3 r4 r5 ⊢
  have hlen' : b ≤ (d.Swap a pivot).length := by rw [Swap_length]; exact hb
  have hka2 : d2.key a = d.key pivot := by
    rw [r1.key_outside hlen' a (by omega), hka]
  have hup : ∀ k, a ≤ k → k < b → d2.key k ≤ d.key pivot :=
    (r1.mono (Nat.le_succ a) (Nat.le_refl _)).forall_key hlen' (fun x => x ≤ d.key pivot) hpre'
  rw [hka] at r4 r5
  refine ⟨hsw.trans (r1.mono (by omega) (Nat.le_refl _)), r2, r3, ?_, r5⟩
  intro k hk1 hk2
  by_cases hk : k = a
  · subst hk; exact hka2
  · have := r4 k (by omega) hk2
    have := hup k hk1 (by omega)
    omega

/-! ### The other parts of `pdqsort` -/

theorem LowerBound.rearranged {d d' : byModified} {a b : Nat} (h : LowerBound d a b)
    (hr : Rearranged d d' a b) (hb : b ≤ d.length) : LowerBound d' a b := by
  intro ha
  rw [hr.key_outside hb (a - 1) (by omega)]
  exact hr.forall_key hb (fun x => x ≤ d.key (a - 1)) (h ha)

theorem LowerBound.sub {d : byModified} {a b b' : Nat} (h : LowerBound d a b) (hb : b' ≤ b) :
    LowerBound d a b' :=
  fun ha k hk1 hk2 => h ha k hk1 (by omega)

/-- Order inside a range is kept when only positions outside it change. -/
theorem SortedOn.rearranged_outside {d d' : byModified} {a b a' b' : Nat}
    (h : SortedOn d a b) (hr : Rearranged d d' a' b') (hb : b' ≤ d.length)
    (hout : b ≤ a' ∨ b' ≤ a) : SortedOn d' a b := by
  intro i j hi hij hj
  rw [Less_false_iff, hr.key_outside hb i (by omega), hr.key_outside hb j (by omega)]
  exact (Less_false_iff _ _ _).mp (h i j hi hij hj)

theorem go119_reverseRange_loop_spec (a b : Nat) :
    ∀ (fuel : Nat) (d : byModified) (i j : Nat), a ≤ i → j < b →
      Rearranged d (go119.sort.reverseRange.loop fuel d i j) a b := by
  intro fuel
  induction fuel with
  | zero => intro d i j _ _; exact Rearranged.refl _ _ _
  | succ fuel ih =>
    intro d i j hi hj
    rw [go119.sort.reverseRange.loop]
    by_cases h : i < j
    · rw [if_pos h]
      exact (Rearranged.swap d i j (by omega) (by omega)).trans
        (ih _ (i + 1) (j - 1) (by omega) (by omega))
    · rw [if_neg h]
      exact Rearranged.refl _ _ _

theorem go119_reverseRange_spec (d : byModified) (a b : Nat) (hab : a < b) :
    Rearranged d (go119.sort.reverseRange d a b) a b :=
  go119_reverseRange_loop_spec a b (b - a) d a (b - 1) (Nat.le_refl _) (by omega)

theorem go119_order2_spec (d : byModified) (x y s : Nat) :
    ((go119.sort.order2 d x y s).1 = x ∧ (go119.sort.order2 d x y s).2.1 = y) ∨
    ((go119.sort.order2 d x y s).1 = y ∧ (go119.sort.order2 d x y s).2.1 = x) := by
  unfold go119.sort.order2
  split_ifs
  · right; exact ⟨rfl, rfl⟩
  · left; exact ⟨rfl, rfl⟩

theorem go119_median_spec (d : byModified) (x y z s : Nat) :
    (go119.sort.median d x y z s).1 = x ∨ (go119.sort.median d x y z s).1 = y ∨
      (go119.sort.median d x y z s).1 = z := by
  unfold go119.sort.median
  simp only []
  rcases go119_order2_spec d x y s with ⟨h1, h2⟩ | ⟨h1, h2⟩ <;>
    generalize go119.sort.order2 d x y s = r1 at h1 h2 ⊢ <;>
    obtain ⟨x1, y1, s1⟩ := r1 <;> simp only [] at h1 h2 ⊢ <;> subst h1 <;> subst h2 <;>
    (rcases go119_order2_spec d y1 z s1 with ⟨h3, h4⟩ | ⟨h3, h4⟩ <;>
      generalize go119.sort.order2 d y1 z s1 = r2 at h3 h4 ⊢ <;>
      obtain ⟨y2, z2, s2⟩ := r2 <;> simp only [] at h3 h4 ⊢ <;> subst h3 <;> subst h4 <;>
      (rcases go119_order2_spec d x1 y2 s2 with ⟨h5, h6⟩ | ⟨h5, h6⟩ <;>
        generalize go119.sort.order2 d x1 y2 s2 = r3 at h5 h6 ⊢ <;>
        obtain ⟨x3, y3, s3⟩ := r3 <;> simp only [] at h5 h6 ⊢ <;> subst h5 <;> subst h6 <;>
        simp))

/-- `median` of three positions of `data[a:b]` is a position of `data[a:b]`. -/
theorem go119_median_range (d : byModified) (a b x y z s : Nat)
    (hx : a ≤ x ∧ x < b) (hy : a ≤ y ∧ y < b) (hz : a ≤ z ∧ z < b) :
    a ≤ (go119.sort.median d x y z s).1 ∧ (go119.sort.median d x y z s).1 < b := by
  rcases go119_median_spec d x y z s with h | h | h <;> rw [h] <;> assumption

/-- `medianAdjacent` at an inner position of `data[a:b]` is a position of
`data[a:b]`. -/
theorem go119_medianAdjacent_range (d : byModified) (a b x s : Nat)
    (hx : a < x) (hxb : x + 1 < b) :
    a ≤ (go119.sort.medianAdjacent d x s).1 ∧ (go119.sort.medianAdjacent d x s).1 < b := by
  unfold go119.sort.medianAdjacent
  apply go119_median_range <;> omega

/-- `choosePivot(data, a, b)` on at least eight entries returns a position of
`data[a:b]`. -/
theorem go119_choosePivot_spec (d : byModified) (a b : Nat) (h8 : 8 ≤ b - a) :
    a ≤ (go119.sort.choosePivot d a b).1 ∧ (go119.sort.choosePivot d a b).1 < b := by
  have hj : ∀ r : Nat × Nat, (a ≤ r.1 ∧ r.1 < b) →
      a ≤ (if r.2 = 0 then (r.1, go119.sort.sortedHint.increasingHint)
        else if r.2 = 4 * 3 then (r.1, go119.sort.sortedHint.decreasingHint)
        else (r.1, go119.sort.sortedHint.unknownHint)).1 ∧
      (if r.2 = 0 then (r.1, go119.sort.sortedHint.increasingHint)
        else if r.2 = 4 * 3 then (r.1, go119.sort.sortedHint.decreasingHint)
        else (r.1, go119.sort.sortedHint.unknownHint)).1 < b := by
    intro r hr; split_ifs <;> exact hr
  have hq : 2 ≤ (b - a) / 4 := by omega
  unfold go119.sort.choosePivot
  simp only []
  rw [if_pos h8]
  by_cases h50 : b - a ≥ 50
  · rw [if_pos h50]
    have hq2 : 12 ≤ (b - a) / 4 := by omega
    apply hj
    apply go119_median_range
    · apply go119_medianAdjacent_range <;> omega
    · apply go119_medianAdjacent_range <;> omega
    · apply go119_medianAdjacent_range <;> omega
  · rw [if_neg h50]
    apply hj
    apply go119_median_range <;> simp only [] <;> omega

/-! ### `breakPatterns` -/

theorem maxDepth_loop_pow :
    ∀ (fuel i depth : Nat), 0 < i → i ≤ fuel →
      2 ^ go118.sort.maxDepth.loop fuel i depth ≤ 2 ^ depth * (2 * i) := by
  intro fuel
  induction fuel with
  | zero => intro i depth h0 h; omega
  | succ fuel ih =>
    intro i depth h0 h
    rw [go118.sort.maxDepth.loop, if_pos h0]
    by_cases h1 : 0 < i / 2
    · have := ih (i / 2) (depth + 1) h1 (by omega)
      have h2 : 2 ^ (depth + 1) * (2 * (i / 2)) ≤ 2 ^ depth * (2 * i) := by
        rw [pow_succ, Nat.mul_assoc]
        apply Nat.mul_le_mul_left
        omega
      omega
    · have hi : i / 2 = 0 := by omega
      rw [hi]
      cases fuel with
      | zero =>
        rw [go118.sort.maxDepth.loop, pow_succ]
        apply Nat.mul_le_mul_left
        omega
      | succ fuel =>
        rw [go118.sort.maxDepth.loop, if_neg (by omega), pow_succ]
        apply Nat.mul_le_mul_left
        omega

theorem go119_nextPowerOfTwo_le (n : Nat) (h : 0 < n) : go119.sort.nextPowerOfTwo n ≤ 2 * n := by
  unfold go119.sort.nextPowerOfTwo
  rw [Nat.one_shiftLeft]
  have := maxDepth_loop_pow n n 0 h (Nat.le_refl _)
  simpa using this

theorem go119_breakPatterns_loop_spec (a b modulus idx : Nat) (hm : modulus ≤ 2 * (b - a))
    (hab : a < b) :
    ∀ (fuel i random : Nat) (d : byModified), a ≤ idx - 1 + i → idx - 1 + i + fuel ≤ b →
      Rearranged d (go119.sort.breakPatterns.loop a (b - a) modulus idx fuel i random d) a b := by
  intro fuel
  induction fuel with
  | zero => intro i random d _ _; exact Rearranged.refl _ _ _
  | succ fuel ih =>
    intro i random d h1 h2
    rw [go119.sort.breakPatterns.loop]
    have hand : go119.sort.xorshift.Next random &&& (modulus - 1) ≤ modulus - 1 :=
      Nat.and_le_right
    refine (Rearranged.swap d _ _ ⟨h1, by omega⟩ ⟨by omega, ?_⟩).trans
      (ih (i + 1) _ _ (by omega) (by omega))
    split_ifs <;> omega

/-- `breakPatterns(data, a, b)` only swaps entries of `data[a:b]`. -/
theorem go119_breakPatterns_spec (d : byModified) (a b : Nat) :
    Rearranged d (go119.sort.breakPatterns d a b) a b := by
  unfold go119.sort.breakPatterns
  simp only []
  by_cases h8 : b - a ≥ 8
  · rw [if_pos h8]
    apply go119_breakPatterns_loop_spec a b _ _ (go119_nextPowerOfTwo_le _ (by omega)) (by omega)
    · omega
    · omega
  · rw [if_neg h8]
    exact Rearranged.refl _ _ _

/-! ### `partialInsertionSort` -/

theorem go119_scan_spec (d : byModified) (a b : Nat) :
    ∀ (fuel i : Nat), a < i → i ≤ b → SortedOn d a i →
      i ≤ go119.sort.partialInsertionSort.scan d b fuel i ∧
      go119.sort.partialInsertionSort.scan d b fuel i ≤ b ∧
      SortedOn d a (go119.sort.partialInsertionSort.scan d b fuel i) := by
  intro fuel
  induction fuel with
  | zero => intro i _ hib hs; exact ⟨Nat.le_refl _, hib, hs⟩
  | succ fuel ih =>
    intro i hai hib hs
    rw [go119.sort.partialInsertionSort.scan]
    by_cases hc : i < b ∧ (!d.Less i (i - 1)) = true
    · rw [if_pos hc]
      have hl : d.key i ≤ d.key (i - 1) := by
        have := hc.2
        simp only [Bool.not_eq_true'] at this
        exact (Less_false_iff _ _ _).mp this
      have hs' : SortedOn d a (i + 1) := by
        intro p q hp hpq hq
        rw [Less_false_iff]
        by_cases hqi : q = i
        · subst hqi
          by_cases hpi : p = q - 1
          · subst hpi; exact hl
          · have := (Less_false_iff _ _ _).mp (hs p (q - 1) hp (by omega) (by omega))
            omega
        · exact (Less_false_iff _ _ _).mp (hs p q hp hpq (by omega))
      obtain ⟨h1, h2, h3⟩ := ih (i + 1) (by omega) (by omega) hs'
      exact ⟨by omega, h2, h3⟩
    · rw [if_neg hc]
      exact ⟨Nat.le_refl _, hib, hs⟩

/-- In a range whose predecessor is not `Less` than its entries, the loop that
moves an entry down stops at the start of the range, as the inner loop of
`insertionSort` does. -/
theorem go119_shiftLeft_eq (a b : Nat) :
    ∀ (j : Nat) (d : byModified), a ≤ j → j < b → b ≤ d.length → LowerBound d a b →
      go119.sort.partialInsertionSort.shiftLeft j d = sort.insertionSort.inner a j d := by
  intro j
  induction j with
  | zero => intro d _ _ _ _; rfl
  | succ j ih =>
    intro d haj hjb hb hlow
    rw [go119.sort.partialInsertionSort.shiftLeft, sort.insertionSort.inner]
    by_cases hl : d.Less (j + 1) j = true
    · by_cases hja : j + 1 > a
      · rw [if_neg (by simp [hl]), if_pos ⟨hja, hl⟩]
        exact ih _ (by omega) (by omega) (by rw [Swap_length]; exact hb)
          (hlow.rearranged (Rearranged.swap d _ _ ⟨by omega, hjb⟩ ⟨by omega, by omega⟩) hb)
      · have hja' : j + 1 = a := by omega
        have := hlow (by omega) (j + 1) (by omega) hjb
        rw [Less_iff] at hl
        rw [← hja'] at this
        simp only [Nat.add_sub_cancel] at this
        omega
    · rw [if_pos (by simp [hl]), if_neg (by simp [hl])]

theorem go119_shiftRight_spec (a b : Nat) :
    ∀ (fuel j : Nat) (d : byModified), a < j →
      Rearranged d (go119.sort.partialInsertionSort.shiftRight b fuel j d) (j - 1) b := by
  intro fuel
  induction fuel with
  | zero => intro j d _; exact Rearranged.refl _ _ _
  | succ fuel ih =>
    intro j d haj
    rw [go119.sort.partialInsertionSort.shiftRight]
    by_cases hjb : j < b
    · rw [if_pos hjb]
      by_cases hl : (!d.Less j (j - 1)) = true
      · rw [if_pos hl]
        exact Rearranged.refl _ _ _
      · rw [if_neg hl]
        exact (Rearranged.swap d j (j - 1) ⟨by omega, hjb⟩ ⟨by omega, by omega⟩).trans
          ((ih (j + 1) _ (by omega)).mono (by omega) (Nat.le_refl _))
    · rw [if_neg hjb]
      exact Rearranged.refl _ _ _

theorem go119_partialInsertionSort_loop_spec (a b : Nat) :
    ∀ (steps i : Nat) (d : byModified), a < i → i ≤ b → b ≤ d.length → LowerBound d a b →
      SortedOn d a i →
      Rearranged d (go119.sort.partialInsertionSort.loop a b steps i d).1 a b ∧
      ((go119.sort.partialInsertionSort.loop a b steps i d).2 = true →
        SortedOn (go119.sort.partialInsertionSort.loop a b steps i d).1 a b) := by
  intro steps
  induction steps with
  | zero =>
    intro i d _ _ _ _ _
    rw [go119.sort.partialInsertionSort.loop]
    exact ⟨Rearranged.refl _ _ _, fun h => by simp at h⟩
  | succ steps ih =>
    intro i d hai hib hb hlow hs
    rw [go119.sort.partialInsertionSort.loop]
    simp only []
    obtain ⟨h1, h2, h3⟩ := go119_scan_spec d a b (b - i) i hai hib hs
    generalize go119.sort.partialInsertionSort.scan d b (b - i) i = i' at h1 h2 h3 ⊢
    by_cases hi'b : i' = b
    · rw [if_pos hi'b]
      subst hi'b
      exact ⟨Rearranged.refl _ _ _, fun _ => h3⟩
    · rw [if_neg hi'b]
      by_cases h50 : b - a < 50
      · rw [if_pos h50]
        exact ⟨Rearranged.refl _ _ _, fun h => by simp at h⟩
      · rw [if_neg h50]
        -- the swap
        have r1 : Rearranged d (d.Swap i' (i' - 1)) a b :=
          Rearranged.swap d _ _ ⟨by omega, by omega⟩ ⟨by omega, by omega⟩
        have hkey : ∀ k, (d.Swap i' (i' - 1)).key k =
            if k = i' - 1 then d.key i' else if k = i' then d.key (i' - 1) else d.key k :=
          fun k => Swap_key d i' (i' - 1) k (by omega) (by omega)
        have hlen1 : b ≤ (d.Swap i' (i' - 1)).length := by rw [Swap_length]; exact hb
        have hlow1 := hlow.rearranged r1 hb
        generalize d.Swap i' (i' - 1) = d1 at r1 hkey hlen1 hlow1 ⊢
        -- the move down
        have r2 : Rearranged d1
            (if i' - a ≥ 2 then go119.sort.partialInsertionSort.shiftLeft (i' - 1) d1 else d1)
              a i' ∧
            SortedOn
              (if i' - a ≥ 2 then go119.sort.partialInsertionSort.shiftLeft (i' - 1) d1 else d1)
              a i' := by
          by_cases h2' : i' - a ≥ 2
          · rw [if_pos h2', go119_shiftLeft_eq a b (i' - 1) d1 (by omega) (by omega) hlen1 hlow1]
            have hinv : InsertionInv d1 a (i' - 1) (i' - 1) := by
              constructor
              · intro p q hp hpq hq hp1 hq1
                have := (Less_false_iff _ _ _).mp (h3 p q hp hpq (by omega))
                rw [hkey, hkey]
                split_ifs <;> omega
              · intro q hq1 hq2
                omega
            have := insertionSort_inner_spec a (i' - 1) (i' - 1) d1 (by omega) (Nat.le_refl _)
              (by omega) hinv
            have e : i' - 1 + 1 = i' := by omega
            rw [e] at this
            exact this
          · rw [if_neg h2']
            refine ⟨Rearranged.refl _ _ _, ?_⟩
            intro p q hp hpq hq
            omega
        obtain ⟨r2, s2⟩ := r2
        have hlen2 := r2.length
        have hlow2 := hlow1.rearranged (r2.mono (Nat.le_refl _) (by omega)) hlen1
        generalize (if i' - a ≥ 2 then go119.sort.partialInsertionSort.shiftLeft (i' - 1) d1
          else d1) = d2 at r2 s2 hlen2 hlow2 ⊢
        -- the move up
        have r3 : Rearranged d2
            (if b - i' ≥ 2 then go119.sort.partialInsertionSort.shiftRight b (b - i') (i' + 1) d2
              else d2) i' b := by
          by_cases h2' : b - i' ≥ 2
          · rw [if_pos h2']
            exact go119_shiftRight_spec a b (b - i') (i' + 1) d2 (by omega)
          · rw [if_neg h2']
            exact Rearranged.refl _ _ _
        have hlen3 := r3.length
        have s3 := s2.rearranged_outside r3 (by omega) (Or.inl (Nat.le_refl _))
        have hlow3 := hlow2.rearranged (r3.mono (by omega) (Nat.le_refl _)) (by omega)
        generalize (if b - i' ≥ 2 then
          go119.sort.partialInsertionSort.shiftRight b (b - i') (i' + 1) d2 else d2) = d3
          at r3 s3 hlen3 hlow3 ⊢
        obtain ⟨r4, s4⟩ := ih i' d3 (by omega) h2 (by omega) hlow3 s3
        exact ⟨(r1.trans ((r2.mono (Nat.le_refl _) (by omega)).trans
          (r3.mono (by omega) (Nat.le_refl _)))).trans r4, s4⟩

/-- `partialInsertionSort(data, a, b)` only swaps entries of `data[a:b]`, and
when it reports `true` the range is in order. -/
theorem go119_partialInsertionSort_spec (d : byModified) (a b : Nat) (hab : a < b)
    (hb : b ≤ d.length) (hlow : LowerBound d a b) :
    Rearranged d (go119.sort.partialInsertionSort d a b).1 a b ∧
    ((go119.sort.partialInsertionSort d a b).2 = true →
      SortedOn (go119.sort.partialInsertionSort d a b).1 a b) := by
  unfold go119.sort.partialInsertionSort
  apply go119_partialInsertionSort_loop_spec a b 5 (a + 1) d (by omega) (by omega) hb hlow
  intro p q hp hpq hq
  omega

/-! ### `pdqsort` -/

/-- Two ranges in order on either side of a position that separates them make
one range in order. -/
theorem SortedOn.around {d : byModified} {a mid b : Nat} (h1 : SortedOn d a mid)
    (h2 : SortedOn d (mid + 1) b) (h3 : ∀ k, a ≤ k → k < mid → d.key mid < d.key k)
    (h4 : ∀ k, mid < k → k < b → d.key k ≤ d.key mid) : SortedOn d a b := by
  intro i j hi hij hj
  rw [Less_false_iff]
  by_cases hjm : j < mid
  · exact (Less_false_iff _ _ _).mp (h1 i j hi hij hjm)
  · by_cases him : mid < i
    · exact (Less_false_iff _ _ _).mp (h2 i j (by omega) hij hj)
    · by_cases hjm' : j = mid
      · subst hjm'
        have := h3 i hi (by omega)
        omega
      · have hj4 := h4 j (by omega) hj
        by_cases him' : i = mid
        · subst him'
          exact hj4
        · have := h3 i hi (by omega)
          omega

/-- The two halves of a partitioned range sorted one after the other, the one
before the pivot first. -/
theorem partition_join_left {d dl res : byModified} {a mid b : Nat} (ham : a ≤ mid)
    (hmb : mid < b) (hb : b ≤ d.length)
    (h3 : ∀ k, a ≤ k → k < mid → d.key mid < d.key k)
    (h4 : ∀ k, mid < k → k < b → d.key k ≤ d.key mid)
    (r1 : Rearranged d dl a mid) (s1 : SortedOn dl a mid)
    (r2 : Rearranged dl res (mid + 1) b) (s2 : SortedOn res (mid + 1) b) :
    Rearranged d res a b ∧ SortedOn res a b := by
  have hl1 := r1.length
  refine ⟨(r1.mono (Nat.le_refl _) (by omega)).trans (r2.mono (by omega) (Nat.le_refl _)), ?_⟩
  have hm : res.key mid = d.key mid := by
    rw [r2.key_outside (by omega) mid (by omega), r1.key_outside (by omega) mid (by omega)]
  apply SortedOn.around (s1.rearranged_outside r2 (by omega) (Or.inl (by omega))) s2
  · intro k hk1 hk2
    rw [hm, r2.key_outside (by omega) k (by omega)]
    exact r1.forall_key (by omega) (fun x => d.key mid < x) h3 k hk1 hk2
  · intro k hk1 hk2
    rw [hm]
    refine r2.forall_key (by omega) (fun x => x ≤ d.key mid) ?_ k (by omega) hk2
    intro k hk1 hk2
    rw [r1.key_outside (by omega) k (by omega)]
    exact h4 k (by omega) hk2

/-- The two halves of a partitioned range sorted one after the other, the one
after the pivot first. -/
theorem partition_join_right {d dr res : byModified} {a mid b : Nat} (ham : a ≤ mid)
    (hmb : mid < b) (hb : b ≤ d.length)
    (h3 : ∀ k, a ≤ k → k < mid → d.key mid < d.key k)
    (h4 : ∀ k, mid < k → k < b → d.key k ≤ d.key mid)
    (r1 : Rearranged d dr (mid + 1) b) (s1 : SortedOn dr (mid + 1) b)
    (r2 : Rearranged dr res a mid) (s2 : SortedOn res a mid) :
    Rearranged d res a b ∧ SortedOn res a b := by
  have hl1 := r1.length
  refine ⟨(r1.mono (by omega) (Nat.le_refl _)).trans (r2.mono (Nat.le_refl _) (by omega)), ?_⟩
  have hm : res.key mid = d.key mid := by
    rw [r2.key_outside (by omega) mid (by omega), r1.key_outside (by omega) mid (by omega)]
  apply SortedOn.around s2 (s1.rearranged_outside r2 (by omega) (Or.inr (by omega)))
  · intro k hk1 hk2
    rw [hm]
    refine r2.forall_key (by omega) (fun x => d.key mid < x) ?_ k hk1 hk2
    intro k hk1 hk2
    rw [r1.key_outside (by omega) k (by omega)]
    exact h3 k hk1 hk2
  · intro k hk1 hk2
    rw [hm, r2.key_outside (by omega) k (by omega)]
    exact r1.forall_key (by omega) (fun x => x ≤ d.key mid) (fun k h1 h2 => h4 k (by omega) h2)
      k (by omega) hk2

/-- `pdqsort(data, a, b, limit)` rearranges `data[a:b]` into order, whatever
the value of `limit` and of its two flags, when the entry before the range is
not `Less` than an entry of the range. -/
theorem go119_pdqsort_spec :
    ∀ (fuel : Nat) (d : byModified) (a b limit : Nat) (wasBalanced wasPartitioned : Bool),
      a ≤ b → b ≤ d.length → b - a < fuel → LowerBound d a b →
      Rearranged d (go119.sort.pdqsort fuel d a b limit wasBalanced wasPartitioned) a b ∧
      SortedOn (go119.sort.pdqsort fuel d a b limit wasBalanced wasPartitioned) a b := by
  intro fuel
  induction fuel with
  | zero => intro d a b limit wb wp _ _ h _; omega
  | succ fuel ih =>
    intro d a b limit wb wp hab hb hfuel hlow
    generalize hres : go119.sort.pdqsort (fuel + 1) d a b limit wb wp = res
    rw [go119.sort.pdqsort] at hres
    by_cases h12 : b - a ≤ 12
    · rw [if_pos h12] at hres
      subst hres
      exact insertionSort_spec d a b hb
    rw [if_neg h12] at hres
    by_cases hlim : limit = 0
    · rw [if_pos hlim] at hres
      subst hres
      exact heapSort_spec d a b hab hb
    rw [if_neg hlim] at hres
    -- breakPatterns
    split at hres
    rename_i x1 d1 limit1 heq1
    have r1 : Rearranged d d1 a b := by
      split_ifs at heq1
      · have := congrArg Prod.fst heq1
        simp only [] at this
        rw [← this]
        exact go119_breakPatterns_spec d a b
      · have := congrArg Prod.fst heq1
        simp only [] at this
        rw [← this]
        exact Rearranged.refl _ _ _
    clear heq1
    have hb1 : b ≤ d1.length := by rw [r1.length]; exact hb
    have hlow1 := hlow.rearranged r1 hb
    -- choosePivot
    split at hres
    rename_i x2 pivot hint heq2
    have hp := go119_choosePivot_spec d1 a b (by omega)
    rw [heq2] at hp
    simp only [] at hp
    clear heq2
    -- reverseRange
    split at hres
    rename_i x3 d2 pivot2 hint2 heq3
    have r2 : Rearranged d1 d2 a b ∧ a ≤ pivot2 ∧ pivot2 < b := by
      split_ifs at heq3
      · have e1 := congrArg Prod.fst heq3
        have e2 := congrArg (fun r => r.2.1) heq3
        simp only [] at e1 e2
        rw [← e1, ← e2]
        exact ⟨go119_reverseRange_spec d1 a b (by omega), by omega, by omega⟩
      · have e1 := congrArg Prod.fst heq3
        have e2 := congrArg (fun r => r.2.1) heq3
        simp only [] at e1 e2
        rw [← e1, ← e2]
        exact ⟨Rearranged.refl _ _ _, hp.1, hp.2⟩
    clear heq3
    obtain ⟨r2, hp2a, hp2b⟩ := r2
    have hb2 : b ≤ d2.length := by rw [r2.length]; exact hb1
    have hlow2 := hlow1.rearranged r2 hb1
    -- partialInsertionSort
    split at hres
    rename_i x4 d3 sorted heq4
    have r3 : Rearranged d2 d3 a b ∧ (sorted = true → SortedOn d3 a b) := by
      split_ifs at heq4
      · have e1 := congrArg Prod.fst heq4
        have e2 := congrArg Prod.snd heq4
        simp only [] at e1 e2
        rw [← e1, ← e2]
        exact go119_partialInsertionSort_spec d2 a b (by omega) hb2 hlow2
      · have e1 := congrArg Prod.fst heq4
        have e2 := congrArg Prod.snd heq4
        simp only [] at e1 e2
        rw [← e1, ← e2]
        exact ⟨Rearranged.refl _ _ _, fun h => by simp at h⟩
    clear heq4
    obtain ⟨r3, s3⟩ := r3
    have hb3 : b ≤ d3.length := by rw [r3.length]; exact hb2
    have hlow3 := hlow2.rearranged r3 hb2
    have r03 : Rearranged d d3 a b := (r1.trans r2).trans r3
    by_cases hsorted : sorted = true
    · rw [if_pos hsorted] at hres
      subst hres
      exact ⟨r03, s3 hsorted⟩
    rw [if_neg hsorted] at hres
    by_cases heqc : a > 0 ∧ (!d3.Less (a - 1) pivot2) = true
    · -- partitionEqual
      rw [if_pos heqc] at hres
      split at hres
      rename_i x5 d4 mid heq5
      have hle : d3.key (a - 1) ≤ d3.key pivot2 := by
        have := heqc.2
        simp only [Bool.not_eq_true'] at this
        exact (Less_false_iff _ _ _).mp this
      have hpe := go119_partitionEqual_spec d3 a b pivot2 hp2a hp2b hb3 (by
        intro k hk1 hk2
        have := hlow3 heqc.1 k hk1 hk2
        omega)
      rw [heq5] at hpe
      simp only [] at hpe
      obtain ⟨r4, hm1, hm2, hk1, hk2⟩ := hpe
      have hb4 : b ≤ d4.length := by rw [r4.length]; exact hb3
      have hlow4 : LowerBound d4 mid b := by
        intro _ k h1 h2
        have := hk2 k h1 h2
        have := hk1 (mid - 1) (by omega) (by omega)
        omega
      obtain ⟨r5, s5⟩ := ih d4 mid b limit1 wb wp hm2 hb4 (by omega) hlow4
      rw [hres] at r5 s5
      refine ⟨r03.trans (r4.trans (r5.mono (by omega) (Nat.le_refl _))), ?_⟩
      intro i j hi hij hj
      rw [Less_false_iff]
      by_cases him : mid ≤ i
      · exact (Less_false_iff _ _ _).mp (s5 i j him hij hj)
      · have hki : res.key i = d3.key pivot2 := by
          rw [r5.key_outside hb4 i (by omega)]
          exact hk1 i hi (by omega)
        by_cases hjm : j < mid
        · have hkj : res.key j = d3.key pivot2 := by
            rw [r5.key_outside hb4 j (by omega)]
            exact hk1 j (by omega) hjm
          omega
        · have := r5.forall_key hb4 (fun x => x < d3.key pivot2) hk2 j (by omega) hj
          simp only [] at this
          omega
    · -- partition
      rw [if_neg heqc] at hres
      split at hres
      rename_i x5 d4 mid alreadyPartitioned heq5
      have hpa := go119_partition_spec d3 a b pivot2 hp2a hp2b hb3
      rw [heq5] at hpa
      simp only [] at hpa
      obtain ⟨r4, hm1, hm2, hk1, hk2⟩ := hpa
      have hb4 : b ≤ d4.length := by rw [r4.length]; exact hb3
      have hlow4 := hlow3.rearranged r4 hb3
      simp only [] at hres
      by_cases hlr : mid - a < b - mid
      · rw [if_pos hlr] at hres
        obtain ⟨r5, s5⟩ := ih d4 a mid limit1 true true hm1 (by omega) (by omega)
          (hlow4.sub (by omega))
        generalize go119.sort.pdqsort fuel d4 a mid limit1 true true = dl at r5 s5 hres
        have hlowl : LowerBound dl (mid + 1) b := by
          intro _ k h1 h2
          simp only [Nat.add_sub_cancel]
          rw [r5.key_outside (by omega) k (by omega), r5.key_outside (by omega) mid (by omega)]
          exact hk2 k (by omega) h2
        obtain ⟨r6, s6⟩ := ih dl (mid + 1) b limit1 (decide (mid - a ≥ (b - a) / 8))
          alreadyPartitioned (by omega) (by rw [r5.length]; exact hb4) (by omega) hlowl
        rw [hres] at r6 s6
        obtain ⟨r7, s7⟩ := partition_join_left hm1 hm2 hb4 hk1 hk2 r5 s5 r6 s6
        exact ⟨r03.trans (r4.trans r7), s7⟩
      · rw [if_neg hlr] at hres
        have hlowr : LowerBound d4 (mid + 1) b := by
          intro _ k h1 h2
          simp only [Nat.add_sub_cancel]
          exact hk2 k (by omega) h2
        obtain ⟨r5, s5⟩ := ih d4 (mid + 1) b limit1 true true (by omega) hb4 (by omega) hlowr
        generalize go119.sort.pdqsort fuel d4 (mid + 1) b limit1 true true = dr at r5 s5 hres
        have hlowl : LowerBound dr a mid :=
          (hlow4.rearranged (r5.mono (by omega) (Nat.le_refl _)) hb4).sub (by omega)
        obtain ⟨r6, s6⟩ := ih dr a mid limit1 (decide (b - mid ≥ (b - a) / 8))
          alreadyPartitioned hm1 (by rw [r5.length]; omega) (by omega) hlowl
        rw [hres] at r6 s6
        obtain ⟨r7, s7⟩ := partition_join_right hm1 hm2 hb4 hk1 hk2 r5 s5 r6 s6
        exact ⟨r03.trans (r4.trans r7), s7⟩


/-! ### `doPivot` of Go 1.18 -/

theorem go118_medianOfThree_spec (d : byModified) (lo hi m1 m0 m2 : Nat)
    (h1 : lo ≤ m1 ∧ m1 < hi) (h0 : lo ≤ m0 ∧ m0 < hi) (h2 : lo ≤ m2 ∧ m2 < hi) :
    Rearranged d (go118.sort.medianOfThree d m1 m0 m2) lo hi := by
  unfold go118.sort.medianOfThree
  simp only []
  have r1 : Rearranged d (if d.Less m1 m0 = true then d.Swap m1 m0 else d) lo hi := by
    split_ifs
    · exact Rearranged.swap d _ _ h1 h0
    · exact Rearranged.refl _ _ _
  generalize (if d.Less m1 m0 = true then d.Swap m1 m0 else d) = d1 at r1 ⊢
  split_ifs
  · exact r1.trans ((Rearranged.swap d1 _ _ h2 h1).trans (Rearranged.swap _ _ _ h1 h0))
  · exact r1.trans (Rearranged.swap d1 _ _ h2 h1)
  · exact r1

/-- After `medianOfThree(data, m1, m0, m2)` the entry at `m2` is not `Less` than
the entry at `m1`. -/
theorem go118_medianOfThree_le (d : byModified) (m1 m0 m2 : Nat) (h1 : m1 < d.length)
    (h0 : m0 < d.length) (h2 : m2 < d.length) (h10 : m1 ≠ m0) (h12 : m1 ≠ m2) (h02 : m0 ≠ m2) :
    (go118.sort.medianOfThree d m1 m0 m2).key m2 ≤ (go118.sort.medianOfThree d m1 m0 m2).key m1 := by
  unfold go118.sort.medianOfThree
  simp only []
  have hd1 : (if d.Less m1 m0 = true then d.Swap m1 m0 else d).length = d.length := by
    split_ifs
    · exact Swap_length _ _ _
    · rfl
  have hk1 : (if d.Less m1 m0 = true then d.Swap m1 m0 else d).key m1 ≤
      (if d.Less m1 m0 = true then d.Swap m1 m0 else d).key m0 := by
    by_cases h : d.Less m1 m0 = true
    · rw [if_pos h, Swap_key d m1 m0 m1 h1 h0, Swap_key d m1 m0 m0 h1 h0]
      have := (Less_iff _ _ _).mp h
      simp only [if_neg h10, if_true]
      omega
    · rw [if_neg h]
      simp only [Bool.not_eq_true] at h
      exact (Less_false_iff _ _ _).mp h
  generalize (if d.Less m1 m0 = true then d.Swap m1 m0 else d) = d1 at hd1 hk1 ⊢
  by_cases h : d1.Less m2 m1 = true
  · rw [if_pos h]
    have hl := (Less_iff _ _ _).mp h
    have hkey : ∀ k, (d1.Swap m2 m1).key k =
        if k = m1 then d1.key m2 else if k = m2 then d1.key m1 else d1.key k :=
      fun k => Swap_key d1 m2 m1 k (by omega) (by omega)
    have e1 : (d1.Swap m2 m1).key m1 = d1.key m2 := by rw [hkey]; simp
    have e2 : (d1.Swap m2 m1).key m2 = d1.key m1 := by
      rw [hkey, if_neg (Ne.symm h12)]; simp
    have e0 : (d1.Swap m2 m1).key m0 = d1.key m0 := by
      rw [hkey, if_neg (Ne.symm h10), if_neg h02]
    have hlen2 : (d1.Swap m2 m1).length = d.length := by rw [Swap_length]; exact hd1
    generalize d1.Swap m2 m1 = d2 at e1 e2 e0 hlen2 ⊢
    by_cases h' : d2.Less m1 m0 = true
    · rw [if_pos h', Swap_key d2 m1 m0 m2 (by omega) (by omega),
        Swap_key d2 m1 m0 m1 (by omega) (by omega)]
      simp only [if_neg (Ne.symm h02), if_neg (Ne.symm h12), if_neg h10, if_true]
      omega
    · rw [if_neg h']
      omega
  · rw [if_neg h]
    simp only [Bool.not_eq_true] at h
    exact (Less_false_iff _ _ _).mp h

theorem go118_skipLess_spec (d : byModified) (pivot c : Nat) :
    ∀ (fuel a : Nat), c - a ≤ fuel →
      a ≤ go118.sort.doPivot.skipLess d pivot c fuel a ∧
      (a ≤ c → go118.sort.doPivot.skipLess d pivot c fuel a ≤ c) ∧
      (∀ k, a ≤ k → k < go118.sort.doPivot.skipLess d pivot c fuel a →
        d.key pivot < d.key k) ∧
      (go118.sort.doPivot.skipLess d pivot c fuel a < c →
        d.key (go118.sort.doPivot.skipLess d pivot c fuel a) ≤ d.key pivot) := by
  intro fuel
  induction fuel with
  | zero =>
    intro a hf
    rw [go118.sort.doPivot.skipLess]
    exact ⟨Nat.le_refl _, fun h => h, fun k h1 h2 => by omega, fun h => by omega⟩
  | succ fuel ih =>
    intro a hf
    rw [go118.sort.doPivot.skipLess]
    by_cases hc : a < c ∧ d.Less a pivot = true
    · rw [if_pos hc]
      obtain ⟨h1, h2, h3, h4⟩ := ih (a + 1) (by omega)
      have hl := (Less_iff _ _ _).mp hc.2
      refine ⟨by omega, fun _ => h2 (by omega), ?_, h4⟩
      intro k hk1 hk2
      by_cases hka : k = a
      · subst hka; exact hl
      · exact h3 k (by omega) hk2
    · rw [if_neg hc]
      refine ⟨Nat.le_refl _, fun h => h, fun k h1 h2 => by omega, ?_⟩
      intro hac
      have : ¬ d.Less a pivot = true := fun h => hc ⟨hac, h⟩
      rw [Less_iff] at this
      omega

theorem go118_skipLeq_spec (d : byModified) (pivot c : Nat) :
    ∀ (fuel b : Nat), c - b ≤ fuel →
      b ≤ go118.sort.doPivot.skipLeq d pivot c fuel b ∧
      (b ≤ c → go118.sort.doPivot.skipLeq d pivot c fuel b ≤ c) ∧
      (∀ k, b ≤ k → k < go118.sort.doPivot.skipLeq d pivot c fuel b →
        d.key pivot ≤ d.key k) ∧
      (go118.sort.doPivot.skipLeq d pivot c fuel b < c →
        d.key (go118.sort.doPivot.skipLeq d pivot c fuel b) < d.key pivot) := by
  intro fuel
  induction fuel with
  | zero =>
    intro b hf
    rw [go118.sort.doPivot.skipLeq]
    exact ⟨Nat.le_refl _, fun h => h, fun k h1 h2 => by omega, fun h => by omega⟩
  | succ fuel ih =>
    intro b hf
    rw [go118.sort.doPivot.skipLeq]
    by_cases hc : b < c ∧ (!d.Less pivot b) = true
    · rw [if_pos hc]
      obtain ⟨h1, h2, h3, h4⟩ := ih (b + 1) (by omega)
      have hl : d.key pivot ≤ d.key b := by
        have := hc.2
        simp only [Bool.not_eq_true'] at this
        exact (Less_false_iff _ _ _).mp this
      refine ⟨by omega, fun _ => h2 (by omega), ?_, h4⟩
      intro k hk1 hk2
      by_cases hkb : k = b
      · subst hkb; exact hl
      · exact h3 k (by omega) hk2
    · rw [if_neg hc]
      refine ⟨Nat.le_refl _, fun h => h, fun k h1 h2 => by omega, ?_⟩
      intro hbc
      have : ¬ (!d.Less pivot b) = true := fun h => hc ⟨hbc, h⟩
      simp only [Bool.not_eq_true', Bool.not_eq_false] at this
      exact (Less_iff _ _ _).mp this

theorem go118_skipGreater_spec (d : byModified) (pivot b : Nat) :
    ∀ (fuel c : Nat), c - b ≤ fuel →
      go118.sort.doPivot.skipGreater d pivot b fuel c ≤ c ∧
      (b ≤ c → b ≤ go118.sort.doPivot.skipGreater d pivot b fuel c) ∧
      (∀ k, go118.sort.doPivot.skipGreater d pivot b fuel c ≤ k → k < c →
        d.key k < d.key pivot) ∧
      (b < go118.sort.doPivot.skipGreater d pivot b fuel c →
        d.key pivot ≤ d.key (go118.sort.doPivot.skipGreater d pivot b fuel c - 1)) := by
  intro fuel
  induction fuel with
  | zero =>
    intro c hf
    rw [go118.sort.doPivot.skipGreater]
    exact ⟨Nat.le_refl _, fun h => h, fun k h1 h2 => by omega, fun h => by omega⟩
  | succ fuel ih =>
    intro c hf
    rw [go118.sort.doPivot.skipGreater]
    by_cases hc : b < c ∧ d.Less pivot (c - 1) = true
    · rw [if_pos hc]
      obtain ⟨h1, h2, h3, h4⟩ := ih (c - 1) (by omega)
      have hl := (Less_iff _ _ _).mp hc.2
      refine ⟨by omega, fun _ => h2 (by omega), ?_, h4⟩
      intro k hk1 hk2
      by_cases hkc : k = c - 1
      · subst hkc; exact hl
      · exact h3 k hk1 (by omega)
    · rw [if_neg hc]
      refine ⟨Nat.le_refl _, fun h => h, fun k h1 h2 => by omega, ?_⟩
      intro hbc
      have : ¬ d.Less pivot (c - 1) = true := fun h => hc ⟨hbc, h⟩
      rw [Less_iff] at this
      omega

theorem go118_skipEqual_spec (d : byModified) (pivot a : Nat) :
    ∀ (fuel b : Nat),
      go118.sort.doPivot.skipEqual d pivot a fuel b ≤ b ∧
      (a ≤ b → a ≤ go118.sort.doPivot.skipEqual d pivot a fuel b) ∧
      (∀ k, go118.sort.doPivot.skipEqual d pivot a fuel b ≤ k → k < b →
        d.key k ≤ d.key pivot) ∧
      (b ≤ a → go118.sort.doPivot.skipEqual d pivot a fuel b = b) := by
  intro fuel
  induction fuel with
  | zero =>
    intro b
    rw [go118.sort.doPivot.skipEqual]
    exact ⟨Nat.le_refl _, fun h => h, fun k h1 h2 => by omega, fun _ => rfl⟩
  | succ fuel ih =>
    intro b
    rw [go118.sort.doPivot.skipEqual]
    by_cases hc : a < b ∧ (!d.Less (b - 1) pivot) = true
    · rw [if_pos hc]
      obtain ⟨h1, h2, h3, _⟩ := ih (b - 1)
      have hl : d.key (b - 1) ≤ d.key pivot := by
        have := hc.2
        simp only [Bool.not_eq_true'] at this
        exact (Less_false_iff _ _ _).mp this
      refine ⟨by omega, fun _ => h2 (by omega), ?_, fun h => by omega⟩
      intro k hk1 hk2
      by_cases hkb : k = b - 1
      · subst hkb; exact hl
      · exact h3 k hk1 (by omega)
    · rw [if_neg hc]
      exact ⟨Nat.le_refl _, fun h => h, fun k h1 h2 => by omega, fun _ => rfl⟩

theorem go118_doPivot_partition_spec (lo hi : Nat) :
    ∀ (fuel : Nat) (d : byModified) (b c : Nat), c - b < fuel → hi ≤ d.length →
      DoPivotInv d lo hi b c →
      Rearranged d (go118.sort.doPivot.partition lo fuel d b c).1 (lo + 1) hi ∧
      (go118.sort.doPivot.partition lo fuel d b c).2.1 =
        (go118.sort.doPivot.partition lo fuel d b c).2.2 ∧
      DoPivotInv (go118.sort.doPivot.partition lo fuel d b c).1 lo hi
        (go118.sort.doPivot.partition lo fuel d b c).2.1
        (go118.sort.doPivot.partition lo fuel d b c).2.2 := by
  intro fuel
  induction fuel with
  | zero => intro d b c h _ _; omega
  | succ fuel ih =>
    intro d b c hf hlen hinv
    obtain ⟨i1, i2, i3, i4, i5⟩ := hinv
    rw [go118.sort.doPivot.partition]
    obtain ⟨p1, p2, p3, p4⟩ := go118_skipLeq_spec d lo c (c - b) b (Nat.le_refl _)
    generalize go118.sort.doPivot.skipLeq d lo c (c - b) b = b' at p1 p2 p3 p4 ⊢
    have p2 := p2 i2
    obtain ⟨q1, q2, q3, q4⟩ := go118_skipGreater_spec d lo b' (c - b') c (Nat.le_refl _)
    generalize go118.sort.doPivot.skipGreater d lo b' (c - b') c = c' at q1 q2 q3 q4 ⊢
    have q2 := q2 p2
    by_cases hbc : b' ≥ c'
    · rw [if_pos hbc]
      have e : c' = b' := by omega
      subst e
      refine ⟨Rearranged.refl _ _ _, rfl, ?_⟩
      show DoPivotInv d lo hi c' c'
      refine ⟨by omega, Nat.le_refl _, by omega, ?_, ?_⟩
      · intro k hk1 hk2
        by_cases hkb : k < b
        · exact i4 k hk1 hkb
        · exact p3 k (by omega) hk2
      · intro k hk1 hk2
        by_cases hkc : k < c
        · exact Nat.le_of_lt (q3 k hk1 hkc)
        · exact i5 k (by omega) hk2
    · rw [if_neg hbc]
      have hb' := p4 (by omega)
      have hc' := q4 (by omega)
      have hne : b' ≠ c' - 1 := by
        intro h
        rw [← h] at hc'
        omega
      have hkey : ∀ k, (d.Swap b' (c' - 1)).key k =
          if k = c' - 1 then d.key b' else if k = b' then d.key (c' - 1) else d.key k :=
        fun k => Swap_key d b' (c' - 1) k (by omega) (by omega)
      have hlo : (d.Swap b' (c' - 1)).key lo = d.key lo := by
        rw [hkey, if_neg (by omega), if_neg (by omega)]
      have hinv' : DoPivotInv (d.Swap b' (c' - 1)) lo hi (b' + 1) (c' - 1) := by
        refine ⟨by omega, by omega, by omega, ?_, ?_⟩
        · intro k hk1 hk2
          rw [hlo, hkey]
          have hh : k < b' → d.key lo ≤ d.key k := fun h => by
            by_cases hkb : k < b
            · exact i4 k hk1 hkb
            · exact p3 k (by omega) h
          split_ifs
          · omega
          · omega
          · exact hh (by omega)
        · intro k hk1 hk2
          rw [hlo, hkey]
          have hh : c' ≤ k → d.key k ≤ d.key lo := fun h => by
            by_cases hkc : k < c
            · exact Nat.le_of_lt (q3 k h hkc)
            · exact i5 k (by omega) hk2
          split_ifs
          · omega
          · omega
          · exact hh (by omega)
      obtain ⟨r1, r2, r3⟩ := ih (d.Swap b' (c' - 1)) (b' + 1) (c' - 1) (by omega)
        (by rw [Swap_length]; exact hlen) hinv'
      exact ⟨(Rearranged.swap d _ _ ⟨by omega, by omega⟩ ⟨by omega, by omega⟩).trans r1, r2, r3⟩

/-- The first test for entries equal to the pivot: `data.Swap(c, hi-1); c++`. -/
theorem PivotInv.swap_last {d : byModified} {lo hi b c : Nat} (h : PivotInv d lo hi b c)
    (hc : c < hi) (hlen : hi ≤ d.length) (hl : d.Less lo (hi - 1) = false) :
    PivotInv (d.Swap c (hi - 1)) lo hi b (c + 1) := by
  obtain ⟨i1, i2, i3, i4, i5, i6⟩ := h
  have hkey : ∀ k, (d.Swap c (hi - 1)).key k =
      if k = hi - 1 then d.key c else if k = c then d.key (hi - 1) else d.key k :=
    fun k => Swap_key d c (hi - 1) k (by omega) (by omega)
  have hlo : (d.Swap c (hi - 1)).key lo = d.key lo := by
    rw [hkey, if_neg (by omega), if_neg (by omega)]
  have h1 := (Less_false_iff _ _ _).mp hl
  have h2 := i6 (hi - 1) (by omega) (by omega)
  have h3 := i6 c (Nat.le_refl _) hc
  refine ⟨i1, by omega, by omega, ?_, ?_, ?_⟩
  · intro k hk1 hk2
    rw [hlo, hkey, if_neg (by omega), if_neg (by omega)]
    exact i4 k hk1 hk2
  · intro k hk1 hk2
    rw [hlo, hkey]
    split_ifs with e1 e2
    · subst e1
      have : c = hi - 1 := by omega
      rw [this]; omega
    · omega
    · exact i5 k hk1 (by omega)
  · intro k hk1 hk2
    rw [hlo, hkey]
    split_ifs with e1 e2
    · exact h3
    · omega
    · exact i6 k (by omega) hk2

/-- The second test for entries equal to the pivot: `b--`. -/
theorem PivotInv.pred {d : byModified} {lo hi b c : Nat} (h : PivotInv d lo hi b c)
    (hb : lo + 1 < b) (hl : d.Less (b - 1) lo = false) : PivotInv d lo hi (b - 1) c := by
  obtain ⟨i1, i2, i3, i4, i5, i6⟩ := h
  have h1 := (Less_false_iff _ _ _).mp hl
  have h2 := i4 (b - 1) (by omega) (by omega)
  refine ⟨by omega, by omega, i3, fun k hk1 hk2 => i4 k hk1 (by omega), ?_, i6⟩
  intro k hk1 hk2
  by_cases hkb : k = b - 1
  · subst hkb; omega
  · exact i5 k (by omega) hk2

/-- The third test for entries equal to the pivot, and the step of the loop
that protects against many duplicates: `data.Swap(m, b-1); b--` for an entry at
`m` that is not `Less` than the pivot. -/
theorem PivotInv.swap_pred {d : byModified} {lo hi b c : Nat} (h : PivotInv d lo hi b c)
    (m : Nat) (hm1 : lo < m) (hm2 : m < b) (hlen : hi ≤ d.length)
    (hl : d.key m ≤ d.key lo) : PivotInv (d.Swap m (b - 1)) lo hi (b - 1) c := by
  obtain ⟨i1, i2, i3, i4, i5, i6⟩ := h
  have hkey : ∀ k, (d.Swap m (b - 1)).key k =
      if k = b - 1 then d.key m else if k = m then d.key (b - 1) else d.key k :=
    fun k => Swap_key d m (b - 1) k (by omega) (by omega)
  have hlo : (d.Swap m (b - 1)).key lo = d.key lo := by
    rw [hkey, if_neg (by omega), if_neg (by omega)]
  have h2 := i4 m hm1 hm2
  have h3 := i4 (b - 1) (by omega) (by omega)
  refine ⟨by omega, by omega, i3, ?_, ?_, ?_⟩
  · intro k hk1 hk2
    rw [hlo, hkey, if_neg (by omega)]
    split_ifs
    · exact h3
    · exact i4 k hk1 (by omega)
  · intro k hk1 hk2
    rw [hlo, hkey]
    split_ifs with e1 e2
    · omega
    · omega
    · exact i5 k (by omega) hk2
  · intro k hk1 hk2
    rw [hlo, hkey, if_neg (by omega), if_neg (by omega)]
    exact i6 k hk1 hk2

/-- Fewer entries counted as equal to the pivot: the bound `b` can be lowered
to a position from which the entries are not `Less` than the pivot. -/
theorem PivotInv.lower {d : byModified} {lo hi b c : Nat} (h : PivotInv d lo hi b c)
    (b' : Nat) (h1 : lo < b') (h2 : b' ≤ b) (h3 : ∀ k, b' ≤ k → k < b → d.key k ≤ d.key lo) :
    PivotInv d lo hi b' c := by
  obtain ⟨i1, i2, i3, i4, i5, i6⟩ := h
  refine ⟨h1, by omega, i3, fun k hk1 hk2 => i4 k hk1 (by omega), ?_, i6⟩
  intro k hk1 hk2
  by_cases hkb : k < b
  · have := h3 k hk1 hkb
    have := i4 k (by omega) hkb
    omega
  · exact i5 k (by omega) hk2

theorem go118_doPivot_protect_spec (lo hi c : Nat) :
    ∀ (fuel : Nat) (d : byModified) (a b : Nat), lo < a → hi ≤ d.length →
      PivotInv d lo hi b c →
      Rearranged d (go118.sort.doPivot.protect lo fuel d a b).1 (lo + 1) hi ∧
      PivotInv (go118.sort.doPivot.protect lo fuel d a b).1 lo hi
        (go118.sort.doPivot.protect lo fuel d a b).2.2 c := by
  intro fuel
  induction fuel with
  | zero =>
    intro d a b _ _ hinv
    exact ⟨Rearranged.refl _ _ _, hinv⟩
  | succ fuel ih =>
    intro d a b hla hlen hinv
    rw [go118.sort.doPivot.protect]
    obtain ⟨p1, p2, p3, p4⟩ := go118_skipEqual_spec d lo a (b - a) b
    generalize go118.sort.doPivot.skipEqual d lo a (b - a) b = b' at p1 p2 p3 p4 ⊢
    have hb' : lo < b' := by
      by_cases hab : a ≤ b
      · have := p2 hab; omega
      · have := p4 (by omega)
        have := hinv.1
        omega
    have hinv' := hinv.lower b' hb' p1 p3
    obtain ⟨q1, q2, q3, q4⟩ := go118_skipLess_spec d lo b' (b' - a) a (Nat.le_refl _)
    generalize go118.sort.doPivot.skipLess d lo b' (b' - a) a = a' at q1 q2 q3 q4 ⊢
    by_cases hab : a' ≥ b'
    · rw [if_pos hab]
      exact ⟨Rearranged.refl _ _ _, hinv'⟩
    · rw [if_neg hab]
      have hl := q4 (by omega)
      have hinv'' := hinv'.swap_pred a' (by omega) (by omega) hlen hl
      obtain ⟨r1, r2⟩ := ih (d.Swap a' (b' - 1)) (a' + 1) (b' - 1) (by omega)
        (by rw [Swap_length]; exact hlen) hinv''
      have := hinv.2.2.1
      have := hinv.2.1
      exact ⟨(Rearranged.swap d _ _ ⟨by omega, by omega⟩ ⟨by omega, by omega⟩).trans r1, r2⟩

/-- The last step of `doPivot`: `data.Swap(pivot, b-1)` puts the pivot in the
middle. -/
theorem PivotInv.swap_pivot {d : byModified} {lo hi b c : Nat} (h : PivotInv d lo hi b c)
    (hlen : hi ≤ d.length) :
    (∀ k, lo ≤ k → k < b - 1 → (d.Swap lo (b - 1)).key (b - 1) ≤ (d.Swap lo (b - 1)).key k) ∧
    (∀ k, b - 1 ≤ k → k < c → (d.Swap lo (b - 1)).key k = (d.Swap lo (b - 1)).key (b - 1)) ∧
    (∀ k, c ≤ k → k < hi → (d.Swap lo (b - 1)).key k ≤ (d.Swap lo (b - 1)).key (b - 1)) := by
  obtain ⟨i1, i2, i3, i4, i5, i6⟩ := h
  have hkey : ∀ k, (d.Swap lo (b - 1)).key k =
      if k = b - 1 then d.key lo else if k = lo then d.key (b - 1) else d.key k :=
    fun k => Swap_key d lo (b - 1) k (by omega) (by omega)
  have hp : (d.Swap lo (b - 1)).key (b - 1) = d.key lo := by
    rw [hkey, if_pos rfl]
  rw [hp]
  refine ⟨?_, ?_, ?_⟩
  · intro k hk1 hk2
    rw [hkey, if_neg (by omega)]
    split_ifs
    · exact i4 (b - 1) (by omega) (by omega)
    · exact i4 k (by omega) (by omega)
  · intro k hk1 hk2
    rw [hkey]
    split_ifs with e1 e2
    · rfl
    · omega
    · exact i5 k (by omega) hk2
  · intro k hk1 hk2
    rw [hkey, if_neg (by omega), if_neg (by omega)]
    exact i6 k hk1 hk2

/-- `doPivot(data, lo, hi)` on more than twelve entries: the entries of
`data[lo:hi]` are rearranged in three parts.  No entry of `data[midlo:midhi]`,
which is not empty, is `Less` than an entry of `data[lo:midlo]`; the entries of
`data[midlo:midhi]` have the same `Mtime`; no entry of `data[midhi:hi]` is
`Less` than an entry of `data[midlo:midhi]`. -/
theorem go118_doPivot_spec (d : byModified) (lo hi : Nat) (h12 : hi - lo > 12)
    (hlen : hi ≤ d.length) :
    Rearranged d (go118.sort.doPivot d lo hi).1 lo hi ∧
    lo ≤ (go118.sort.doPivot d lo hi).2.1 ∧
    (go118.sort.doPivot d lo hi).2.1 < (go118.sort.doPivot d lo hi).2.2 ∧
    (go118.sort.doPivot d lo hi).2.2 ≤ hi ∧
    (∀ k, lo ≤ k → k < (go118.sort.doPivot d lo hi).2.1 →
      (go118.sort.doPivot d lo hi).1.key (go118.sort.doPivot d lo hi).2.1 ≤
        (go118.sort.doPivot d lo hi).1.key k) ∧
    (∀ k, (go118.sort.doPivot d lo hi).2.1 ≤ k → k < (go118.sort.doPivot d lo hi).2.2 →
      (go118.sort.doPivot d lo hi).1.key k =
        (go118.sort.doPivot d lo hi).1.key (go118.sort.doPivot d lo hi).2.1) ∧
    (∀ k, (go118.sort.doPivot d lo hi).2.2 ≤ k → k < hi →
      (go118.sort.doPivot d lo hi).1.key k ≤
        (go118.sort.doPivot d lo hi).1.key (go118.sort.doPivot d lo hi).2.1) := by
  generalize hres : go118.sort.doPivot d lo hi = res
  unfold go118.sort.doPivot at hres
  -- the median of three medians of three
  have r0 : Rearranged d (if hi - lo > 40 then
      go118.sort.medianOfThree
        (go118.sort.medianOfThree
          (go118.sort.medianOfThree d lo (lo + (hi - lo) / 8) (lo + 2 * ((hi - lo) / 8)))
          ((lo + hi) / 2) ((lo + hi) / 2 - (hi - lo) / 8) ((lo + hi) / 2 + (hi - lo) / 8))
        (hi - 1) (hi - 1 - (hi - lo) / 8) (hi - 1 - 2 * ((hi - lo) / 8))
      else d) lo hi := by
    by_cases h40 : hi - lo > 40
    · rw [if_pos h40]
      exact ((go118_medianOfThree_spec d lo hi _ _ _ ⟨by omega, by omega⟩ ⟨by omega, by omega⟩
        ⟨by omega, by omega⟩).trans
        (go118_medianOfThree_spec _ lo hi _ _ _ ⟨by omega, by omega⟩ ⟨by omega, by omega⟩
          ⟨by omega, by omega⟩)).trans
        (go118_medianOfThree_spec _ lo hi _ _ _ ⟨by omega, by omega⟩ ⟨by omega, by omega⟩
          ⟨by omega, by omega⟩)
    · rw [if_neg h40]
      exact Rearranged.refl _ _ _
  simp -iota only [] at hres
  generalize (if hi - lo > 40 then
      go118.sort.medianOfThree
        (go118.sort.medianOfThree
          (go118.sort.medianOfThree d lo (lo + (hi - lo) / 8) (lo + 2 * ((hi - lo) / 8)))
          ((lo + hi) / 2) ((lo + hi) / 2 - (hi - lo) / 8) ((lo + hi) / 2 + (hi - lo) / 8))
        (hi - 1) (hi - 1 - (hi - lo) / 8) (hi - 1 - 2 * ((hi - lo) / 8))
      else d) = d0 at hres r0
  have hlen0 : d0.length = d.length := r0.length
  -- the median of `lo`, `m`, `hi - 1`
  have r1 : Rearranged d0 (go118.sort.medianOfThree d0 lo ((lo + hi) / 2) (hi - 1)) lo hi :=
    go118_medianOfThree_spec d0 lo hi _ _ _ ⟨by omega, by omega⟩ ⟨by omega, by omega⟩
      ⟨by omega, by omega⟩
  have hmed := go118_medianOfThree_le d0 lo ((lo + hi) / 2) (hi - 1) (by omega) (by omega)
    (by omega) (by omega) (by omega) (by omega)
  generalize go118.sort.medianOfThree d0 lo ((lo + hi) / 2) (hi - 1) = d1 at hres r1 hmed
  have hlen1 : d1.length = d0.length := r1.length
  -- the entries `Less` than the pivot
  obtain ⟨a1, a2, a3, _⟩ := go118_skipLess_spec d1 lo (hi - 1) (hi - 1 - (lo + 1)) (lo + 1)
    (Nat.le_refl _)
  have a2 := a2 (by omega)
  generalize go118.sort.doPivot.skipLess d1 lo (hi - 1) (hi - 1 - (lo + 1)) (lo + 1) = a
    at hres a1 a2 a3
  -- the partitioning loop
  have hinv1 : DoPivotInv d1 lo hi a (hi - 1) := by
    refine ⟨by omega, a2, by omega, ?_, ?_⟩
    · intro k hk1 hk2
      exact Nat.le_of_lt (a3 k (by omega) hk2)
    · intro k hk1 hk2
      have : k = hi - 1 := by omega
      subst this
      exact hmed
  obtain ⟨r2, e2, hinv2⟩ := go118_doPivot_partition_spec lo hi (hi - lo) d1 a (hi - 1)
    (by omega) (by omega) hinv1
  split at hres
  rename_i x2 d2 b2 c2 heq2
  rw [heq2] at r2 e2 hinv2
  simp only [] at r2 e2 hinv2
  clear heq2
  subst e2
  have hlen2 : d2.length = d1.length := r2.length
  have hp2 : PivotInv d2 lo hi b2 b2 :=
    ⟨hinv2.1, Nat.le_refl _, by have := hinv2.2.2.1; omega, hinv2.2.2.2.1,
      fun k h1 h2 => by omega, hinv2.2.2.2.2⟩
  have hb2hi : b2 < hi := hinv2.2.2.1
  -- the tests for entries equal to the pivot
  split at hres
  rename_i x3 d3 b3 c3 protect3 heq3
  have r3 : Rearranged d2 d3 (lo + 1) hi ∧ PivotInv d3 lo hi b3 c3 := by
    by_cases hc : (!decide (hi - b2 < 5)) = true ∧ hi - b2 < (hi - lo) / 4
    · rw [if_pos hc] at heq3
      have hc1 : 5 ≤ hi - b2 := by
        have := hc.1
        simp only [Bool.not_eq_true', decide_eq_false_iff_not] at this
        omega
      have hc2 := hc.2
      split at heq3
      rename_i xa da ca dupsa heqa
      have ra : Rearranged d2 da (lo + 1) hi ∧ PivotInv da lo hi b2 ca ∧ b2 ≤ ca := by
        by_cases hl : (!d2.Less lo (hi - 1)) = true
        · rw [if_pos hl] at heqa
          simp only [Prod.mk.injEq] at heqa
          obtain ⟨rfl, rfl, _⟩ := heqa
          simp only [Bool.not_eq_true'] at hl
          exact ⟨Rearranged.swap d2 _ _ ⟨by omega, by omega⟩ ⟨by omega, by omega⟩,
            hp2.swap_last hb2hi (by omega) hl, by omega⟩
        · rw [if_neg hl] at heqa
          simp only [Prod.mk.injEq] at heqa
          obtain ⟨rfl, rfl, _⟩ := heqa
          exact ⟨Rearranged.refl _ _ _, hp2, Nat.le_refl _⟩
      clear heqa
      obtain ⟨ra, hpa, hca⟩ := ra
      have hlena : da.length = d2.length := ra.length
      split at heq3
      rename_i xb bb dupsb heqb
      have rb : PivotInv da lo hi bb ca ∧ b2 - 1 ≤ bb ∧ bb ≤ b2 := by
        by_cases hl : (!da.Less (b2 - 1) lo) = true
        · rw [if_pos hl] at heqb
          simp only [Prod.mk.injEq] at heqb
          obtain ⟨rfl, _⟩ := heqb
          simp only [Bool.not_eq_true'] at hl
          exact ⟨hpa.pred (by omega) hl, Nat.le_refl _, by omega⟩
        · rw [if_neg hl] at heqb
          simp only [Prod.mk.injEq] at heqb
          obtain ⟨rfl, _⟩ := heqb
          exact ⟨hpa, by omega, Nat.le_refl _⟩
      clear heqb
      obtain ⟨hpb, hbb1, hbb2⟩ := rb
      split at heq3
      rename_i xc dc bc dupsc heqc
      have rc : Rearranged da dc (lo + 1) hi ∧ PivotInv dc lo hi bc ca := by
        by_cases hl : (!da.Less ((lo + hi) / 2) lo) = true
        · rw [if_pos hl] at heqc
          simp only [Prod.mk.injEq] at heqc
          obtain ⟨rfl, rfl, _⟩ := heqc
          simp only [Bool.not_eq_true'] at hl
          exact ⟨Rearranged.swap da _ _ ⟨by omega, by omega⟩ ⟨by omega, by omega⟩,
            hpb.swap_pred ((lo + hi) / 2) (by omega) (by omega) (by omega)
              ((Less_false_iff _ _ _).mp hl)⟩
        · rw [if_neg hl] at heqc
          simp only [Prod.mk.injEq] at heqc
          obtain ⟨rfl, rfl, _⟩ := heqc
          exact ⟨Rearranged.refl _ _ _, hpb⟩
      clear heqc
      obtain ⟨rc, hpc⟩ := rc
      simp only [Prod.mk.injEq] at heq3
      obtain ⟨rfl, rfl, rfl, _⟩ := heq3
      exact ⟨ra.trans rc, hpc⟩
    · rw [if_neg hc] at heq3
      simp only [Prod.mk.injEq] at heq3
      obtain ⟨rfl, rfl, rfl, _⟩ := heq3
      exact ⟨Rearranged.refl _ _ _, hp2⟩
  clear heq3
  obtain ⟨r3, hp3⟩ := r3
  have hlen3 : d3.length = d2.length := r3.length
  -- the loop that protects against many duplicates
  split at hres
  rename_i x4 d4 b4 heq4
  have r4 : Rearranged d3 d4 (lo + 1) hi ∧ PivotInv d4 lo hi b4 c3 := by
    by_cases hc : protect3 = true
    · rw [if_pos hc] at heq4
      obtain ⟨q1, q2⟩ := go118_doPivot_protect_spec lo hi c3 (hi - lo) d3 a b3 (by omega)
        (by omega) hp3
      split at heq4
      rename_i x5 d5 a5 b5 heq5
      rw [heq5] at q1 q2
      simp only [Prod.mk.injEq] at heq4
      obtain ⟨rfl, rfl⟩ := heq4
      exact ⟨q1, q2⟩
    · rw [if_neg hc] at heq4
      simp only [Prod.mk.injEq] at heq4
      obtain ⟨rfl, rfl⟩ := heq4
      exact ⟨Rearranged.refl _ _ _, hp3⟩
  clear heq4
  obtain ⟨r4, hp4⟩ := r4
  have hlen4 : d4.length = d3.length := r4.length
  -- the pivot goes to the middle
  subst hres
  obtain ⟨s1, s2, s3⟩ := hp4.swap_pivot (by omega)
  obtain ⟨i1, i2, i3, _⟩ := hp4
  refine ⟨?_, by simp only []; omega, by simp only []; omega, i3, s1, s2, s3⟩
  exact (r0.trans r1).trans ((((r2.trans r3).trans r4).mono (by omega) (Nat.le_refl _)).trans
    (Rearranged.swap d4 _ _ ⟨Nat.le_refl _, by omega⟩ ⟨by omega, by omega⟩))

/-! ### `quickSort` of Go 1.18 -/

theorem go118_shellPass_spec (a b : Nat) :
    ∀ (fuel i : Nat) (d : byModified), a + 6 ≤ i →
      Rearranged d (go118.sort.quickSort.shellPass b fuel i d) a b := by
  intro fuel
  induction fuel with
  | zero => intro i d _; exact Rearranged.refl _ _ _
  | succ fuel ih =>
    intro i d hi
    rw [go118.sort.quickSort.shellPass]
    by_cases hib : i < b
    · rw [if_pos hib]
      refine Rearranged.trans ?_ (ih (i + 1) _ (by omega))
      split_ifs
      · exact Rearranged.swap d _ _ ⟨by omega, hib⟩ ⟨by omega, by omega⟩
      · exact Rearranged.refl _ _ _
    · rw [if_neg hib]
      exact Rearranged.refl _ _ _

/-- Two ranges in order on either side of a range of entries with the same
`Mtime` that separates them make one range in order. -/
theorem SortedOn.around_equal {d : byModified} {a mlo mhi b : Nat} (p : Nat)
    (h1 : SortedOn d a mlo) (h2 : SortedOn d mhi b)
    (h3 : ∀ k, a ≤ k → k < mlo → p ≤ d.key k)
    (h4 : ∀ k, mlo ≤ k → k < mhi → d.key k = p)
    (h5 : ∀ k, mhi ≤ k → k < b → d.key k ≤ p) : SortedOn d a b := by
  intro i j hi hij hj
  rw [Less_false_iff]
  by_cases hjl : j < mlo
  · exact (Less_false_iff _ _ _).mp (h1 i j hi hij hjl)
  · by_cases hih : mhi ≤ i
    · exact (Less_false_iff _ _ _).mp (h2 i j hih hij hj)
    · have hki : p ≤ d.key i := by
        by_cases hil : i < mlo
        · exact h3 i hi hil
        · exact Nat.le_of_eq (h4 i (by omega) (by omega)).symm
      have hkj : d.key j ≤ p := by
        by_cases hjh : j < mhi
        · exact Nat.le_of_eq (h4 j (by omega) hjh)
        · exact h5 j (by omega) hj
      omega

/-- The two outer parts of a range split by `doPivot` sorted one after the
other, the one before the pivot first. -/
theorem pivot_join_left {d dl res : byModified} {a mlo mhi b : Nat} (ham : a ≤ mlo)
    (hmm : mlo < mhi) (hmb : mhi ≤ b) (hb : b ≤ d.length)
    (h3 : ∀ k, a ≤ k → k < mlo → d.key mlo ≤ d.key k)
    (h4 : ∀ k, mlo ≤ k → k < mhi → d.key k = d.key mlo)
    (h5 : ∀ k, mhi ≤ k → k < b → d.key k ≤ d.key mlo)
    (r1 : Rearranged d dl a mlo) (s1 : SortedOn dl a mlo)
    (r2 : Rearranged dl res mhi b) (s2 : SortedOn res mhi b) :
    Rearranged d res a b ∧ SortedOn res a b := by
  have hl1 := r1.length
  refine ⟨(r1.mono (Nat.le_refl _) (by omega)).trans (r2.mono (by omega) (Nat.le_refl _)), ?_⟩
  apply SortedOn.around_equal (d.key mlo)
    (s1.rearranged_outside r2 (by omega) (Or.inl (by omega))) s2
  · intro k hk1 hk2
    rw [r2.key_outside (by omega) k (by omega)]
    exact r1.forall_key (by omega) (fun x => d.key mlo ≤ x) h3 k hk1 hk2
  · intro k hk1 hk2
    rw [r2.key_outside (by omega) k (by omega), r1.key_outside (by omega) k (by omega)]
    exact h4 k hk1 hk2
  · intro k hk1 hk2
    refine r2.forall_key (by omega) (fun x => x ≤ d.key mlo) ?_ k hk1 hk2
    intro k hk1 hk2
    rw [r1.key_outside (by omega) k (by omega)]
    exact h5 k hk1 hk2

/-- The two outer parts of a range split by `doPivot` sorted one after the
other, the one after the pivot first. -/
theorem pivot_join_right {d dr res : byModified} {a mlo mhi b : Nat} (ham : a ≤ mlo)
    (hmm : mlo < mhi) (hmb : mhi ≤ b) (hb : b ≤ d.length)
    (h3 : ∀ k, a ≤ k → k < mlo → d.key mlo ≤ d.key k)
    (h4 : ∀ k, mlo ≤ k → k < mhi → d.key k = d.key mlo)
    (h5 : ∀ k, mhi ≤ k → k < b → d.key k ≤ d.key mlo)
    (r1 : Rearranged d dr mhi b) (s1 : SortedOn dr mhi b)
    (r2 : Rearranged dr res a mlo) (s2 : SortedOn res a mlo) :
    Rearranged d res a b ∧ SortedOn res a b := by
  have hl1 := r1.length
  refine ⟨(r1.mono (by omega) (Nat.le_refl _)).trans (r2.mono (Nat.le_refl _) (by omega)), ?_⟩
  apply SortedOn.around_equal (d.key mlo) s2
    (s1.rearranged_outside r2 (by omega) (Or.inr (by omega)))
  · intro k hk1 hk2
    refine r2.forall_key (by omega) (fun x => d.key mlo ≤ x) ?_ k hk1 hk2
    intro k hk1 hk2
    rw [r1.key_outside (by omega) k (by omega)]
    exact h3 k hk1 hk2
  · intro k hk1 hk2
    rw [r2.key_outside (by omega) k (by omega), r1.key_outside (by omega) k (by omega)]
    exact h4 k hk1 hk2
  · intro k hk1 hk2
    rw [r2.key_outside (by omega) k (by omega)]
    exact r1.forall_key (by omega) (fun x => x ≤ d.key mlo) h5 k hk1 hk2

/-- `quickSort(data, a, b, maxDepth)` rearranges `data[a:b]` into order,
whatever the value of `maxDepth`. -/
theorem go118_quickSort_spec :
    ∀ (fuel : Nat) (d : byModified) (a b maxDepth : Nat),
      a ≤ b → b ≤ d.length → b - a < fuel →
      Rearranged d (go118.sort.quickSort fuel d a b maxDepth) a b ∧
      SortedOn (go118.sort.quickSort fuel d a b maxDepth) a b := by
  intro fuel
  induction fuel with
  | zero => intro d a b maxDepth _ _ h; omega
  | succ fuel ih =>
    intro d a b maxDepth hab hb hfuel
    generalize hres : go118.sort.quickSort (fuel + 1) d a b maxDepth = res
    rw [go118.sort.quickSort] at hres
    by_cases h12 : b - a > 12
    · rw [if_pos h12] at hres
      by_cases hmax : maxDepth = 0
      · rw [if_pos hmax] at hres
        subst hres
        exact heapSort_spec d a b hab hb
      rw [if_neg hmax] at hres
      simp -iota only [] at hres
      obtain ⟨r1, m1, m2, m3, k1, k2, k3⟩ := go118_doPivot_spec d a b h12 hb
      split at hres
      rename_i x1 d1 mlo mhi heq1
      rw [heq1] at r1 m1 m2 m3 k1 k2 k3
      simp only [] at r1 m1 m2 m3 k1 k2 k3
      clear heq1
      have hb1 : b ≤ d1.length := by rw [r1.length]; exact hb
      by_cases hlr : mlo - a < b - mhi
      · rw [if_pos hlr] at hres
        obtain ⟨r2, s2⟩ := ih d1 a mlo (maxDepth - 1) m1 (by omega) (by omega)
        generalize go118.sort.quickSort fuel d1 a mlo (maxDepth - 1) = dl at r2 s2 hres
        obtain ⟨r3, s3⟩ := ih dl mhi b (maxDepth - 1) m3 (by rw [r2.length]; exact hb1)
          (by omega)
        rw [hres] at r3 s3
        obtain ⟨r4, s4⟩ := pivot_join_left m1 m2 m3 hb1 k1 k2 k3 r2 s2 r3 s3
        exact ⟨r1.trans r4, s4⟩
      · rw [if_neg hlr] at hres
        obtain ⟨r2, s2⟩ := ih d1 mhi b (maxDepth - 1) m3 hb1 (by omega)
        generalize go118.sort.quickSort fuel d1 mhi b (maxDepth - 1) = dr at r2 s2 hres
        obtain ⟨r3, s3⟩ := ih dr a mlo (maxDepth - 1) m1 (by rw [r2.length]; omega)
          (by omega)
        rw [hres] at r3 s3
        obtain ⟨r4, s4⟩ := pivot_join_right m1 m2 m3 hb1 k1 k2 k3 r2 s2 r3 s3
        exact ⟨r1.trans r4, s4⟩
    · rw [if_neg h12] at hres
      by_cases h1 : b - a > 1
      · rw [if_pos h1] at hres
        subst hres
        have r1 := go118_shellPass_spec a b (b - (a + 6)) (a + 6) d (Nat.le_refl _)
        obtain ⟨r2, s2⟩ := insertionSort_spec
          (go118.sort.quickSort.shellPass b (b - (a + 6)) (a + 6) d) a b
          (by rw [r1.length]; exact hb)
        exact ⟨r1.trans r2, s2⟩
      · rw [if_neg h1] at hres
        subst hres
        refine ⟨Rearranged.refl _ _ _, ?_⟩
        intro i j hi hij hj
        omega

/-! ### The contract of `sort.Sort` -/

/-- What the contract gives for the list of entries: a rearrangement in which
no entry has a greater `Mtime` than an entry before it. -/
theorem SortContract_perm_sorted {sortSort : byModified → byModified}
    (h : SortContract sortSort) (dirs : byModified) :
    (sortSort dirs).Perm dirs ∧ (sortSort dirs).Pairwise fun a b => ¬ b.Mtime > a.Mtime := by
  obtain ⟨hre, hso⟩ := h dirs
  refine ⟨hre.perm (Nat.le_refl _), ?_⟩
  rw [List.pairwise_iff_getElem]
  intro i j hi hj hij
  have hlen : (sortSort dirs).length = dirs.length := hre.length
  have := hso i j (Nat.zero_le _) hij (by simpa [byModified.Len, hlen] using hj)
  rw [Less_false_iff] at this
  simp only [byModified.key, List.getD_eq_getElem _ _ hi, List.getD_eq_getElem _ _ hj] at this
  omega

/-- Go 1.19's `sort.Sort` meets the contract of `sort.Sort`: it reaches its
result by calls of `Swap`, and the result is in order as determined by `Less`. -/
theorem go119_Sort_contract : SortContract go119.sort.Sort := by
  intro dirs
  unfold go119.sort.Sort
  simp only []
  by_cases h1 : dirs.Len ≤ 1
  · rw [if_pos h1]
    refine ⟨Rearranged.refl _ _ _, ?_⟩
    intro i j hi hij hj
    omega
  · rw [if_neg h1]
    exact go119_pdqsort_spec (dirs.Len + 1) dirs 0 dirs.Len _ true true (Nat.zero_le _)
      (Nat.le_refl _) (by omega) (fun h => by omega)

/-- Go 1.18's `sort.Sort` meets the contract of `sort.Sort`: it reaches its
result by calls of `Swap`, and the result is in order as determined by `Less`. -/
theorem go118_Sort_contract : SortContract go118.sort.Sort := by
  intro dirs
  unfold go118.sort.Sort
  exact go118_quickSort_spec (dirs.Len + 1) dirs 0 dirs.Len _ (Nat.zero_le _) (Nat.le_refl _)
    (by omega)

/-! ### `printTimeline` -/

theorem fmt_Sprintf_separator (name : String) :
    fmt.Sprintf "--- %s\n" [name] = "--- " ++ name ++ "\n" := by
  apply String.ext
  simp [fmt.Sprintf, fmt.doPrintf, fmt.isFlag, fmt.printArg, String.data_append]

/-- The loop over entries that can all be opened and read: it returns nil,
having written separator and text for each entry in turn. -/
theorem printTimeline_loop_ok (fsys : Clnt) (timeline : String) (l : List Dir) :
    ∀ r : Rendering, (∀ d ∈ l, fsys.entryOk timeline d) →
      printTimeline.loop fsys timeline l r =
        .ret none { out := r.out ++ l.flatMap (emittedFor fsys timeline),
                    ops := r.ops ++ l.flatMap (requestsFor timeline) } := by
  induction l with
  | nil => intro r _; simp [printTimeline.loop]
  | cons d l ih =>
    intro r h
    have hd := h d (List.mem_cons_self _ _)
    have hl : ∀ e ∈ l, fsys.entryOk timeline e := fun e he => h e (List.mem_cons_of_mem _ he)
    obtain ⟨hopen, hread⟩ := hd
    have hread' : ¬ ((fsys.read (path.Join [timeline, d.Name]) 4096).2 ≠ none ∧
        (fsys.read (path.Join [timeline, d.Name]) 4096).2 ≠ some io.EOF) := by
      rcases hread with h1 | h1 <;> simp [h1]
    unfold printTimeline.loop
    simp only [Clnt.FOpen, hopen, ne_eq, not_true_eq_false, if_false, hread', File.Close,
      Outcome.bind]
    rw [ih _ hl]
    simp [emittedFor, requestsFor, fmt_Sprintf_separator, List.append_assoc]

/-- The whole render when the directory can be opened and listed and every
entry, in the order `sort.Sort` leaves, can be opened and read. -/
theorem printTimeline_ok (sortSort : byModified → byModified) (fsys : Clnt) (w : List String)
    (timeline : String) (hopen : fsys.openErr timeline p.OREAD = none)
    (hdir : (fsys.readdir timeline).2 = none ∨ (fsys.readdir timeline).2 = some io.EOF)
    (hentries : ∀ d ∈ sortSort (fsys.readdir timeline).1, fsys.entryOk timeline d) :
    printTimeline sortSort fsys w timeline =
      .ret none
        { out := w ++ (sortSort (fsys.readdir timeline).1).flatMap (emittedFor fsys timeline),
          ops := [.fopen timeline p.OREAD, .readdir timeline] ++
            (sortSort (fsys.readdir timeline).1).flatMap (requestsFor timeline) ++
            [.close timeline] } := by
  have hdir' : ¬ ((fsys.readdir timeline).2 ≠ none ∧ (fsys.readdir timeline).2 ≠ some io.EOF) := by
    rcases hdir with h1 | h1 <;> simp [h1]
  unfold printTimeline
  simp only [Clnt.FOpen, hopen, ne_eq, not_true_eq_false, if_false, hdir']
  rw [printTimeline_loop_ok fsys timeline _ _ hentries]
  simp [File.Close, Outcome.state]

theorem sorted_strict_of_distinct (l : List Dir)
    (hs : l.Pairwise fun a b => ¬ b.Mtime > a.Mtime)
    (hd : l.Pairwise fun a b => a.Mtime ≠ b.Mtime) :
    l.Pairwise fun a b => a.Mtime > b.Mtime := by
  refine (hs.and hd).imp ?_
  intro a b h
  obtain ⟨h1, h2⟩ := h
  omega

theorem distinct_of_perm {l l' : List Dir} (hp : l'.Perm l)
    (hd : l.Pairwise fun a b => a.Mtime ≠ b.Mtime) :
    l'.Pairwise fun a b => a.Mtime ≠ b.Mtime :=
  (hp.pairwise_iff (fun {a b} (h : a.Mtime ≠ b.Mtime) => Ne.symm h)).mpr hd

theorem newestFirst_perm (l : List Dir) : (newestFirst l).Perm l :=
  List.perm_insertionSort _ l

theorem newestFirst_sorted (l : List Dir) :
    (newestFirst l).Pairwise fun a b => ¬ b.Mtime > a.Mtime := by
  have h : (newestFirst l).Sorted (fun a b : Dir => a.Mtime ≥ b.Mtime) := by
    haveI : IsTotal Dir (fun a b : Dir => a.Mtime ≥ b.Mtime) := ⟨fun a b => Nat.le_total _ _⟩
    haveI : IsTrans Dir (fun a b : Dir => a.Mtime ≥ b.Mtime) :=
      ⟨fun a b c h1 h2 => Nat.le_trans h2 h1⟩
    exact List.sorted_insertionSort _ l
  refine List.Pairwise.imp ?_ h
  intro a b hab
  simp only [gt_iff_lt, not_lt]
  exact hab

/-- Two arrangements of the same entries in strictly decreasing `Mtime` order
are the same list. -/
theorem eq_of_perm_of_strict {l l' : List Dir} (hp : l.Perm l')
    (h : l.Pairwise fun a b => a.Mtime > b.Mtime)
    (h' : l'.Pairwise fun a b => a.Mtime > b.Mtime) : l = l' := by
  haveI : IsAntisymm Dir (fun a b : Dir => a.Mtime > b.Mtime) :=
    ⟨fun a b h1 h2 => absurd h1 (by omega)⟩
  exact List.eq_of_perm_of_sorted hp h h'

/-- C1: when the directory can be opened and listed, its entries have pairwise
distinct `Mtime` and each entry can be opened and read, `printTimeline` returns
nil and has written, for every entry exactly once, the separator line
`--- <name>` followed by the entry's text, the entries being taken in strictly
decreasing `Mtime` order: the emitted order is the rearrangement of the listing
sorted by `Mtime` descending.  `byModified.Less a b` holds exactly when entry
`a` has the greater `Mtime`. -/
theorem printTimeline_newest_first (sortSort : byModified → byModified)
    (hsort : SortContract sortSort) (fsys : Clnt) (w : List String) (timeline : String)
    (hopen : fsys.openErr timeline p.OREAD = none)
    (hdir : (fsys.readdir timeline).2 = none ∨ (fsys.readdir timeline).2 = some io.EOF)
    (hdistinct : (fsys.readdir timeline).1.Pairwise fun a b => a.Mtime ≠ b.Mtime)
    (hentries : ∀ d ∈ (fsys.readdir timeline).1, fsys.entryOk timeline d) :
    (∃ emitted : List Dir,
      emitted.Perm (fsys.readdir timeline).1 ∧
      emitted.Pairwise (fun a b => a.Mtime > b.Mtime) ∧
      emitted = newestFirst (fsys.readdir timeline).1 ∧
      printTimeline sortSort fsys w timeline =
        .ret none
          { out := w ++ emitted.flatMap (emittedFor fsys timeline),
            ops := [.fopen timeline p.OREAD, .readdir timeline] ++
              emitted.flatMap (requestsFor timeline) ++ [.close timeline] }) ∧
    (∀ (dirs : byModified) (a b : Nat),
      dirs.Less a b = true ↔ (dirs.getD a default).Mtime > (dirs.getD b default).Mtime) := by
  obtain ⟨hperm, hsorted⟩ := SortContract_perm_sorted hsort (fsys.readdir timeline).1
  have hstrict := sorted_strict_of_distinct _ hsorted (distinct_of_perm hperm hdistinct)
  have hstrict' := sorted_strict_of_distinct _ (newestFirst_sorted (fsys.readdir timeline).1)
    (distinct_of_perm (newestFirst_perm _) hdistinct)
  refine ⟨⟨sortSort (fsys.readdir timeline).1, hperm, hstrict, ?_, ?_⟩, ?_⟩
  · exact eq_of_perm_of_strict (hperm.trans (newestFirst_perm _).symm) hstrict hstrict'
  · exact printTimeline_ok sortSort fsys w timeline hopen hdir
      (fun d hd => hentries d (hperm.subset hd))
  · intro dirs a b
    simp [byModified.Less]

/-- C1 on the directory `home` of the sample tree, listed as entries `1`, `2`,
`3` with `Mtime` 100, 300, 200, with the `sort.Sort` of Go 1.18 and with that
of Go 1.19: they are emitted in the order `2`, `3`, `1`. -/
theorem printTimeline_newest_first_witness :
    SortContract go118.sort.Sort ∧
    SortContract go119.sort.Sort ∧
    sampleTree.openErr "home" p.OREAD = none ∧
    (sampleTree.readdir "home").2 = some io.EOF ∧
    ((sampleTree.readdir "home").1.Pairwise fun a b => a.Mtime ≠ b.Mtime) ∧
    (∀ d ∈ (sampleTree.readdir "home").1, sampleTree.entryOk "home" d) ∧
    (printTimeline go118.sort.Sort sampleTree [] "home").state.out =
      ["--- 2\n", "tweet", "--- 3\n", "tweet", "--- 1\n", "tweet"] ∧
    (printTimeline go118.sort.Sort sampleTree [] "home").val? = some none ∧
    (printTimeline go119.sort.Sort sampleTree [] "home").state.out =
      ["--- 2\n", "tweet", "--- 3\n", "tweet", "--- 1\n", "tweet"] ∧
    (printTimeline go119.sort.Sort sampleTree [] "home").val? = some none := by
  have hopen : sampleTree.openErr "home" p.OREAD = none := by decide
  have hdir : (sampleTree.readdir "home").2 = some io.EOF := by decide
  have hdistinct : (sampleTree.readdir "home").1.Pairwise fun a b => a.Mtime ≠ b.Mtime := by
    decide
  have hentries : ∀ d ∈ (sampleTree.readdir "home").1, sampleTree.entryOk "home" d := by
    decide
  obtain ⟨⟨emitted, _, _, heq, hrun⟩, _⟩ := printTimeline_newest_first go118.sort.Sort
    go118_Sort_contract sampleTree [] "home" hopen (Or.inr hdir) hdistinct hentries
  obtain ⟨⟨emitted9, _, _, heq9, hrun9⟩, _⟩ := printTimeline_newest_first go119.sort.Sort
    go119_Sort_contract sampleTree [] "home" hopen (Or.inr hdir) hdistinct hentries
  refine ⟨go118_Sort_contract, go119_Sort_contract, hopen, hdir, hdistinct, hentries,
    ?_, ?_, ?_, ?_⟩
  · rw [hrun, heq]; decide
  · rw [hrun]; rfl
  · rw [hrun9, heq9]; decide
  · rw [hrun9]; rfl

/-! ### Entries with equal `Mtime` -/

/-- C9 fails on the directory `mentions` of the sample tree, with both
implementations of `sort.Sort`: entries `0` and `6` have the same `Mtime` and
are listed in this order, every open and read succeeds, and the separator of
entry `6` is written before that of entry `0`. -/
theorem printTimeline_not_stable :
    List.Sublist [({ Name := "0", Mtime := 5 } : Dir), { Name := "6", Mtime := 5 }]
      (sampleTree.readdir "mentions").1 ∧
    (∀ d ∈ (sampleTree.readdir "mentions").1, sampleTree.entryOk "mentions" d) ∧
    (printTimeline go118.sort.Sort sampleTree [] "mentions").val? = some none ∧
    emittedBefore (printTimeline go118.sort.Sort sampleTree [] "mentions").state.out
      { Name := "6", Mtime := 5 } { Name := "0", Mtime := 5 } ∧
    (printTimeline go119.sort.Sort sampleTree [] "mentions").val? = some none ∧
    emittedBefore (printTimeline go119.sort.Sort sampleTree [] "mentions").state.out
      { Name := "6", Mtime := 5 } { Name := "0", Mtime := 5 } := by
  refine ⟨by decide, by decide, by decide, by decide, by decide, by decide⟩

/-- The order in which the entries of `mentions` are emitted: by Go 1.18's
`sort.Sort` and by Go 1.19's. -/
theorem printTimeline_mentions_order :
    (go118.sort.Sort (sampleTree.readdir "mentions").1).map (fun d => d.Name) =
      ["12", "6", "2", "3", "4", "5", "1", "7", "8", "9", "10", "11", "0"] ∧
    (go119.sort.Sort (sampleTree.readdir "mentions").1).map (fun d => d.Name) =
      ["12", "6", "2", "3", "4", "5", "0", "7", "8", "9", "10", "11", "1"] := by
  refine ⟨by decide, by decide⟩

/-- C9 as amended: when the directory can be opened and listed and each entry
can be opened and read, `printTimeline` returns nil and has written separator
and text for every entry exactly once, in non-increasing `Mtime` order; entries
with equal `Mtime` are emitted in the order `sort.Sort` leaves them in, about
which its contract says nothing. -/
theorem printTimeline_ties (sortSort : byModified → byModified)
    (hsort : SortContract sortSort) (fsys : Clnt) (w : List String) (timeline : String)
    (hopen : fsys.openErr timeline p.OREAD = none)
    (hdir : (fsys.readdir timeline).2 = none ∨ (fsys.readdir timeline).2 = some io.EOF)
    (hentries : ∀ d ∈ (fsys.readdir timeline).1, fsys.entryOk timeline d) :
    (sortSort (fsys.readdir timeline).1).Perm (fsys.readdir timeline).1 ∧
    (sortSort (fsys.readdir timeline).1).Pairwise (fun a b => a.Mtime ≥ b.Mtime) ∧
    printTimeline sortSort fsys w timeline =
      .ret none
        { out := w ++ (sortSort (fsys.readdir timeline).1).flatMap (emittedFor fsys timeline),
          ops := [.fopen timeline p.OREAD, .readdir timeline] ++
            (sortSort (fsys.readdir timeline).1).flatMap (requestsFor timeline) ++
            [.close timeline] } := by
  obtain ⟨hperm, hsorted⟩ := SortContract_perm_sorted hsort (fsys.readdir timeline).1
  refine ⟨hperm, ?_, ?_⟩
  · refine hsorted.imp ?_
    intro a b h
    omega
  · exact printTimeline_ok sortSort fsys w timeline hopen hdir
      (fun d hd => hentries d (hperm.subset hd))

/-- C9 as amended, on the directory `mentions` of the sample tree, with the
`sort.Sort` of Go 1.18 and with that of Go 1.19: entry `12`, the newest, comes
first, and entry `6` comes next, before the entries with the same `Mtime` that
are listed before it. -/
theorem printTimeline_ties_witness :
    SortContract go118.sort.Sort ∧
    SortContract go119.sort.Sort ∧
    sampleTree.openErr "mentions" p.OREAD = none ∧
    (sampleTree.readdir "mentions").2 = none ∧
    (∀ d ∈ (sampleTree.readdir "mentions").1, sampleTree.entryOk "mentions" d) ∧
    ((printTimeline go118.sort.Sort sampleTree [] "mentions").state.out.take 4 =
      ["--- 12\n", "tweet", "--- 6\n", "tweet"]) ∧
    ((printTimeline go119.sort.Sort sampleTree [] "mentions").state.out.take 4 =
      ["--- 12\n", "tweet", "--- 6\n", "tweet"]) := by
  have hopen : sampleTree.openErr "mentions" p.OREAD = none := by decide
  have hdir : (sampleTree.readdir "mentions").2 = none := by decide
  have hentries : ∀ d ∈ (sampleTree.readdir "mentions").1, sampleTree.entryOk "mentions" d := by
    decide
  have h := (printTimeline_ties go118.sort.Sort go118_Sort_contract sampleTree [] "mentions"
    hopen (Or.inl hdir) hentries).2.2
  have h9 := (printTimeline_ties go119.sort.Sort go119_Sort_contract sampleTree [] "mentions"
    hopen (Or.inl hdir) hentries).2.2
  refine ⟨go118_Sort_contract, go119_Sort_contract, hopen, hdir, hentries, ?_, ?_⟩
  · rw [h]; decide
  · rw [h9]; decide

/-! ### Failures during a render -/

/-- The loop when the entries of `pre` can be opened and read and the next
entry cannot be opened: `tweet` is nil, `tweet.Close()` panics; what was written
for `pre` stays written and no entry after the failing one is requested. -/
theorem printTimeline_loop_open_fails (fsys : Clnt) (timeline : String) (pre : List Dir)
    (d : Dir) (post : List Dir) (e : error) :
    ∀ r : Rendering, (∀ c ∈ pre, fsys.entryOk timeline c) →
      fsys.openErr (path.Join [timeline, d.Name]) p.OREAD = some e →
      printTimeline.loop fsys timeline (pre ++ d :: post) r =
        .panic "invalid memory address or nil pointer dereference"
          { out := r.out ++ pre.flatMap (emittedFor fsys timeline),
            ops := r.ops ++ pre.flatMap (requestsFor timeline) ++
              [.fopen (path.Join [timeline, d.Name]) p.OREAD] } := by
  induction pre with
  | nil =>
    intro r _ hfail
    simp [printTimeline.loop, Clnt.FOpen, hfail, File.Close, Outcome.bind]
  | cons c pre ih =>
    intro r h hfail
    obtain ⟨hopen, hread⟩ := h c (List.mem_cons_self _ _)
    have hl : ∀ x ∈ pre, fsys.entryOk timeline x := fun x hx => h x (List.mem_cons_of_mem _ hx)
    have hread' : ¬ ((fsys.read (path.Join [timeline, c.Name]) 4096).2 ≠ none ∧
        (fsys.read (path.Join [timeline, c.Name]) 4096).2 ≠ some io.EOF) := by
      rcases hread with h1 | h1 <;> simp [h1]
    rw [List.cons_append]
    unfold printTimeline.loop
    simp only [Clnt.FOpen, hopen, ne_eq, not_true_eq_false, if_false, hread', File.Close,
      Outcome.bind]
    rw [ih _ hl hfail]
    simp [emittedFor, requestsFor, fmt_Sprintf_separator, List.append_assoc]

/-- The loop when the entries of `pre` can be opened and read and the next
entry can be opened but its read fails with an error other than `io.EOF`: the
error is returned with a stack; what was written for `pre` stays written and no
entry after the failing one is requested. -/
theorem printTimeline_loop_read_fails (fsys : Clnt) (timeline : String) (pre : List Dir)
    (d : Dir) (post : List Dir) (e : error) :
    ∀ r : Rendering, (∀ c ∈ pre, fsys.entryOk timeline c) →
      fsys.openErr (path.Join [timeline, d.Name]) p.OREAD = none →
      (fsys.read (path.Join [timeline, d.Name]) 4096).2 = some e → e ≠ io.EOF →
      printTimeline.loop fsys timeline (pre ++ d :: post) r =
        .ret (some { e with stack := true })
          { out := r.out ++ pre.flatMap (emittedFor fsys timeline),
            ops := r.ops ++ pre.flatMap (requestsFor timeline) ++ requestsFor timeline d } := by
  induction pre with
  | nil =>
    intro r _ hopen hfail hne
    simp [printTimeline.loop, Clnt.FOpen, hopen, hfail, hne, File.Close, Outcome.bind,
      errors.WithStack, requestsFor]
  | cons c pre ih =>
    intro r h hopen' hfail hne
    obtain ⟨hopen, hread⟩ := h c (List.mem_cons_self _ _)
    have hl : ∀ x ∈ pre, fsys.entryOk timeline x := fun x hx => h x (List.mem_cons_of_mem _ hx)
    have hread' : ¬ ((fsys.read (path.Join [timeline, c.Name]) 4096).2 ≠ none ∧
        (fsys.read (path.Join [timeline, c.Name]) 4096).2 ≠ some io.EOF) := by
      rcases hread with h1 | h1 <;> simp [h1]
    rw [List.cons_append]
    unfold printTimeline.loop
    simp only [Clnt.FOpen, hopen, ne_eq, not_true_eq_false, if_false, hread', File.Close,
      Outcome.bind]
    rw [ih _ hl hopen' hfail hne]
    simp [emittedFor, requestsFor, fmt_Sprintf_separator, List.append_assoc]

/-! ### `path.Join` -/

theorem path_elements_of_no_slash (cs : List Char) (h : '/' ∉ cs) : path.elements cs = [cs] := by
  induction cs with
  | nil => rfl
  | cons c cs ih =>
    have hc : c ≠ '/' := fun hc => h (by simp [hc])
    have hcs : '/' ∉ cs := fun hcs => h (List.mem_cons_of_mem _ hcs)
    simp [path.elements, ih hcs, hc]

/-- For a plain element `name`, `path.Join("users", name)` is `users/` followed
by `name`. -/
theorem path_Join_users (name : String) (h : plainElement name) :
    path.Join ["users", name] = "users/" ++ name := by
  obtain ⟨h0, hslash, hdot, hdotdot⟩ := h
  have hel : path.elements ('u' :: 's' :: 'e' :: 'r' :: 's' :: '/' :: name.data) =
      [['u', 's', 'e', 'r', 's'], name.data] := by
    simp [path.elements, path_elements_of_no_slash _ hslash]
  apply String.ext
  simp only [path.Join, List.dropWhile, List.map, List.intercalate, List.intersperse,
    List.flatten, path.Clean]
  simp [hel, path.cleanElements, h0, hdot, hdotdot, String.data_append]

/-- `path.Join("users", "..")` is `.`, and `path.Join("users", "")` is
`users`. -/
theorem path_Join_users_dotdot :
    path.Join ["users", ".."] = "." ∧ path.Join ["users", ""] = "users" ∧
    path.Join ["users", "a//b"] = "users/a/b" ∧ path.Join ["users", "alice"] = "users/alice" := by
  refine ⟨by decide, by decide, by decide, by decide⟩

/-! ### Failures of `printTimeline` -/

/-- When the directory cannot be opened, the error is returned with a stack and
nothing is written. -/
theorem printTimeline_open_fails (sortSort : byModified → byModified) (fsys : Clnt)
    (w : List String) (timeline : String) (e : error)
    (hopen : fsys.openErr timeline p.OREAD = some e) :
    printTimeline sortSort fsys w timeline =
      .ret (some { e with stack := true }) { out := w, ops := [.fopen timeline p.OREAD] } := by
  simp [printTimeline, Clnt.FOpen, hopen, errors.WithStack]

/-- When the directory cannot be listed, the error is returned with a stack,
nothing is written and the directory is closed. -/
theorem printTimeline_readdir_fails (sortSort : byModified → byModified) (fsys : Clnt)
    (w : List String) (timeline : String) (e : error)
    (hopen : fsys.openErr timeline p.OREAD = none)
    (hdir : (fsys.readdir timeline).2 = some e) (hne : e ≠ io.EOF) :
    printTimeline sortSort fsys w timeline =
      .ret (some { e with stack := true })
        { out := w, ops := [.fopen timeline p.OREAD, .readdir timeline, .close timeline] } := by
  simp [printTimeline, Clnt.FOpen, hopen, hdir, hne, errors.WithStack, File.Close, Outcome.state]

/-- When an entry cannot be read, the entries before it in sorted order having
been opened and read, the error is returned with a stack; the text of the
earlier entries stays written, no later entry is requested, the directory is
closed. -/
theorem printTimeline_read_fails (sortSort : byModified → byModified) (fsys : Clnt)
    (w : List String) (timeline : String) (pre : List Dir) (d : Dir) (post : List Dir)
    (e : error) (hopen : fsys.openErr timeline p.OREAD = none)
    (hdir : (fsys.readdir timeline).2 = none ∨ (fsys.readdir timeline).2 = some io.EOF)
    (hsorted : sortSort (fsys.readdir timeline).1 = pre ++ d :: post)
    (hpre : ∀ c ∈ pre, fsys.entryOk timeline c)
    (hd : fsys.openErr (path.Join [timeline, d.Name]) p.OREAD = none)
    (hread : (fsys.read (path.Join [timeline, d.Name]) 4096).2 = some e) (hne : e ≠ io.EOF) :
    printTimeline sortSort fsys w timeline =
      .ret (some { e with stack := true })
        { out := w ++ pre.flatMap (emittedFor fsys timeline),
          ops := [.fopen timeline p.OREAD, .readdir timeline] ++
            pre.flatMap (requestsFor timeline) ++ requestsFor timeline d ++
            [.close timeline] } := by
  have hdir' : ¬ ((fsys.readdir timeline).2 ≠ none ∧ (fsys.readdir timeline).2 ≠ some io.EOF) := by
    rcases hdir with h1 | h1 <;> simp [h1]
  unfold printTimeline
  simp only [Clnt.FOpen, hopen, ne_eq, not_true_eq_false, if_false, hdir', hsorted]
  rw [printTimeline_loop_read_fails fsys timeline pre d post e _ hpre hd hread hne]
  simp [File.Close, Outcome.state]

/-- When an entry cannot be opened, the entries before it in sorted order
having been opened and read, `printTimeline` panics: it returns no error. -/
theorem printTimeline_entry_open_fails (sortSort : byModified → byModified) (fsys : Clnt)
    (w : List String) (timeline : String) (pre : List Dir) (d : Dir) (post : List Dir)
    (e : error) (hopen : fsys.openErr timeline p.OREAD = none)
    (hdir : (fsys.readdir timeline).2 = none ∨ (fsys.readdir timeline).2 = some io.EOF)
    (hsorted : sortSort (fsys.readdir timeline).1 = pre ++ d :: post)
    (hpre : ∀ c ∈ pre, fsys.entryOk timeline c)
    (hd : fsys.openErr (path.Join [timeline, d.Name]) p.OREAD = some e) :
    printTimeline sortSort fsys w timeline =
      .panic "invalid memory address or nil pointer dereference"
        { out := w ++ pre.flatMap (emittedFor fsys timeline),
          ops := [.fopen timeline p.OREAD, .readdir timeline] ++
            pre.flatMap (requestsFor timeline) ++
            [.fopen (path.Join [timeline, d.Name]) p.OREAD, .close timeline] } := by
  have hdir' : ¬ ((fsys.readdir timeline).2 ≠ none ∧ (fsys.readdir timeline).2 ≠ some io.EOF) := by
    rcases hdir with h1 | h1 <;> simp [h1]
  unfold printTimeline
  simp only [Clnt.FOpen, hopen, ne_eq, not_true_eq_false, if_false, hdir', hsorted]
  rw [printTimeline_loop_open_fails fsys timeline pre d post e _ hpre hd]
  simp [File.Close, Outcome.state]

/-- C7 fails on the directory `home` of the broken tree, where entry `3`, the
second in sorted order, cannot be opened: with either implementation of
`sort.Sort`, `printTimeline` panics on the nil file instead of returning the
error of the open. -/
theorem printTimeline_panics :
    brokenTree.openErr "home" p.OREAD = none ∧
    (brokenTree.readdir "home").1.map (fun d => d.Name) = ["1", "2", "3"] ∧
    brokenTree.openErr (path.Join ["home", "3"]) p.OREAD = some { msg := "permission denied" } ∧
    (printTimeline go118.sort.Sort brokenTree [] "home").panicked = true ∧
    (printTimeline go118.sort.Sort brokenTree [] "home").val? = none ∧
    (printTimeline go119.sort.Sort brokenTree [] "home").panicked = true ∧
    (printTimeline go119.sort.Sort brokenTree [] "home").val? = none := by
  refine ⟨by decide, by decide, by decide, by decide, by decide, by decide, by decide⟩

/-! ### `load` -/

/-- `load` in terms of the outcome of the render: a panic goes through; after a
return the body is cleared, the error text or the rendered text is written, the
window is marked clean only in the second case, and `dot=addr` and `show` are
sent. -/
theorem load_eq (sortSort : byModified → byModified) (w : window) (s : World)
    (timeline : String)
    (hmode : (w.mode = .modeHome ∧ timeline = "home") ∨
      (w.mode = .modeMentions ∧ timeline = "mentions") ∨
      (w.mode = .modeUserTimeline ∧ timeline = path.Join ["users", w.screenName])) :
    w.load sortSort s =
      match printTimeline sortSort s.fsys [] timeline with
      | .panic m r => .panic m (s.log r.ops)
      | .exit c r => .exit c (s.log r.ops)
      | .ret (some e) r =>
        .ret { w with Win := ((w.Win.Clear.Write "body" e.Error).Ctl "dot=addr").Ctl "show" }
          ((s.log r.ops).put
            { w with Win := ((w.Win.Clear.Write "body" e.Error).Ctl "dot=addr").Ctl "show" })
      | .ret none r =>
        .ret { w with Win := (((w.Win.Clear.Write "body" (String.join r.out)).Ctl
            "clean").Ctl "dot=addr").Ctl "show" }
          ((s.log r.ops).put
            { w with Win := (((w.Win.Clear.Write "body" (String.join r.out)).Ctl
              "clean").Ctl "dot=addr").Ctl "show" }) := by
  unfold window.load
  rcases hmode with ⟨hm, ht⟩ | ⟨hm, ht⟩ | ⟨hm, ht⟩ <;> subst ht <;> simp only [hm] <;>
    (split <;> rename_i heq <;> simp only [heq]
     rename_i err _
     cases err <;> rfl)

theorem String_empty_append (x : String) : "" ++ x = x := by
  apply String.ext
  simp [String.data_append]

/-- The window after a render that returned the error `e`. -/
theorem loaded_error (aw : Win) (e : error) :
    (((aw.Clear.Write "body" e.Error).Ctl "dot=addr").Ctl "show").body = e.msg ∧
    (((aw.Clear.Write "body" e.Error).Ctl "dot=addr").Ctl "show").ctl =
      aw.ctl ++ ["dot=addr", "show"] ∧
    (((aw.Clear.Write "body" e.Error).Ctl "dot=addr").Ctl "show").dot = (0, 0) := by
  simp [Win.Clear, Win.Write, Win.Ctl, error.Error, String_empty_append]

/-- The window after a render that returned nil, having written `out`. -/
theorem loaded_ok (aw : Win) (out : List String) :
    ((((aw.Clear.Write "body" (String.join out)).Ctl "clean").Ctl "dot=addr").Ctl "show").body =
      String.join out ∧
    ((((aw.Clear.Write "body" (String.join out)).Ctl "clean").Ctl "dot=addr").Ctl "show").ctl =
      aw.ctl ++ ["clean", "dot=addr", "show"] ∧
    ((((aw.Clear.Write "body" (String.join out)).Ctl "clean").Ctl "dot=addr").Ctl "show").dot =
      (0, 0) := by
  simp [Win.Clear, Win.Write, Win.Ctl, String_empty_append]

/-- C8 as amended: in mode Home, Mentions or UserTimeline, `load` renders
`home`, `mentions` or `path.Join("users", screenName)`, which is `users/`
followed by `screenName` when that is one plain path element.  When the render
returns an error, the window is left with exactly the error's text as body and
has received `dot=addr` and `show` but not `clean`; when the render returns
nil, the window is left with exactly the rendered text as body and has
received `clean`, then `dot=addr` and `show`.  In both cases the selection is
at the start and the window is stored at its address. -/
theorem load_two_states (sortSort : byModified → byModified) (w : window) (s : World)
    (hmode : w.mode = .modeHome ∨ w.mode = .modeMentions ∨ w.mode = .modeUserTimeline) :
    ∃ timeline : String,
      ((w.mode = .modeHome ∧ timeline = "home") ∨
        (w.mode = .modeMentions ∧ timeline = "mentions") ∨
        (w.mode = .modeUserTimeline ∧ timeline = path.Join ["users", w.screenName])) ∧
      (w.mode = .modeUserTimeline → plainElement w.screenName →
        timeline = "users/" ++ w.screenName) ∧
      (∀ e r, printTimeline sortSort s.fsys [] timeline = .ret (some e) r →
        ∃ w', w.load sortSort s = .ret w' ((s.log r.ops).put w') ∧
          w'.addr = w.addr ∧ w'.mode = w.mode ∧
          w'.Win.body = e.Error ∧
          w'.Win.ctl = w.Win.ctl ++ ["dot=addr", "show"] ∧
          w'.Win.dot = (0, 0)) ∧
      (∀ r, printTimeline sortSort s.fsys [] timeline = .ret none r →
        ∃ w', w.load sortSort s = .ret w' ((s.log r.ops).put w') ∧
          w'.addr = w.addr ∧ w'.mode = w.mode ∧
          w'.Win.body = String.join r.out ∧
          w'.Win.ctl = w.Win.ctl ++ ["clean", "dot=addr", "show"] ∧
          w'.Win.dot = (0, 0)) := by
  have hex : ∃ timeline : String,
      (w.mode = .modeHome ∧ timeline = "home") ∨
        (w.mode = .modeMentions ∧ timeline = "mentions") ∨
        (w.mode = .modeUserTimeline ∧ timeline = path.Join ["users", w.screenName]) := by
    rcases hmode with h | h | h
    · exact ⟨"home", Or.inl ⟨h, rfl⟩⟩
    · exact ⟨"mentions", Or.inr (Or.inl ⟨h, rfl⟩)⟩
    · exact ⟨_, Or.inr (Or.inr ⟨h, rfl⟩)⟩
  obtain ⟨timeline, ht⟩ := hex
  refine ⟨timeline, ht, ?_, ?_, ?_⟩
  · intro hu hplain
    rcases ht with ⟨h, _⟩ | ⟨h, _⟩ | ⟨_, h⟩
    · rw [hu] at h; cases h
    · rw [hu] at h; cases h
    · rw [h]; exact path_Join_users _ hplain
  · intro e r hr
    refine ⟨{ w with Win := ((w.Win.Clear.Write "body" e.Error).Ctl "dot=addr").Ctl "show" },
      ?_, rfl, rfl, ?_⟩
    · rw [load_eq sortSort w s timeline ht, hr]
    · exact loaded_error w.Win e
  · intro r hr
    refine ⟨{ w with Win := (((w.Win.Clear.Write "body" (String.join r.out)).Ctl
      "clean").Ctl "dot=addr").Ctl "show" }, ?_, rfl, rfl, ?_⟩
    · rw [load_eq sortSort w s timeline ht, hr]
    · exact loaded_ok w.Win r.out

/-- C8 as amended, at the home window on the sample tree: the body is the
rendered text and the window is marked clean. -/
theorem load_two_states_witness :
    (homeWindow.mode = .modeHome ∨ homeWindow.mode = .modeMentions ∨
      homeWindow.mode = .modeUserTimeline) ∧
    ((homeWindow.load go119.sort.Sort sampleWorld).val?.map fun w' => (w'.Win.body, w'.Win.ctl)) =
      some ("--- 2\ntweet--- 3\ntweet--- 1\ntweet", ["clean", "dot=addr", "show"]) := by
  obtain ⟨timeline, ht, _, _, hok⟩ :=
    load_two_states go119.sort.Sort homeWindow sampleWorld (Or.inl rfl)
  refine ⟨Or.inl rfl, ?_⟩
  have htl : timeline = "home" := by
    rcases ht with ⟨_, h⟩ | ⟨h, _⟩ | ⟨h, _⟩
    · exact h
    · exact absurd h (by decide)
    · exact absurd h (by decide)
  subst htl
  have hrun : printTimeline go119.sort.Sort sampleWorld.fsys [] "home" =
      .ret none
        { out := ["--- 2\n", "tweet", "--- 3\n", "tweet", "--- 1\n", "tweet"],
          ops := (printTimeline go119.sort.Sort sampleWorld.fsys [] "home").state.ops } := by
    decide
  obtain ⟨w', hload, _, _, hbody, hctl, _⟩ := hok _ hrun
  rw [hload]
  simp only [Outcome.val?, Option.map_some', hbody, hctl]
  decide

/-- C8 fails for the UserTimeline window whose `screenName` is `alice/`:
`load` renders the path `users/alice`, not `users/alice/`; and for the window
whose `screenName` is `..` it renders the path `.`, not `users/..`. -/
theorem load_cleaned_path :
    slashWindow.mode = .modeUserTimeline ∧
    "users/" ++ slashWindow.screenName = "users/alice/" ∧
    (slashWindow.load go119.sort.Sort sampleWorld).state.ops =
      [.fopen "users/alice" p.OREAD, .readdir "users/alice", .close "users/alice"] ∧
    (slashWindow.load go118.sort.Sort sampleWorld).state.ops =
      [.fopen "users/alice" p.OREAD, .readdir "users/alice", .close "users/alice"] ∧
    dotdotWindow.mode = .modeUserTimeline ∧
    "users/" ++ dotdotWindow.screenName = "users/.." ∧
    (dotdotWindow.load go119.sort.Sort sampleWorld).state.ops =
      [.fopen "." p.OREAD, .readdir ".", .close "."] ∧
    (dotdotWindow.load go118.sort.Sort sampleWorld).state.ops =
      [.fopen "." p.OREAD, .readdir ".", .close "."] := by
  refine ⟨by decide, by decide, by decide, by decide, by decide, by decide, by decide,
    by decide⟩

/-! ### `Newer`, `Older`, `Trim` and `Get` -/

/-- What holds of `Newer`, `Older` and `Trim` in mode Home, Mentions or
UserTimeline: `fsysCommand` is called once with the command for the window's
scope, its error is discarded, then the window is loaded, and `true` is
returned if `load` returns.  `Get` only loads. -/
theorem Execute_paginate (sortSort : byModified → byModified) (w : window) (s : World)
    (scope : String)
    (hscope : (w.mode = .modeHome ∧ scope = "home") ∨
      (w.mode = .modeMentions ∧ scope = "mentions") ∨
      (w.mode = .modeUserTimeline ∧ scope = "@" ++ w.screenName))
    (command text : String)
    (hcommand : (command = "Newer" ∧ text = "newer " ++ scope) ∨
      (command = "Older" ∧ text = "older " ++ scope) ∨
      (command = "Trim" ∧ text = "trim " ++ scope ++ " 10")) :
    (∃ format a, fmt.Sprintf format a = text ∧
      w.Execute sortSort command s =
        (fsysCommand format a s).bind fun _ s' =>
          (w.load sortSort s').bind fun _ s'' => .ret true s'') ∧
    w.Execute sortSort "Get" s = (w.load sortSort s).bind fun _ s'' => .ret true s'' := by
  constructor
  · rcases hscope with ⟨hm, hs⟩ | ⟨hm, hs⟩ | ⟨hm, hs⟩ <;>
      rcases hcommand with ⟨hc, ht⟩ | ⟨hc, ht⟩ | ⟨hc, ht⟩ <;> subst hs <;> subst hc <;> subst ht
    · exact ⟨"newer home", [], by decide, by simp [window.Execute, hm]⟩
    · exact ⟨"older home", [], by decide, by simp [window.Execute, hm]⟩
    · exact ⟨"trim home 10", [], by decide, by simp [window.Execute, hm]⟩
    · exact ⟨"newer mentions", [], by decide, by simp [window.Execute, hm]⟩
    · exact ⟨"older mentions", [], by decide, by simp [window.Execute, hm]⟩
    · exact ⟨"trim mentions 10", [], by decide, by simp [window.Execute, hm]⟩
    · refine ⟨"newer @%s", [w.screenName], ?_, by simp [window.Execute, hm]⟩
      apply String.ext; simp [fmt.Sprintf, fmt.doPrintf, fmt.isFlag, fmt.printArg, String.data_append]
    · refine ⟨"older @%s", [w.screenName], ?_, by simp [window.Execute, hm]⟩
      apply String.ext; simp [fmt.Sprintf, fmt.doPrintf, fmt.isFlag, fmt.printArg, String.data_append]
    · refine ⟨"trim @%s 10", [w.screenName], ?_, by simp [window.Execute, hm]⟩
      apply String.ext; simp [fmt.Sprintf, fmt.doPrintf, fmt.isFlag, fmt.printArg, String.data_append]
  · rcases hscope with ⟨hm, _⟩ | ⟨hm, _⟩ | ⟨hm, _⟩ <;> simp [window.Execute, hm]

/-- C4 fails for the home window on the broken tree, where entry `3` of `home`
cannot be opened: `Execute("Newer")` writes `newer home`, and the refresh
panics in `printTimeline`, so that nothing is reported as handled.  The same
happens for `Older`, `Trim` and `Get`. -/
theorem Execute_Newer_panics :
    homeWindow.mode = .modeHome ∧
    (homeWindow.Execute go119.sort.Sort "Newer" brokenWorld).state.written = ["newer home"] ∧
    (homeWindow.Execute go119.sort.Sort "Newer" brokenWorld).panicked = true ∧
    (homeWindow.Execute go119.sort.Sort "Newer" brokenWorld).val? = none ∧
    (homeWindow.Execute go118.sort.Sort "Newer" brokenWorld).panicked = true ∧
    (homeWindow.Execute go119.sort.Sort "Older" brokenWorld).panicked = true ∧
    (homeWindow.Execute go119.sort.Sort "Trim" brokenWorld).panicked = true ∧
    (homeWindow.Execute go119.sort.Sort "Get" brokenWorld).panicked = true := by
  refine ⟨by decide, by decide, by decide, by decide, by decide, by decide, by decide,
    by decide⟩

/-! ### Creation of windows -/

/-- `Win.Name` with a plain name: the editor accepts the name as it is
written. -/
theorem Win_Name_plain (aw : Win) (lines : Win → String → Win × Bool) (name : String)
    (hne : name.data ≠ []) (hplain : plainName name) :
    aw.Name lines name [] =
      ({ aw with name := name, ctl := aw.ctl ++ ["name " ++ name] }, none) := by
  have hfmt : fmt.Sprintf name [] = name :=
    fmt_Sprintf_plain name (fun h => (hplain _ h).1 rfl)
  have hnl : '\n' ∉ name.data := by
    intro h
    exact absurd (hplain _ h).2 (by decide)
  have hany : name.data.any (fun c => decide (c ≤ ' ')) = false := by
    rw [List.any_eq_false]
    intro c hc
    have := (hplain c hc).2
    simp only [decide_eq_true_eq, not_le]
    exact this
  unfold Win.Name
  simp only [hfmt, hnl, hne, hany, if_false, Bool.false_eq_true]

/-- `Win.Name` keeps the identity, the error prefix and the control messages
sent before, and adds the message `name <name>`. -/
theorem Win_Name_fields (aw : Win) (lines : Win → String → Win × Bool) (format : String)
    (args : List String) :
    (aw.Name lines format args).1.id = aw.id ∧
    (aw.Name lines format args).1.errorPfx = aw.errorPfx ∧
    (aw.Name lines format args).1.ctl = aw.ctl ++ ["name " ++ fmt.Sprintf format args] := by
  unfold Win.Name
  simp only []
  split_ifs <;> exact ⟨rfl, rfl, rfl⟩

/-- A title made of a plain prefix and a plain name is plain. -/
theorem plainName_append (a b : String) (ha : plainName a) (hb : plainName b) :
    plainName (a ++ b) := by
  intro c hc
  rw [String.data_append, List.mem_append] at hc
  rcases hc with h | h
  · exact ha c h
  · exact hb c h

/-- Decimal digits make a plain name. -/
theorem decimalDigits_plain (text : String) (h : decimalDigits.MatchString text = true) :
    plainName text := by
  intro c hc
  simp only [decimalDigits.MatchString, Bool.and_eq_true, List.all_eq_true,
    decide_eq_true_eq] at h
  have hd := h.2 c hc
  constructor
  · intro he
    subst he
    exact absurd hd (by decide)
  · have h0 : ('0' : Char).toNat = 48 := by decide
    have hlt : (' ' : Char).toNat < c.toNat := by
      have hs : (' ' : Char).toNat = 32 := by decide
      omega
    exact hlt

/-- The window of a plain title. -/
theorem made_plain (s : World) (title : String) (hne : title.data ≠ [])
    (hplain : plainName title) : s.made title = s.fresh title := by
  simp [World.made, World.fresh, Win.SetErrorPrefix, Win_Name_plain _ _ title hne hplain]

/-- `newWindow` from a state whose registry has been made, when the editor
creates the window at the first or the second attempt. -/
theorem newWindow_made (title : String) (s : World) (hm : s.all_m ≠ none)
    (hcan : s.createFails = false) :
    ∃ nf sl, newWindow title s =
      .ret (s.made title)
        { s with newFails := nf, slept := sl, next := s.next + 2,
                 windows := s.windows ++ [s.made title],
                 all_m := GoMap.set s.all_m s.next (s.next + 1) } := by
  unfold World.createFails at hcan
  unfold newWindow
  simp only [hm, if_false]
  rcases hnf : s.newFails with _ | ⟨b, rest⟩
  · exact ⟨[], s.slept, by
      simp [acme.New, hnf, Outcome.bind, World.made, Win.SetErrorPrefix,
        (Win_Name_fields _ _ _ _).1]⟩
  · cases b with
    | false => exact ⟨rest, s.slept, by
        simp [acme.New, hnf, Outcome.bind, World.made, Win.SetErrorPrefix,
        (Win_Name_fields _ _ _ _).1]⟩
    | true =>
      rcases rest with _ | ⟨b', rest'⟩
      · exact ⟨[], s.slept + 10, by
          simp [acme.New, hnf, Outcome.bind, World.made, Win.SetErrorPrefix,
        (Win_Name_fields _ _ _ _).1]⟩
      · cases b' with
        | false => exact ⟨rest', s.slept + 10, by
            simp [acme.New, hnf, Outcome.bind, World.made, Win.SetErrorPrefix,
        (Win_Name_fields _ _ _ _).1]⟩
        | true => simp [hnf] at hcan

theorem newWindow_unmade (title : String) (s : World) (hm : s.all_m = none) :
    newWindow title s = newWindow title { s with all_m := some ∅ } := by
  simp [newWindow, hm]

/-- `newWindow` when the editor creates the window at the first or the second
attempt: it returns the new window, appended to the windows and registered;
nothing is sent to the remote tree and no goroutine is started. -/
theorem newWindow_ok (title : String) (s : World) (hcan : s.createFails = false) :
    ∃ s', newWindow title s = .ret (s.made title) s' ∧
      s'.windows = s.windows ++ [s.made title] ∧
      s'.all_m.get s.next = some (s.next + 1) ∧
      s'.goroutines = s.goroutines ∧ s'.ops = s.ops ∧ s'.written = s.written ∧
      s'.next = s.next + 2 ∧ s'.remote = s.remote ∧ s'.caseRanges = s.caseRanges := by
  by_cases hm : s.all_m = none
  · obtain ⟨nf, sl, h⟩ := newWindow_made title { s with all_m := some ∅ } (by simp)
      (by simpa [World.createFails] using hcan)
    rw [newWindow_unmade title s hm, h]
    refine ⟨_, rfl, rfl, ?_, rfl, rfl, rfl, rfl, rfl, rfl⟩
    simp only [GoMap.set, GoMap.get]
    exact AList.lookup_insert _
  · obtain ⟨nf, sl, h⟩ := newWindow_made title s hm hcan
    rw [h]
    refine ⟨_, rfl, rfl, ?_, rfl, rfl, rfl, rfl, rfl, rfl⟩
    obtain ⟨m, hm'⟩ := Option.ne_none_iff_exists'.mp hm
    simp only [hm', GoMap.set, GoMap.get]
    exact AList.lookup_insert _

theorem put_windows_length (s : World) (w : window) :
    (s.put w).windows.length = s.windows.length := by
  simp [World.put]

theorem put_fresh_of_wellFormed (s : World) (w : window) (h : s.wellFormed)
    (hw : w.addr = s.next + 1) :
    s.windows.map (fun v => if v.addr = w.addr then w else v) = s.windows := by
  conv_rhs => rw [← List.map_id s.windows]
  apply List.map_congr_left
  intro v hv
  have := h v hv
  have hne : v.addr ≠ w.addr := by omega
  simp [hne]

theorem decimalDigits_ne_empty (text : String) (h : decimalDigits.MatchString text = true) :
    text ≠ "" := by
  intro he
  subst he
  simp [decimalDigits.MatchString] at h

/-- `newUpdateWindow` for a reply when no live window has the title and the
editor creates the window: exactly one window is created, the Compose window
for the reply; it is registered and its event loop is started. -/
theorem newUpdateWindow_creates (inReply : String) (s : World) (hre : inReply ≠ "")
    (hplain : plainName inReply)
    (hnone : s.named ("/twitter/reply/" ++ inReply) = none) (hcan : s.createFails = false) :
    ∃ s', newUpdateWindow inReply s = .ret () s' ∧
      s.opened s' = [s.freshReply inReply] ∧
      (s.wellFormed → s'.windows = s.windows ++ [s.freshReply inReply]) ∧
      s'.all_m.get s.next = some (s.next + 1) ∧
      s'.goroutines = s.goroutines ++ [.loop (s.next + 1)] ∧
      s'.ops = s.ops ∧ s'.written = s.written := by
  obtain ⟨s0, hnew, hwin, hreg, hgo, hops, hwr, _, _, _⟩ :=
    newWindow_ok ("/twitter/reply/" ++ inReply) s hcan
  rw [made_plain s _ (by simp [String.data_append])
    (plainName_append _ _ (by decide) hplain)] at hnew hwin
  have hshow : acme.Show ("/twitter/reply/" ++ inReply) s = (none, s) := by
    simp [acme.Show, hnone]
  have hw : ({ { s.fresh ("/twitter/reply/" ++ inReply) with mode := .modeUpdate } with
      inReply := inReply } : window).resetTag = s.freshReply inReply := by
    simp [window.resetTag, World.fresh, World.freshReply, Win.Ctl, Win.Fprintf, Win.Write,
      fmt_Sprintf_tag_post, String_empty_append]
  refine ⟨((s0.put (s.freshReply inReply)).go (.loop (s.next + 1))), ?_, ?_, ?_, ?_, ?_, ?_, ?_⟩
  · unfold newUpdateWindow
    simp only [hre, if_false, hshow, hnew, Outcome.bind, hw]
    rfl
  · simp [World.opened, World.go, World.put, hwin, World.freshReply, World.fresh]
  · intro hwf
    simp only [World.go, World.put, hwin, List.map_append, List.map_cons, List.map_nil]
    rw [put_fresh_of_wellFormed s _ hwf rfl]
    simp [World.freshReply, World.fresh]
  · simpa [World.go, World.put] using hreg
  · simp [World.go, World.put, hgo]
  · simpa [World.go, World.put] using hops
  · simpa [World.go, World.put] using hwr

/-! ### `Reply` -/

/-- C5 fails when a Compose window for the same entry is already open: with
`7` selected in the home window and the window `/twitter/reply/7` open,
`Execute("Reply")` reports handled and opens no window; the existing window is
shown instead. -/
theorem Execute_Reply_existing :
    homeWindow.mode = .modeHome ∧
    (homeWindow.Win.Selection).1 = "7" ∧
    decimalDigits.MatchString "7" = true ∧
    (homeWindow.Execute go119.sort.Sort "Reply" replyingWorld).val? = some true ∧
    replyingWorld.opened (homeWindow.Execute go119.sort.Sort "Reply" replyingWorld).state = [] ∧
    (homeWindow.Execute go119.sort.Sort "Reply" replyingWorld).state.windows.map
        (fun v => (v.Win.name, v.Win.ctl)) =
      [("/twitter/home", ["addr=dot"]), ("/twitter/reply/7", ["show"])] := by
  refine ⟨by decide, by decide, by decide, by decide, by decide, by decide⟩

/-- C5 as amended: in mode Home, Mentions or UserTimeline, `Execute("Reply")`
reads the selection.  If the selection is not one or more decimal digits, no
window is opened and the result is `true`.  If it is, and this process has a
live window named `/twitter/reply/<selection>`, that window is shown, no window
is opened and the result is `true`.  If it is, there is no such window, and the
editor creates a window at the first or second attempt, exactly one window is
opened, a Compose window with the selection as reply target and the title
`/twitter/reply/<selection>`, registered and with its event loop started, and
the result is `true`. -/
theorem Execute_Reply (sortSort : byModified → byModified) (w : window) (s : World)
    (hmode : w.mode = .modeHome ∨ w.mode = .modeMentions ∨ w.mode = .modeUserTimeline) :
    (decimalDigits.MatchString (w.Win.Selection).1 = false →
      w.Execute sortSort "Reply" s = .ret true (s.put { w with Win := (w.Win.Selection).2 }) ∧
      s.opened (w.Execute sortSort "Reply" s).state = []) ∧
    (decimalDigits.MatchString (w.Win.Selection).1 = true →
      ∀ v, (s.put { w with Win := (w.Win.Selection).2 }).named
          ("/twitter/reply/" ++ (w.Win.Selection).1) = some v →
        w.Execute sortSort "Reply" s =
          .ret true ((s.put { w with Win := (w.Win.Selection).2 }).put
            { v with Win := v.Win.Ctl "show" }) ∧
        s.opened (w.Execute sortSort "Reply" s).state = []) ∧
    (decimalDigits.MatchString (w.Win.Selection).1 = true →
      (s.put { w with Win := (w.Win.Selection).2 }).named
          ("/twitter/reply/" ++ (w.Win.Selection).1) = none →
      s.createFails = false →
      ∃ s', w.Execute sortSort "Reply" s = .ret true s' ∧
        s.opened s' = [s.freshReply (w.Win.Selection).1] ∧
        (s.freshReply (w.Win.Selection).1).mode = .modeUpdate ∧
        (s.freshReply (w.Win.Selection).1).inReply = (w.Win.Selection).1 ∧
        (s.freshReply (w.Win.Selection).1).Win.name = "/twitter/reply/" ++ (w.Win.Selection).1 ∧
        s'.all_m.get (s.freshReply (w.Win.Selection).1).Win.id =
          some (s.freshReply (w.Win.Selection).1).addr ∧
        s'.goroutines = s.goroutines ++ [.loop (s.freshReply (w.Win.Selection).1).addr] ∧
        s'.ops = s.ops) := by
  have hexec : w.Execute sortSort "Reply" s =
      if decimalDigits.MatchString (w.Win.Selection).1 then
        (newUpdateWindow (w.Win.Selection).1 (s.put { w with Win := (w.Win.Selection).2 })).bind
          fun _ s => .ret true s
      else .ret true (s.put { w with Win := (w.Win.Selection).2 }) := by
    rcases hmode with h | h | h <;> simp [window.Execute, h]
  refine ⟨?_, ?_, ?_⟩
  · intro hd
    rw [hexec]
    simp [hd, Outcome.state, World.opened, World.put]
  · intro hd v hv
    have hre := decimalDigits_ne_empty _ hd
    have hnew : newUpdateWindow (w.Win.Selection).1 (s.put { w with Win := (w.Win.Selection).2 }) =
        .ret () ((s.put { w with Win := (w.Win.Selection).2 }).put
          { v with Win := v.Win.Ctl "show" }) := by
      simp [newUpdateWindow, hre, acme.Show, hv]
    rw [hexec, if_pos hd, hnew]
    simp [Outcome.bind, Outcome.state, World.opened, World.put]
  · intro hd hnone hcan
    have hre := decimalDigits_ne_empty _ hd
    obtain ⟨s', hnew, hopened, _, hreg, hgo, hops, _⟩ :=
      newUpdateWindow_creates (w.Win.Selection).1 (s.put { w with Win := (w.Win.Selection).2 })
        hre (decimalDigits_plain _ hd) hnone (by simpa [World.createFails, World.put] using hcan)
    refine ⟨s', ?_, ?_, rfl, rfl, rfl, ?_, ?_, ?_⟩
    · rw [hexec, if_pos hd, hnew]
      rfl
    · simpa [World.opened, World.put, World.freshReply] using hopened
    · simpa [World.put, World.freshReply] using hreg
    · simpa [World.put, World.freshReply] using hgo
    · simpa [World.put] using hops

/-- C5 as amended, with `7` selected in the home window and no other window
open: one Compose window titled `/twitter/reply/7` with reply target `7` is
opened. -/
theorem Execute_Reply_witness :
    (homeWindow.mode = .modeHome ∨ homeWindow.mode = .modeMentions ∨
      homeWindow.mode = .modeUserTimeline) ∧
    decimalDigits.MatchString (homeWindow.Win.Selection).1 = true ∧
    (homeWorld.put { homeWindow with Win := (homeWindow.Win.Selection).2 }).named
      ("/twitter/reply/" ++ (homeWindow.Win.Selection).1) = none ∧
    homeWorld.createFails = false ∧
    (homeWindow.Execute go119.sort.Sort "Reply" homeWorld).val? = some true ∧
    (homeWorld.opened (homeWindow.Execute go119.sort.Sort "Reply" homeWorld).state).map
        (fun v => (v.Win.name, v.inReply, v.mode, v.Win.tag)) =
      [("/twitter/reply/7", "7", .modeUpdate, " Post ")] := by
  have hd : decimalDigits.MatchString (homeWindow.Win.Selection).1 = true := by decide
  have hnone : (homeWorld.put { homeWindow with Win := (homeWindow.Win.Selection).2 }).named
      ("/twitter/reply/" ++ (homeWindow.Win.Selection).1) = none := by decide
  have hcan : homeWorld.createFails = false := by decide
  obtain ⟨s', hexec, hopened, _⟩ :=
    (Execute_Reply go119.sort.Sort homeWindow homeWorld (Or.inl rfl)).2.2 hd hnone hcan
  refine ⟨Or.inl rfl, hd, hnone, hcan, ?_, ?_⟩
  · rw [hexec]; rfl
  · rw [hexec]
    simp only [Outcome.state, hopened]
    decide

/-! ### `Look` -/

/-- `newUserTimelineWindow` when no live window has the title and the editor
creates the window: exactly one window is created, the UserTimeline window of
the user; it is registered, and its load and its event loop are started. -/
theorem newUserTimelineWindow_creates (screenName : String) (s : World)
    (hnone : s.named ("/twitter/users/" ++ screenName) = none) (hcan : s.createFails = false) :
    ∃ s', newUserTimelineWindow screenName s = .ret () s' ∧
      s.opened s' = [s.madeUser screenName] ∧
      (s.wellFormed → s'.windows = s.windows ++ [s.madeUser screenName]) ∧
      s'.all_m.get s.next = some (s.next + 1) ∧
      s'.goroutines = s.goroutines ++ [.load (s.next + 1), .loop (s.next + 1)] ∧
      s'.ops = s.ops ∧ s'.written = s.written := by
  obtain ⟨s0, hnew, hwin, hreg, hgo, hops, hwr, _, _, _⟩ :=
    newWindow_ok ("/twitter/users/" ++ screenName) s hcan
  have hshow : acme.Show ("/twitter/users/" ++ screenName) s = (none, s) := by
    simp [acme.Show, hnone]
  have hw : ({ { s.made ("/twitter/users/" ++ screenName) with mode := .modeUserTimeline } with
      screenName := screenName } : window).resetTag = s.madeUser screenName := rfl
  have haddr : (s.madeUser screenName).addr = s.next + 1 := rfl
  refine ⟨(((s0.put (s.madeUser screenName)).go (.load (s.next + 1))).go (.loop (s.next + 1))),
    ?_, ?_, ?_, ?_, ?_, ?_, ?_⟩
  · unfold newUserTimelineWindow
    simp only [hshow, hnew, Outcome.bind, hw, haddr]
  · simp [World.opened, World.go, World.put, hwin, haddr, World.made]
  · intro hwf
    simp only [World.go, World.put, hwin, List.map_append, List.map_cons, List.map_nil]
    rw [put_fresh_of_wellFormed s _ hwf haddr]
    simp [haddr, World.made]
  · simpa [World.go, World.put] using hreg
  · simp [World.go, World.put, hgo]
  · simpa [World.go, World.put] using hops
  · simpa [World.go, World.put] using hwr

/-- The UserTimeline window of a plain screen name. -/
theorem madeUser_plain (s : World) (screenName : String) (hplain : plainName screenName) :
    s.madeUser screenName = s.freshUser screenName := by
  unfold World.madeUser
  rw [made_plain s _ (by simp [String.data_append]) (plainName_append _ _ (by decide) hplain)]
  simp [window.resetTag, World.fresh, World.freshUser, Win.Ctl, Win.Fprintf, Win.Write,
    fmt_Sprintf_tag_main, String_empty_append]

/-- What `newUserTimelineWindow` sets in the window whatever the screen name:
the mode, the screen name, the error prefix, the tag, and the control messages
sent, of which the first carries the title formatted by `Win.Name`. -/
theorem madeUser_fields (s : World) (screenName : String) :
    (s.madeUser screenName).addr = s.next + 1 ∧
    (s.madeUser screenName).Win.id = s.next ∧
    (s.madeUser screenName).mode = .modeUserTimeline ∧
    (s.madeUser screenName).screenName = screenName ∧
    (s.madeUser screenName).Win.errorPfx = "/twitter/users/" ++ screenName ∧
    (s.madeUser screenName).Win.tag = " New Reply Newer Older Trim Get " ∧
    (s.madeUser screenName).Win.ctl =
      ["name " ++ fmt.Sprintf ("/twitter/users/" ++ screenName) [], "cleartag"] := by
  obtain ⟨h1, h2, h3⟩ := Win_Name_fields
    (({ id := s.next } : Win).SetErrorPrefix ("/twitter/users/" ++ screenName)) s.lines
    ("/twitter/users/" ++ screenName) []
  refine ⟨rfl, ?_, rfl, rfl, ?_, ?_, ?_⟩
  · simpa [World.madeUser, World.made, window.resetTag, Win.Ctl, Win.Fprintf, Win.Write] using h1
  · simpa [World.madeUser, World.made, window.resetTag, Win.Ctl, Win.Fprintf, Win.Write,
      Win.SetErrorPrefix] using h2
  · simp [World.madeUser, window.resetTag, Win.Ctl, Win.Fprintf, Win.Write, fmt_Sprintf_tag_main,
      String_empty_append]
  · have hctl : (s.madeUser screenName).Win.ctl =
        ((({ id := s.next } : Win).SetErrorPrefix ("/twitter/users/" ++ screenName)).Name s.lines
          ("/twitter/users/" ++ screenName) []).1.ctl ++ ["cleartag"] := by
      simp [World.madeUser, World.made, window.resetTag, Win.Ctl, Win.Fprintf, Win.Write]
    rw [hctl, h3]
    rfl

/-- C6 fails on the text `Alice/`: it is not made of digits, and the one stat
that `Look` issues is on the path `users/alice`, not on `users/alice/`; that is
a directory of the sample tree, so a window titled `/twitter/users/alice/` is
opened.  On the text `..` the stat is on `.`, and on the empty text on
`users`. -/
theorem Look_cleaned_path :
    decimalDigits.MatchString "Alice/" = false ∧
    "users/" ++ strings.ToLower homeWorld.caseRanges "Alice/" = "users/alice/" ∧
    (homeWindow.Look "Alice/" homeWorld).state.ops = [.fstat "users/alice"] ∧
    (homeWindow.Look "Alice/" homeWorld).val? = some true ∧
    (homeWorld.opened (homeWindow.Look "Alice/" homeWorld).state).map
        (fun v => (v.Win.name, v.screenName)) = [("/twitter/users/alice/", "alice/")] ∧
    decimalDigits.MatchString ".." = false ∧
    (homeWindow.Look ".." homeWorld).state.ops = [.fstat "."] ∧
    (homeWindow.Look "" homeWorld).state.ops = [.fstat "users"] := by
  refine ⟨by decide, by decide, by decide, by decide, by decide, by decide, by decide,
    by decide⟩

/-- C6 as amended: if the text is one or more decimal digits, `Look` returns
`false` and sends nothing to the remote tree.  Otherwise it sends exactly one
stat, on `path.Join("users", name)` where `name` is the lower-cased text, which
is `users/` followed by `name` when `name` is one plain path element.  If the
stat fails or the result is not a directory, it returns `false` and opens no
window.  Otherwise it returns `true`, having shown the live window named
`/twitter/users/<name>` if this process has one, and else, the editor creating
a window at the first or second attempt, having opened exactly one window, in
mode UserTimeline, with `screenName` equal to `name`.  The title is passed to
`Win.Name` as a format: the new window is named `/twitter/users/<name>` when
`name` holds no `%` and no blank or control character. -/
theorem Look_cases (w : window) (t : String) (s : World) :
    (decimalDigits.MatchString t = true → w.Look t s = .ret false s) ∧
    (plainElement (strings.ToLower s.caseRanges t) →
      path.Join ["users", strings.ToLower s.caseRanges t] =
        "users/" ++ strings.ToLower s.caseRanges t) ∧
    (decimalDigits.MatchString t = false →
      (∀ e, s.fsys.stat (path.Join ["users", strings.ToLower s.caseRanges t]) = .error e →
        w.Look t s =
          .ret false (s.log [.fstat (path.Join ["users", strings.ToLower s.caseRanges t])])) ∧
      (∀ d, s.fsys.stat (path.Join ["users", strings.ToLower s.caseRanges t]) = .ok d →
        d.Mode &&& p.DMDIR = 0 →
        w.Look t s =
          .ret false (s.log [.fstat (path.Join ["users", strings.ToLower s.caseRanges t])])) ∧
      (∀ d, s.fsys.stat (path.Join ["users", strings.ToLower s.caseRanges t]) = .ok d →
        d.Mode &&& p.DMDIR ≠ 0 →
        (∀ v, s.named ("/twitter/users/" ++ strings.ToLower s.caseRanges t) = some v →
          w.Look t s =
            .ret true
              ((s.log [.fstat (path.Join ["users", strings.ToLower s.caseRanges t])]).put
                { v with Win := v.Win.Ctl "show" }) ∧
          s.opened (w.Look t s).state = []) ∧
        (s.named ("/twitter/users/" ++ strings.ToLower s.caseRanges t) = none →
          s.createFails = false →
          ∃ s', w.Look t s = .ret true s' ∧
            s.opened s' = [s.madeUser (strings.ToLower s.caseRanges t)] ∧
            (s.madeUser (strings.ToLower s.caseRanges t)).mode = .modeUserTimeline ∧
            (s.madeUser (strings.ToLower s.caseRanges t)).screenName =
              strings.ToLower s.caseRanges t ∧
            (s.madeUser (strings.ToLower s.caseRanges t)).Win.errorPfx =
              "/twitter/users/" ++ strings.ToLower s.caseRanges t ∧
            (s.madeUser (strings.ToLower s.caseRanges t)).Win.tag =
              " New Reply Newer Older Trim Get " ∧
            (s.madeUser (strings.ToLower s.caseRanges t)).Win.ctl =
              ["name " ++ fmt.Sprintf ("/twitter/users/" ++ strings.ToLower s.caseRanges t) [],
                "cleartag"] ∧
            (plainName (strings.ToLower s.caseRanges t) →
              s.madeUser (strings.ToLower s.caseRanges t) =
                s.freshUser (strings.ToLower s.caseRanges t) ∧
              (s.madeUser (strings.ToLower s.caseRanges t)).Win.name =
                "/twitter/users/" ++ strings.ToLower s.caseRanges t ∧
              (s.madeUser (strings.ToLower s.caseRanges t)).Win.deleted = false) ∧
            s'.all_m.get (s.madeUser (strings.ToLower s.caseRanges t)).Win.id =
              some (s.madeUser (strings.ToLower s.caseRanges t)).addr ∧
            s'.goroutines = s.goroutines ++
              [.load (s.madeUser (strings.ToLower s.caseRanges t)).addr,
                .loop (s.madeUser (strings.ToLower s.caseRanges t)).addr] ∧
            s'.ops = s.ops ++ [.fstat (path.Join ["users", strings.ToLower s.caseRanges t])]))) := by
  refine ⟨?_, ?_, ?_⟩
  · intro hd
    simp [window.Look, hd]
  · intro hplain
    exact path_Join_users _ hplain
  · intro hd
    refine ⟨?_, ?_, ?_⟩
    · intro e he
      simp [window.Look, hd, he]
    · intro d hstat hmode
      simp [window.Look, hd, hstat, hmode]
    · intro d hstat hmode
      have hlook : w.Look t s =
          (newUserTimelineWindow (strings.ToLower s.caseRanges t)
            (s.log [.fstat (path.Join ["users", strings.ToLower s.caseRanges t])])).bind
            fun _ s => .ret true s := by
        simp [window.Look, hd, hstat, hmode]
      refine ⟨?_, ?_⟩
      · intro v hv
        have hnew : newUserTimelineWindow (strings.ToLower s.caseRanges t)
            (s.log [.fstat (path.Join ["users", strings.ToLower s.caseRanges t])]) =
            .ret () ((s.log [.fstat (path.Join ["users", strings.ToLower s.caseRanges t])]).put
              { v with Win := v.Win.Ctl "show" }) := by
          have hv' : (s.log [.fstat (path.Join ["users", strings.ToLower s.caseRanges t])]).named
              ("/twitter/users/" ++ strings.ToLower s.caseRanges t) = some v := hv
          simp [newUserTimelineWindow, acme.Show, hv']
        rw [hlook, hnew]
        simp [Outcome.bind, Outcome.state, World.opened, World.put, World.log]
      · intro hnone hcan
        obtain ⟨s', hnew, hopened, _, hreg, hgo, hops, _⟩ :=
          newUserTimelineWindow_creates (strings.ToLower s.caseRanges t)
            (s.log [.fstat (path.Join ["users", strings.ToLower s.caseRanges t])]) hnone hcan
        have hsame : (s.log [.fstat (path.Join ["users", strings.ToLower s.caseRanges t])]).madeUser
            (strings.ToLower s.caseRanges t) = s.madeUser (strings.ToLower s.caseRanges t) := rfl
        rw [hsame] at hopened
        obtain ⟨f1, f2, f3, f4, f5, f6, f7⟩ := madeUser_fields s (strings.ToLower s.caseRanges t)
        refine ⟨s', ?_, ?_, f3, f4, f5, f6, f7, ?_, ?_, ?_, ?_⟩
        · rw [hlook, hnew]; rfl
        · simpa [World.opened, World.log] using hopened
        · intro hplain
          have he := madeUser_plain s _ hplain
          exact ⟨he, by rw [he]; rfl, by rw [he]; rfl⟩
        · rw [f1, f2]
          simpa [World.log] using hreg
        · rw [f1]
          simpa [World.log] using hgo
        · simpa [World.log] using hops

/-- C6 as amended, on the texts `42` and `Alice` with the home window open:
`42` is not handled and nothing is sent; `Alice` sends one stat on
`users/alice`, a directory of the sample tree, and opens the window
`/twitter/users/alice`. -/
theorem Look_cases_witness :
    decimalDigits.MatchString "42" = true ∧
    (homeWindow.Look "42" homeWorld).val? = some false ∧
    (homeWindow.Look "42" homeWorld).state.ops = [] ∧
    decimalDigits.MatchString "Alice" = false ∧
    plainElement (strings.ToLower homeWorld.caseRanges "Alice") ∧
    plainName (strings.ToLower homeWorld.caseRanges "Alice") ∧
    (homeWindow.Look "Alice" homeWorld).val? = some true ∧
    (homeWindow.Look "Alice" homeWorld).state.ops = [.fstat "users/alice"] ∧
    (homeWorld.opened (homeWindow.Look "Alice" homeWorld).state).map
        (fun v => (v.Win.name, v.screenName, v.mode)) =
      [("/twitter/users/alice", "alice", .modeUserTimeline)] := by
  have h := Look_cases homeWindow "Alice" homeWorld
  have h42 := (Look_cases homeWindow "42" homeWorld).1 (by decide)
  have hplain : plainElement (strings.ToLower homeWorld.caseRanges "Alice") := by decide
  have hname : plainName (strings.ToLower homeWorld.caseRanges "Alice") := by decide
  have hpath := h.2.1 hplain
  obtain ⟨s', hlook, hopened, _, _, _, _, _, hfresh, _, _, hops⟩ :=
    ((h.2.2 (by decide)).2.2 { Name := "users/alice", Mtime := 0, Mode := p.DMDIR } rfl
      (by decide)).2 (by decide) (by decide)
  refine ⟨by decide, ?_, ?_, by decide, hplain, hname, ?_, ?_, ?_⟩
  · rw [h42]; rfl
  · rw [h42]; rfl
  · rw [hlook]; rfl
  · rw [hlook]
    simp only [Outcome.state, hops, hpath]
    decide
  · rw [hlook]
    simp only [Outcome.state, hopened, (hfresh hname).1]
    decide

/-- The title of a window is passed to `Win.Name` as a format and the error of
`Win.Name` is discarded.  On the text `100%d`, with `users/100%d` a directory,
the window opened is named `/twitter/users/100%!d(MISSING)`; on the text
`New York`, with `users/new york` a directory, the editor refuses the name and
the window opened has none.  Their screen names are `100%d` and `new york`. -/
theorem Look_formatted_title :
    (oddWorld.opened (homeWindow.Look "100%d" oddWorld).state).map
        (fun v => (v.Win.name, v.screenName, v.Win.ctl)) =
      [("/twitter/users/100%!d(MISSING)", "100%d",
        ["name /twitter/users/100%!d(MISSING)", "cleartag"])] ∧
    (oddWorld.opened (homeWindow.Look "New York" oddWorld).state).map
        (fun v => (v.Win.name, v.screenName, v.Win.ctl)) =
      [("", "new york", ["name /twitter/users/new york", "cleartag"])] := by
  refine ⟨by decide, by decide⟩

/-- C2 with the home window and a Compose window registered: closing the
Compose window first removes its entry only and does not exit; closing the home
window next unmounts and exits with status 0. -/
theorem exit_last_window_witness :
    replyingWorld.all_m = some (((∅ : AList fun _ : Nat => Nat).insert 0 1).insert 4 5) ∧
    ([replyWindow, homeWindow].map window.entry).Perm
      (((∅ : AList fun _ : Nat => Nat).insert 0 1).insert 4 5).entries ∧
    [replyWindow, homeWindow].length = 2 ∧ 1 ≤ 2 ∧
    (replyWindow.exit replyingWorld).exited = none ∧
    (replyWindow.exit replyingWorld).state.all_m.get 0 = some 1 ∧
    (replyWindow.exit replyingWorld).state.all_m.get 4 = none ∧
    (closeAll [replyWindow, homeWindow] replyingWorld).exited = some 0 ∧
    (closeAll [replyWindow, homeWindow] replyingWorld).state.ops = [.unmount] := by
  have hperm : ([replyWindow, homeWindow].map window.entry).Perm
      (((∅ : AList fun _ : Nat => Nat).insert 0 1).insert 4 5).entries := by decide
  have h := exit_last_window replyingWorld _ [replyWindow, homeWindow] 2 rfl hperm rfl
    (by decide)
  obtain ⟨hone, _, hall⟩ := h
  have hr := hone replyWindow (by simp)
  refine ⟨rfl, hperm, rfl, by decide, ?_, ?_, ?_, hall.1, hall.2.1⟩
  · cases hx : (replyWindow.exit replyingWorld).exited with
    | none => rfl
    | some c =>
      have := (hr.2.2.2.2.2 (by decide)).1
      cases hex : replyWindow.exit replyingWorld <;> simp_all [Outcome.exited, Outcome.val?]
  · rw [hr.2.2.1 0 (by decide)]; rfl
  · exact hr.2.1

end T
